import Mathlib

/-!
# NTSerialize: a verification development

Shallow embedding of `NTSerialize.hpp` (class `ntllct::NTSerialize`) and of the
records of `NTSerialize_test.cpp`.

* A byte is a `Nat` (a value below 256 wherever the codecs produce it); the
  content of the `std::stringstream _buffer` is a `List Nat`.
* A fundamental value of `sizeof(T) = W` is the natural number whose `W`
  little-endian bytes are its object representation (the value itself for the
  unsigned integer types); `sizeof(size_t) = 8` as on the `-m64` build named in
  the test file.
* `std::stringstream` is the structure `Stream`: content, get position, put
  position and the `eofbit` / `failbit` state bits (`badbit` is never raised by
  an in-memory buffer and is left out).  Its member functions follow the C++14
  library clauses for `basic_istream::read`, `basic_ostream::write`, `seekp`,
  `seekg`, `tellg`, `str` and `operator<<(streambuf*)`.
* Every `operator<<` / `operator>>` template is a function that takes the
  element's own operator as an argument (the overload the compiler resolves
  `*this << *it` to).  `operator<<` is named `write_…`, `operator>>` is named
  `read_…`, after the words of the trace lines in the source.
* The trace lines printed under `_is_debug` are counted in the ghost field
  `console`.
-/

namespace ntllct

/-- The value of `sizeof( size_t )` on the 64-bit build. -/
def sizeof_size_t : Nat := 8

/-- The object representation of a fundamental value: `W` bytes, least
significant first (`reinterpret_cast<const char*>( &data )`, `sizeof( T )`). -/
def toBytes : Nat → Nat → List Nat
  | 0, _ => []
  | W + 1, n => n % 256 :: toBytes W (n / 256)

/-- The value whose object representation is the given bytes. -/
def ofBytes : List Nat → Nat
  | [] => 0
  | b :: bs => b + 256 * ofBytes bs

/-- The enumeration `std::ios_base::seekdir`. -/
inductive seekdir where
  | beg
  | cur
  | end_
deriving DecidableEq, Repr

/-- The `std::stringstream` member `_buffer`: its character sequence, the get
and put positions and the stream state bits. -/
structure Stream where
  buf : List Nat
  gpos : Nat
  ppos : Nat
  eofbit : Bool
  failbit : Bool
deriving DecidableEq, Repr

namespace Stream

/-- A default-constructed `std::stringstream`. -/
def empty : Stream := ⟨[], 0, 0, false, false⟩

/-- The member `good()`: no state bit is set. -/
def good (s : Stream) : Bool := !s.eofbit && !s.failbit

/-- The member `fail()`. -/
def fail (s : Stream) : Bool := s.failbit

/-- The member `clear()` of `std::basic_ios`: the state becomes `goodbit`. -/
def clear (s : Stream) : Stream := { s with eofbit := false, failbit := false }

/-- The member `str()`: a copy of the whole character sequence. -/
def str (s : Stream) : List Nat := s.buf

/-- The member `str( s )`: the character sequence is replaced and both
positions return to the start; the state bits are not touched. -/
def setstr (s : Stream) (v : List Nat) : Stream := { s with buf := v, gpos := 0, ppos := 0 }

/-- The member `write( src, n )` with `n = src.length`: when the stream is
good the characters are stored from the put position on, over the characters
already there and growing the sequence as needed; otherwise nothing is
stored. -/
def write (s : Stream) (src : List Nat) : Stream :=
  if s.good then
    { s with buf := s.buf.take s.ppos ++ src ++ s.buf.drop (s.ppos + src.length),
             ppos := s.ppos + src.length }
  else s

/-- The member `read( dst, n )`: `dst` is the prior content of the `n` bytes of
destination memory.  When the stream is good, up to `n` characters are taken
from the get position and stored over the front of the destination; fewer than
`n` raises `eofbit | failbit`.  When the stream is not good nothing is
extracted and `failbit` is raised. -/
def read (s : Stream) (dst : List Nat) (n : Nat) : List Nat × Stream :=
  if s.good then
    let got := (s.buf.drop s.gpos).take n
    let s1 := { s with gpos := s.gpos + got.length }
    (got ++ dst.drop got.length,
      if got.length = n then s1 else { s1 with eofbit := true, failbit := true })
  else (dst, { s with failbit := true })

/-- The offset a seek aims at, for an offset that is not negative. -/
def target (len cur off : Nat) : seekdir → Nat
  | .beg => off
  | .cur => cur + off
  | .end_ => len + off

/-- The member `seekp( off, way )`: nothing happens when `fail()`; a target
outside the sequence raises `failbit`. -/
def seekp (s : Stream) (off : Nat) (way : seekdir) : Stream :=
  if s.fail then s
  else if target s.buf.length s.ppos off way ≤ s.buf.length then
    { s with ppos := target s.buf.length s.ppos off way }
  else { s with failbit := true }

/-- The member `seekg( off, way )`: `eofbit` is cleared first; then as
`seekp`, on the get position. -/
def seekg (s : Stream) (off : Nat) (way : seekdir) : Stream :=
  let s1 := { s with eofbit := false }
  if s1.fail then s1
  else if target s1.buf.length s1.gpos off way ≤ s1.buf.length then
    { s1 with gpos := target s1.buf.length s1.gpos off way }
  else { s1 with failbit := true }

/-- The member `tellg()`: the get position, or `-1` (with `failbit` raised)
when the stream is not good. -/
def tellg (s : Stream) : Int × Stream :=
  if s.good then ((s.gpos : Int), s) else (-1, { s with failbit := true })

/-- The inserter `operator<<( std::streambuf* )` fed with a source holding the
characters `src`: when the stream is good they are stored at the put position,
and `failbit` is raised when no character was inserted; when the stream is not
good nothing is inserted. -/
def insert_streambuf (s : Stream) (src : List Nat) : Stream :=
  if s.good then
    if src.length = 0 then { s with failbit := true } else s.write src
  else s

end Stream

/-- The enumeration `ntsdirective`. -/
inductive ntsdirective where
  | clear
  | posstart
  | posend
  | debug
  | nodebug
deriving DecidableEq, Repr

/-- The class `NTSerialize`: the stream `_buffer`, the flag `_is_debug`, and
the number of trace lines it has sent to `std::cout`. -/
structure NTSerialize where
  _buffer : Stream
  _is_debug : Bool
  console : Nat
deriving DecidableEq, Repr

namespace NTSerialize

/-- A newly constructed instance. -/
def fresh : NTSerialize := ⟨Stream.empty, false, 0⟩

/-- The block `if( _is_debug ) { ... std::cout << "DEBUG ..." << std::endl; }`. -/
def trace (st : NTSerialize) : NTSerialize :=
  if st._is_debug then { st with console := st.console + 1 } else st

/-- The member `clear()`. -/
def clear (st : NTSerialize) : NTSerialize :=
  { st with _buffer := (st._buffer.clear).setstr [] }

/-- The member `operator<<( const ntsdirective command )`. -/
def directive (st : NTSerialize) (command : ntsdirective) : NTSerialize :=
  if command = ntsdirective.clear then st.clear
  else if command = ntsdirective.posstart then
    { st with _buffer := st._buffer.seekp 0 seekdir.beg }
  else if command = ntsdirective.posend then
    { st with _buffer := st._buffer.seekp 0 seekdir.end_ }
  else if command = ntsdirective.debug then { st with _is_debug := true }
  else if command = ntsdirective.nodebug then { st with _is_debug := false }
  else st

/-- The member `get()`, used to put raw bytes through the stream. -/
def get_write (st : NTSerialize) (src : List Nat) : NTSerialize :=
  { st with _buffer := st._buffer.write src }

/-- The member `pos()`. -/
def pos (st : NTSerialize) : Int × NTSerialize :=
  ((st._buffer.tellg).1, { st with _buffer := (st._buffer.tellg).2 })

/-- The member `pos( size_t pos, std::ios_base::seekdir way )`.  The offset handed
to `seekg` is `pos` as `off_type` holds it, which is `pos` itself for every
`pos` below `2^63`; the embedding takes the offset to be `pos` throughout. -/
def setpos (st : NTSerialize) (pos : Nat) (way : seekdir) : NTSerialize :=
  { st with _buffer := st._buffer.seekg pos way }

/-- The member `operator<<( const T data )` for a fundamental `T` of
`sizeof( T ) = W`. -/
def write_fundamental (W : Nat) (data : Nat) (st : NTSerialize) : NTSerialize :=
  let st1 := st.trace
  { st1 with _buffer := st1._buffer.write (toBytes W data) }

/-- The member `operator>>( T& data )` for a fundamental `T` of
`sizeof( T ) = W`; `data` is the value the destination held. -/
def read_fundamental (W : Nat) (data : Nat) (st : NTSerialize) : Nat × NTSerialize :=
  let r := st._buffer.read (toBytes W data) W
  (ofBytes r.1, ({ st with _buffer := r.2 } : NTSerialize).trace)

/-- The member `operator<<( const T data )` for a class `T`; `image` is the
object representation of `data`, `sizeof( T )` bytes. -/
def write_class (image : List Nat) (st : NTSerialize) : NTSerialize :=
  let st1 := st.trace
  { st1 with _buffer := st1._buffer.write image }

/-- The member `operator>>( T& data )` for a class `T`; `image` is the object
representation the destination held. -/
def read_class (image : List Nat) (st : NTSerialize) : List Nat × NTSerialize :=
  let r := st._buffer.read image image.length
  (r.1, ({ st with _buffer := r.2 } : NTSerialize).trace)

/-- The effect of `resize( n )` on a sequence: the first `n` elements are kept
and value-initialised elements `d` fill up to length `n`.  This is the effect
for every `n` the container can hold (`n ≤ max_size()`, with the memory to
allocate it); beyond that `resize` throws, which the embedding leaves out. -/
def resize {α : Type} (l : List α) (n : Nat) (d : α) : List α :=
  l.take n ++ List.replicate (n - l.length) d

/-- The loop `for( it = data.cbegin(); it != data.cend(); ++it ) *this << *it;`
with `enc` the operator `*this << *it` resolves to. -/
def write_each {α : Type} (enc : α → NTSerialize → NTSerialize) :
    List α → NTSerialize → NTSerialize
  | [], st => st
  | x :: xs, st => write_each enc xs (enc x st)

/-- The loop `for( i = 0; i < size_; ++i ) *this >> data[i];` over a
destination of `size_` elements, with `dec` the operator `*this >> data[i]`
resolves to: every element is decoded in place. -/
def read_each {α : Type} (dec : α → NTSerialize → α × NTSerialize) :
    List α → NTSerialize → List α × NTSerialize
  | [], st => ([], st)
  | x :: xs, st =>
    let r := dec x st
    let rs := read_each dec xs r.2
    (r.1 :: rs.1, rs.2)

/-- The statements `size_t size_ = 0; _buffer.read( &size_, sizeof( size_t ) );`
that open every decoder of a counted shape. -/
def read_size (st : NTSerialize) : Nat × NTSerialize :=
  let r := st._buffer.read (toBytes sizeof_size_t 0) sizeof_size_t
  (ofBytes r.1, { st with _buffer := r.2 })

/-- The statement `_buffer.write( &size_, sizeof( size_t ) );`. -/
def write_size (size_ : Nat) (st : NTSerialize) : NTSerialize :=
  { st with _buffer := st._buffer.write (toBytes sizeof_size_t size_) }

/-- The member `operator<<( const std::string& data )`. -/
def write_string (data : List Nat) (st : NTSerialize) : NTSerialize :=
  let st1 := st.trace
  let size_ := data.length
  let st2 := write_size size_ st1
  { st2 with _buffer := st2._buffer.write data }

/-- The member `operator>>( std::string& data )`. -/
def read_string (data : List Nat) (st : NTSerialize) : List Nat × NTSerialize :=
  let r := read_size st
  let size_ := r.1
  let data1 := resize data size_ 0
  let r2 := r.2._buffer.read data1 size_
  (r2.1, ({ r.2 with _buffer := r2.2 } : NTSerialize).trace)

/-- The member `operator<<( const std::vector<T>& data )`. -/
def write_vector {α : Type} (enc : α → NTSerialize → NTSerialize) (data : List α)
    (st : NTSerialize) : NTSerialize :=
  let st1 := st.trace
  let size_ := data.length
  let st2 := write_size size_ st1
  write_each enc data st2

/-- The member `operator>>( std::vector<T>& data )`; `T()` is the
value-initialised element `resize` fills with. -/
def read_vector {α : Type} (dec : α → NTSerialize → α × NTSerialize) (T : α)
    (data : List α) (st : NTSerialize) : List α × NTSerialize :=
  let r := read_size st
  let size_ := r.1
  let st1 := r.2.trace
  let data1 := resize data size_ T
  read_each dec data1 st1

/-- The member `operator<<( const std::deque<T>& data )`. -/
def write_deque {α : Type} (enc : α → NTSerialize → NTSerialize) (data : List α)
    (st : NTSerialize) : NTSerialize :=
  let st1 := st.trace
  let size_ := data.length
  let st2 := write_size size_ st1
  write_each enc data st2

/-- The member `operator>>( std::deque<T>& data )`. -/
def read_deque {α : Type} (dec : α → NTSerialize → α × NTSerialize) (T : α)
    (data : List α) (st : NTSerialize) : List α × NTSerialize :=
  let r := read_size st
  let size_ := r.1
  let st1 := r.2.trace
  let data1 := resize data size_ T
  read_each dec data1 st1

/-! The member `operator<<( const std::forward_list<T>& data )` has no
embedding: its body starts with `data.size()`, and `std::forward_list` has no
member `size()`, so the template has no instantiation and no program can call
it.  The decoder below uses `resize` and the iterators only and is
well-formed. -/

/-- The member `operator>>( std::forward_list<T>& data )`. -/
def read_forward_list {α : Type} (dec : α → NTSerialize → α × NTSerialize) (T : α)
    (data : List α) (st : NTSerialize) : List α × NTSerialize :=
  let r := read_size st
  let size_ := r.1
  let st1 := r.2.trace
  let data1 := resize data size_ T
  read_each dec data1 st1

/-- The member `operator<<( const std::list<T>& data )`. -/
def write_list {α : Type} (enc : α → NTSerialize → NTSerialize) (data : List α)
    (st : NTSerialize) : NTSerialize :=
  let size_ := data.length
  let st1 := st.trace
  let st2 := write_size size_ st1
  write_each enc data st2

/-- The member `operator>>( std::list<T>& data )`. -/
def read_list {α : Type} (dec : α → NTSerialize → α × NTSerialize) (T : α)
    (data : List α) (st : NTSerialize) : List α × NTSerialize :=
  let r := read_size st
  let size_ := r.1
  let st1 := r.2.trace
  let data1 := resize data size_ T
  read_each dec data1 st1

/-- The member `operator<<( const std::pair<T1, T2>& data )`. -/
def write_pair {α β : Type} (enc1 : α → NTSerialize → NTSerialize)
    (enc2 : β → NTSerialize → NTSerialize) (data : α × β) (st : NTSerialize) :
    NTSerialize :=
  let st1 := st.trace
  let st2 := enc1 data.1 st1
  enc2 data.2 st2

/-- The member `operator>>( std::pair<T1, T2>& data )`. -/
def read_pair {α β : Type} (dec1 : α → NTSerialize → α × NTSerialize)
    (dec2 : β → NTSerialize → β × NTSerialize) (data : α × β) (st : NTSerialize) :
    (α × β) × NTSerialize :=
  let st1 := st.trace
  let r1 := dec1 data.1 st1
  let r2 := dec2 data.2 r1.2
  ((r1.1, r2.1), r2.2)

/-- The loop `for( i = 0; i < size_; ++i ) { T val_; *this >> val_;
data.insert( val_ ); }` (`push` for the adapters) shared by the decoders of the
associative shapes: `n` iterations are left, `i` is the loop index, `val_ i`
is what the local `val_` holds before the element is decoded into it. -/
def read_insert {α C : Type} (dec : α → NTSerialize → α × NTSerialize) (val_ : Nat → α)
    (insert : α → C → C) : Nat → Nat → C → NTSerialize → C × NTSerialize
  | 0, _, data, st => (data, st)
  | n + 1, i, data, st =>
    let r := dec (val_ i) st
    read_insert dec val_ insert n (i + 1) (insert r.1 data) r.2

/-- The member `insert` of `std::set<T>`, a strictly ascending sequence: the
value goes to its place in the order, and nothing happens when it is there
already. -/
def set_insert {α : Type} [LinearOrder α] (x : α) : List α → List α
  | [] => [x]
  | y :: ys =>
    if x < y then x :: y :: ys
    else if y < x then y :: set_insert x ys
    else y :: ys

/-- The member `insert` of `std::multiset<T>`, an ascending sequence: the value
goes after the last element not greater than it. -/
def multiset_insert {α : Type} [LinearOrder α] (x : α) : List α → List α
  | [] => [x]
  | y :: ys => if x < y then x :: y :: ys else y :: multiset_insert x ys

/-- The member `insert` of `std::map<T1, T2>`, a sequence of pairs strictly
ascending in the key: nothing happens when the key is there already. -/
def map_insert {κ β : Type} [LinearOrder κ] (x : κ × β) : List (κ × β) → List (κ × β)
  | [] => [x]
  | y :: ys =>
    if x.1 < y.1 then x :: y :: ys
    else if y.1 < x.1 then y :: map_insert x ys
    else y :: ys

/-- The member `insert` of an unordered multi-key container, given as its
iteration sequence: the element is added, at the place `slot x l` of the
sequence that the hashing of the implementation picks. -/
def unordered_insert {α : Type} (slot : α → List α → Nat) (x : α) (l : List α) : List α :=
  l.take (slot x l) ++ x :: l.drop (slot x l)

/-- The member `operator<<( const std::set<T>& data )`; `data` is the set in
iteration order. -/
def write_set {α : Type} (enc : α → NTSerialize → NTSerialize) (data : List α)
    (st : NTSerialize) : NTSerialize :=
  let size_ := data.length
  let st1 := st.trace
  let st2 := write_size size_ st1
  write_each enc data st2

/-- The member `operator>>( std::set<T>& data )`. -/
def read_set {α : Type} [LinearOrder α] (dec : α → NTSerialize → α × NTSerialize)
    (val_ : Nat → α) (data : List α) (st : NTSerialize) : List α × NTSerialize :=
  let r := read_size st
  let size_ := r.1
  let st1 := r.2.trace
  read_insert dec val_ set_insert size_ 0 data st1

/-- The member `operator<<( const std::multiset<T>& data )`. -/
def write_multiset {α : Type} (enc : α → NTSerialize → NTSerialize) (data : List α)
    (st : NTSerialize) : NTSerialize :=
  let size_ := data.length
  let st1 := st.trace
  let st2 := write_size size_ st1
  write_each enc data st2

/-- The member `operator>>( std::multiset<T>& data )`. -/
def read_multiset {α : Type} [LinearOrder α] (dec : α → NTSerialize → α × NTSerialize)
    (val_ : Nat → α) (data : List α) (st : NTSerialize) : List α × NTSerialize :=
  let r := read_size st
  let size_ := r.1
  let st1 := r.2.trace
  read_insert dec val_ multiset_insert size_ 0 data st1

/-- The member `operator<<( const std::map<T1, T2>& data )`; the element
operator is the one of `std::pair<T1, T2>`. -/
def write_map {κ β : Type} (enc1 : κ → NTSerialize → NTSerialize)
    (enc2 : β → NTSerialize → NTSerialize) (data : List (κ × β)) (st : NTSerialize) :
    NTSerialize :=
  let size_ := data.length
  let st1 := st.trace
  let st2 := write_size size_ st1
  write_each (write_pair enc1 enc2) data st2

/-- The member `operator>>( std::map<T1, T2>& data )`. -/
def read_map {κ β : Type} [LinearOrder κ] (dec1 : κ → NTSerialize → κ × NTSerialize)
    (dec2 : β → NTSerialize → β × NTSerialize) (val_ : Nat → κ × β)
    (data : List (κ × β)) (st : NTSerialize) : List (κ × β) × NTSerialize :=
  let r := read_size st
  let size_ := r.1
  let st1 := r.2.trace
  read_insert (read_pair dec1 dec2) val_ map_insert size_ 0 data st1

/-- The member `operator<<( const std::unordered_multimap<T1,T2>& data )`;
`data` is the container in its iteration order. -/
def write_unordered_multimap {κ β : Type} (enc1 : κ → NTSerialize → NTSerialize)
    (enc2 : β → NTSerialize → NTSerialize) (data : List (κ × β)) (st : NTSerialize) :
    NTSerialize :=
  let size_ := data.length
  let st1 := st.trace
  let st2 := write_size size_ st1
  write_each (write_pair enc1 enc2) data st2

/-- The member `operator>>( std::unordered_multimap<T1, T2>& data )`. -/
def read_unordered_multimap {κ β : Type} (slot : κ × β → List (κ × β) → Nat)
    (dec1 : κ → NTSerialize → κ × NTSerialize)
    (dec2 : β → NTSerialize → β × NTSerialize) (val_ : Nat → κ × β)
    (data : List (κ × β)) (st : NTSerialize) : List (κ × β) × NTSerialize :=
  let r := read_size st
  let size_ := r.1
  let st1 := r.2.trace
  read_insert (read_pair dec1 dec2) val_ (unordered_insert slot) size_ 0 data st1

/-- The byte a `bool` is stored as. -/
def ofBool (b : Bool) : Nat := if b then 1 else 0

/-- The `bool` a stored byte is read as. -/
def toBool (n : Nat) : Bool := n != 0

/-- The member `operator<<( const std::vector<bool>& data )`: each element is
converted to `bool` and goes through the operator of the fundamental types,
`sizeof( bool ) = 1`. -/
def write_vector_bool (data : List Bool) (st : NTSerialize) : NTSerialize :=
  let st1 := st.trace
  let size_ := data.length
  let st2 := write_size size_ st1
  write_each (fun b => write_fundamental 1 (ofBool b)) data st2

/-- The loop `for( i = 0; i < size_; ++i ) { bool val_; *this >> val_;
data[i] = val_; }` over a destination of `size_` elements; `val_ i` is what the
local holds before the read. -/
def read_vector_bool_loop (val_ : Nat → Bool) :
    List Bool → Nat → NTSerialize → List Bool × NTSerialize
  | [], _, st => ([], st)
  | _ :: xs, i, st =>
    let r := read_fundamental 1 (ofBool (val_ i)) st
    let rs := read_vector_bool_loop val_ xs (i + 1) r.2
    (toBool r.1 :: rs.1, rs.2)

/-- The member `operator>>( std::vector<bool>& data )`. -/
def read_vector_bool (val_ : Nat → Bool) (data : List Bool) (st : NTSerialize) :
    List Bool × NTSerialize :=
  let r := read_size st
  let size_ := r.1
  let st1 := r.2.trace
  let data1 := resize data size_ false
  read_vector_bool_loop val_ data1 0 st1

/-- The loop `for( i = 0; i < size_; ++i ) { *this << data.front();
data.pop(); }` of the queue encoders (`top()` for the priority queue): the
adapter is the sequence of its elements in removal order.  The loop runs
`size_ = data.size()` times, so the branch of an empty adapter is not
reached. -/
def write_drain_loop {α : Type} (enc : α → NTSerialize → NTSerialize) :
    Nat → NTSerialize → List α → NTSerialize × List α
  | 0, st, data => (st, data)
  | n + 1, st, data =>
    match data with
    | [] => (st, data)
    | front :: rest => write_drain_loop enc n (enc front st) rest

/-- The member `push` of `std::queue<T>`, a sequence front first. -/
def queue_push {α : Type} (x : α) (data : List α) : List α := data ++ [x]

/-- The member `push` of `std::priority_queue<T>`, a sequence in removal
order, greatest first. -/
def priority_queue_push {α : Type} [LinearOrder α] (x : α) : List α → List α
  | [] => [x]
  | y :: ys => if y < x then x :: y :: ys else y :: priority_queue_push x ys

/-- The member `operator<<( const std::queue<T>& data )`, read as the source
text has it (it calls `pop()` through a reference to `const`): the buffer and
the queue after the call. -/
def write_queue {α : Type} (enc : α → NTSerialize → NTSerialize) (data : List α)
    (st : NTSerialize) : NTSerialize × List α :=
  let size_ := data.length
  let st1 := st.trace
  let st2 := write_size size_ st1
  write_drain_loop enc size_ st2 data

/-- The member `operator>>( std::queue<T>& data )`. -/
def read_queue {α : Type} (dec : α → NTSerialize → α × NTSerialize) (val_ : Nat → α)
    (data : List α) (st : NTSerialize) : List α × NTSerialize :=
  let r := read_size st
  let size_ := r.1
  let st1 := r.2.trace
  read_insert dec val_ queue_push size_ 0 data st1

/-- The member `operator<<( const std::priority_queue<T>& data )`, read as the
source text has it: the buffer and the adapter after the call. -/
def write_priority_queue {α : Type} (enc : α → NTSerialize → NTSerialize) (data : List α)
    (st : NTSerialize) : NTSerialize × List α :=
  let size_ := data.length
  let st1 := st.trace
  let st2 := write_size size_ st1
  write_drain_loop enc size_ st2 data

/-- The member `operator>>( std::priority_queue<T>& data )`. -/
def read_priority_queue {α : Type} [LinearOrder α] (dec : α → NTSerialize → α × NTSerialize)
    (val_ : Nat → α) (data : List α) (st : NTSerialize) : List α × NTSerialize :=
  let r := read_size st
  let size_ := r.1
  let st1 := r.2.trace
  read_insert dec val_ priority_queue_push size_ 0 data st1

/-- The member `operator<<( const std::array<T, N>& data )`, `N` the length of
`data`. -/
def write_array {α : Type} (enc : α → NTSerialize → NTSerialize) (data : List α)
    (st : NTSerialize) : NTSerialize :=
  let st1 := st.trace
  write_each enc data st1

/-- The member `operator>>( std::array<T, N>& data )`. -/
def read_array {α : Type} (dec : α → NTSerialize → α × NTSerialize) (data : List α)
    (st : NTSerialize) : List α × NTSerialize :=
  let st1 := st.trace
  read_each dec data st1

/-- The member `operator<<( const T (&data)[N] )`. -/
def write_builtin_array {α : Type} (enc : α → NTSerialize → NTSerialize) (data : List α)
    (st : NTSerialize) : NTSerialize :=
  let st1 := st.trace
  write_each enc data st1

/-- The member `operator>>( T (&data)[N] )`. -/
def read_builtin_array {α : Type} (dec : α → NTSerialize → α × NTSerialize) (data : List α)
    (st : NTSerialize) : List α × NTSerialize :=
  let st1 := st.trace
  read_each dec data st1

/-- The member `insert` of `std::multimap<T1, T2>`, a sequence of pairs
ascending in the key: the pair goes after the last one whose key is not
greater. -/
def multimap_insert {κ β : Type} [LinearOrder κ] (x : κ × β) : List (κ × β) → List (κ × β)
  | [] => [x]
  | y :: ys => if x.1 < y.1 then x :: y :: ys else y :: multimap_insert x ys

/-- The member `insert` of `std::unordered_set<T>`: nothing happens when the
value is there already. -/
def unordered_set_insert {α : Type} [DecidableEq α] (slot : α → List α → Nat) (x : α)
    (l : List α) : List α :=
  if x ∈ l then l else unordered_insert slot x l

/-- The member `insert` of `std::unordered_map<T1, T2>`: nothing happens when
the key is there already. -/
def unordered_map_insert {κ β : Type} [DecidableEq κ] (slot : κ × β → List (κ × β) → Nat)
    (x : κ × β) (l : List (κ × β)) : List (κ × β) :=
  if x.1 ∈ l.map Prod.fst then l else unordered_insert slot x l

/-- The member `operator<<( const std::unordered_set<T>& data )`. -/
def write_unordered_set {α : Type} (enc : α → NTSerialize → NTSerialize) (data : List α)
    (st : NTSerialize) : NTSerialize :=
  let size_ := data.length
  let st1 := st.trace
  let st2 := write_size size_ st1
  write_each enc data st2

/-- The member `operator>>( std::unordered_set<T>& data )`. -/
def read_unordered_set {α : Type} [DecidableEq α] (slot : α → List α → Nat)
    (dec : α → NTSerialize → α × NTSerialize) (val_ : Nat → α) (data : List α)
    (st : NTSerialize) : List α × NTSerialize :=
  let r := read_size st
  let size_ := r.1
  let st1 := r.2.trace
  read_insert dec val_ (unordered_set_insert slot) size_ 0 data st1

/-- The member `operator<<( const std::unordered_multiset<T>& data )`. -/
def write_unordered_multiset {α : Type} (enc : α → NTSerialize → NTSerialize)
    (data : List α) (st : NTSerialize) : NTSerialize :=
  let size_ := data.length
  let st1 := st.trace
  let st2 := write_size size_ st1
  write_each enc data st2

/-- The member `operator>>( std::unordered_multiset<T>& data )`. -/
def read_unordered_multiset {α : Type} (slot : α → List α → Nat)
    (dec : α → NTSerialize → α × NTSerialize) (val_ : Nat → α) (data : List α)
    (st : NTSerialize) : List α × NTSerialize :=
  let r := read_size st
  let size_ := r.1
  let st1 := r.2.trace
  read_insert dec val_ (unordered_insert slot) size_ 0 data st1

/-- The member `operator<<( const std::multimap<T1, T2>& data )`. -/
def write_multimap {κ β : Type} (enc1 : κ → NTSerialize → NTSerialize)
    (enc2 : β → NTSerialize → NTSerialize) (data : List (κ × β)) (st : NTSerialize) :
    NTSerialize :=
  let size_ := data.length
  let st1 := st.trace
  let st2 := write_size size_ st1
  write_each (write_pair enc1 enc2) data st2

/-- The member `operator>>( std::multimap<T1, T2>& data )`. -/
def read_multimap {κ β : Type} [LinearOrder κ] (dec1 : κ → NTSerialize → κ × NTSerialize)
    (dec2 : β → NTSerialize → β × NTSerialize) (val_ : Nat → κ × β)
    (data : List (κ × β)) (st : NTSerialize) : List (κ × β) × NTSerialize :=
  let r := read_size st
  let size_ := r.1
  let st1 := r.2.trace
  read_insert (read_pair dec1 dec2) val_ multimap_insert size_ 0 data st1

/-- The member `operator<<( const std::unordered_map<T1, T2>& data )`. -/
def write_unordered_map {κ β : Type} (enc1 : κ → NTSerialize → NTSerialize)
    (enc2 : β → NTSerialize → NTSerialize) (data : List (κ × β)) (st : NTSerialize) :
    NTSerialize :=
  let size_ := data.length
  let st1 := st.trace
  let st2 := write_size size_ st1
  write_each (write_pair enc1 enc2) data st2

/-- The member `operator>>( std::unordered_map<T1, T2>& data )`. -/
def read_unordered_map {κ β : Type} [DecidableEq κ] (slot : κ × β → List (κ × β) → Nat)
    (dec1 : κ → NTSerialize → κ × NTSerialize)
    (dec2 : β → NTSerialize → β × NTSerialize) (val_ : Nat → κ × β)
    (data : List (κ × β)) (st : NTSerialize) : List (κ × β) × NTSerialize :=
  let r := read_size st
  let size_ := r.1
  let st1 := r.2.trace
  read_insert (read_pair dec1 dec2) val_ (unordered_map_insert slot) size_ 0 data st1

/-- The first loop of `operator<<( std::stack<T>& data )`:
`*this << data.top(); temp_[i] = data.top(); data.pop();`, `n` iterations left
at index `i`.  A stack is the sequence of its elements, top first.  The loop
runs `size_ = data.size()` times, so the branch of an empty stack is not
reached. -/
def write_stack_loop {α : Type} (enc : α → NTSerialize → NTSerialize) :
    Nat → Nat → NTSerialize → List α → List α → NTSerialize × List α × List α
  | 0, _, st, temp_, data => (st, temp_, data)
  | n + 1, i, st, temp_, data =>
    match data with
    | [] => (st, temp_, data)
    | top :: rest => write_stack_loop enc n (i + 1) (enc top st) (temp_.set i top) rest

/-- The loop `for( it = temp_.crbegin(); it != temp_.crend(); ++it )
data.push( *it );`. -/
def push_reversed {α : Type} (temp_ : List α) (data : List α) : List α :=
  temp_.reverse.foldl (fun d x => x :: d) data

/-- The member `operator<<( std::stack<T>& data )`: the buffer after the call
and the stack after the call. -/
def write_stack {α : Type} (enc : α → NTSerialize → NTSerialize) (T : α) (data : List α)
    (st : NTSerialize) : NTSerialize × List α :=
  let size_ := data.length
  let st1 := st.trace
  let st2 := write_size size_ st1
  let temp_ := resize [] size_ T
  let r := write_stack_loop enc size_ 0 st2 temp_ data
  (r.1, push_reversed r.2.1 r.2.2)

/-- The first loop of `operator>>( std::stack<T>& data )`:
`T val_; *this >> val_; temp_[i] = val_;`. -/
def read_stack_loop {α : Type} (dec : α → NTSerialize → α × NTSerialize) (val_ : Nat → α) :
    Nat → Nat → NTSerialize → List α → NTSerialize × List α
  | 0, _, st, temp_ => (st, temp_)
  | n + 1, i, st, temp_ =>
    let r := dec (val_ i) st
    read_stack_loop dec val_ n (i + 1) r.2 (temp_.set i r.1)

/-- The member `operator>>( std::stack<T>& data )`. -/
def read_stack {α : Type} (dec : α → NTSerialize → α × NTSerialize) (T : α)
    (val_ : Nat → α) (data : List α) (st : NTSerialize) : List α × NTSerialize :=
  let r := read_size st
  let size_ := r.1
  let st1 := r.2.trace
  let temp_ := resize [] size_ T
  let l := read_stack_loop dec val_ size_ 0 st1 temp_
  (push_reversed l.2 data, l.1)

end NTSerialize

/-- The files the program can reach: the bytes of the file at a path
(`none` when it cannot be opened for input), whether a path can be opened for
output, and how many bytes the file at a path has room for before a write to it
fails (a full device has room for none). -/
structure Disk where
  file : String → Option (List Nat)
  creatable : String → Bool
  room : String → Nat

namespace NTSerialize

/-- The member `save( filename )`: the returned flag, the disk afterwards and
the instance afterwards.  When the file does not open nothing happens.
Otherwise opening truncates it, `ofs_ << _buffer.str()` puts the bytes of the
whole content into it as far as there is room, and the flag `ofs_.good()`
after the `close()` tells whether all of them went in.  The instance is only
read, through the `const` member `str()`. -/
def save (st : NTSerialize) (filename : String) (d : Disk) : Bool × Disk × NTSerialize :=
  if !d.creatable filename then (false, d, st)
  else
    (decide (st._buffer.str.length ≤ d.room filename),
      { d with file := fun p =>
          if p = filename then some (st._buffer.str.take (d.room filename)) else d.file p },
      st)

/-- The member `load( filename )`: the returned flag and the instance
afterwards. -/
def load (st : NTSerialize) (filename : String) (d : Disk) : Bool × NTSerialize :=
  match d.file filename with
  | none => (false, st)
  | some bytes =>
    (true, { st with _buffer := (st._buffer.insert_streambuf bytes).seekp 0 seekdir.beg })

end NTSerialize

/-- The record `TestStruct1` of the test file: two `unsigned int`. -/
structure TestStruct1 where
  x1 : Nat
  x2 : Nat
deriving DecidableEq, Repr

/-- The object representation of a `TestStruct1`: `x1` at offset 0, `x2` at
offset 4, `sizeof( TestStruct1 ) = 8`. -/
def TestStruct1.image (t : TestStruct1) : List Nat := toBytes 4 t.x1 ++ toBytes 4 t.x2

/-- The `TestStruct1` whose object representation is the given 8 bytes. -/
def TestStruct1.ofImage (bs : List Nat) : TestStruct1 :=
  ⟨ofBytes (bs.take 4), ofBytes ((bs.drop 4).take 4)⟩

/-- The record `TestStruct2` of the test file (its `std::fstream fs` member
is never serialised). -/
structure TestStruct2 where
  x1 : Nat
  x2 : Nat
deriving DecidableEq, Repr

namespace NTSerialize

/-- The expression `ser << struct1` for a `TestStruct1`: the class operator. -/
def write_TestStruct1 (data : TestStruct1) (st : NTSerialize) : NTSerialize :=
  write_class data.image st

/-- The expression `ser >> struct1` for a `TestStruct1`. -/
def read_TestStruct1 (data : TestStruct1) (st : NTSerialize) : TestStruct1 × NTSerialize :=
  let r := read_class data.image st
  (TestStruct1.ofImage r.1, r.2)

/-- The friend `operator<<( NTSerialize& bnz, const TestStruct2& ts2 )`. -/
def write_TestStruct2 (ts2 : TestStruct2) (bnz : NTSerialize) : NTSerialize :=
  write_fundamental 4 ts2.x2 (write_fundamental 4 ts2.x1 bnz)

/-- The friend `operator>>( NTSerialize& bnz, TestStruct2& ts2 )`. -/
def read_TestStruct2 (ts2 : TestStruct2) (bnz : NTSerialize) : TestStruct2 × NTSerialize :=
  let r1 := read_fundamental 4 ts2.x1 bnz
  let r2 := read_fundamental 4 ts2.x2 r1.2
  (⟨r1.1, r2.1⟩, r2.2)

end NTSerialize

/-- The shapes built from fixed-width scalars, text, pairs and dynamic
arrays. -/
inductive Shape where
  | scalar (W : Nat)
  | text
  | pair (a b : Shape)
  | vector (a : Shape)
deriving DecidableEq, Repr

namespace Shape

/-- The values of a shape. -/
@[reducible] def Val : Shape → Type
  | scalar _ => Nat
  | text => List Nat
  | pair a b => a.Val × b.Val
  | vector a => List a.Val

/-- The value-initialised value `T()` of a shape. -/
def T : (s : Shape) → s.Val
  | scalar _ => (0 : Nat)
  | text => ([] : List Nat)
  | pair a b => (a.T, b.T)
  | vector _ => []

/-- The operator `<<` the compiler selects for a value of the shape. -/
def write : (s : Shape) → s.Val → NTSerialize → NTSerialize
  | scalar W => NTSerialize.write_fundamental W
  | text => NTSerialize.write_string
  | pair a b => NTSerialize.write_pair a.write b.write
  | vector a => NTSerialize.write_vector a.write

/-- The operator `>>` the compiler selects for a destination of the shape. -/
def read : (s : Shape) → s.Val → NTSerialize → s.Val × NTSerialize
  | scalar W => NTSerialize.read_fundamental W
  | text => NTSerialize.read_string
  | pair a b => NTSerialize.read_pair a.read b.read
  | vector a => NTSerialize.read_vector a.read a.T

/-- The values a C++ object of the shape can hold: a scalar fits its width and
every size fits `size_t`. -/
def Valid : (s : Shape) → s.Val → Prop
  | scalar W, v => v < 256 ^ W
  | text, v => v.length < 256 ^ sizeof_size_t
  | pair a b, v => a.Valid v.1 ∧ b.Valid v.2
  | vector a, v => v.length < 256 ^ sizeof_size_t ∧ ∀ x ∈ v, a.Valid x

end Shape

/-- The wire bytes of a run of elements: the elements' encodings, one after
the other. -/
def wire_each {α : Type} (w : α → List Nat) : List α → List Nat
  | [] => []
  | x :: xs => w x ++ wire_each w xs

/-- The envelope of a variable-length collection as the specification words
it: the count in `sizeof( size_t )` bytes, then the element encodings. -/
def wire_counted {α : Type} (w : α → List Nat) (xs : List α) : List Nat :=
  toBytes sizeof_size_t xs.length ++ wire_each w xs

/-- The wire format of a shape as the specification words it: raw bytes of a
scalar, length-prefixed bytes of a text, the two parts of a pair in order, the
count-prefixed elements of a dynamic array. -/
def Shape.wire : (s : Shape) → s.Val → List Nat
  | .scalar W, v => toBytes W v
  | .text, v => toBytes sizeof_size_t v.length ++ v
  | .pair a b, v => a.wire v.1 ++ b.wire v.2
  | .vector a, v => wire_counted a.wire v

/-- The scenario of decoding a value right where it was encoded: `v` is
encoded, the bytes `later` are put after it, the read cursor is set to the
offset the buffer ended at before the encode, and a value of the same shape is
decoded over the destination `d`. -/
def decode_after_encode (s : Shape) (v d : s.Val) (st : NTSerialize) (later : List Nat) :
    s.Val × NTSerialize :=
  s.read d (((s.write v st).get_write later).setpos st._buffer.buf.length seekdir.beg)

/-- The function `test_easy` of the test file, for any value, text,
destinations, file name and disk: the decoded value and text. -/
def test_easy (val_out_ : Nat) (text_out_ : List Nat) (val_in_ : Nat) (text_in_ : List Nat)
    (filename : String) (d : Disk) : Nat × List Nat :=
  let ser_out := NTSerialize.write_string text_out_
    (NTSerialize.write_fundamental sizeof_size_t val_out_ NTSerialize.fresh)
  let d1 := (ser_out.save filename d).2.1
  let ser_in := (NTSerialize.fresh.load filename d1).2
  let r1 := NTSerialize.read_fundamental sizeof_size_t val_in_ ser_in
  let r2 := NTSerialize.read_string text_in_ r1.2
  (r1.1, r2.1)

/-- The function `test_struct` of the test file, for any field values,
destinations, file name and disk: the two decoded records. -/
def test_struct (struct_out1_ : TestStruct1) (struct_out2_ : TestStruct2)
    (struct_in1_ : TestStruct1) (struct_in2_ : TestStruct2) (filename : String) (d : Disk) :
    TestStruct1 × TestStruct2 :=
  let ser_out := NTSerialize.write_TestStruct2 struct_out2_
    (NTSerialize.write_TestStruct1 struct_out1_ NTSerialize.fresh)
  let d1 := (ser_out.save filename d).2.1
  let ser_in := (NTSerialize.fresh.load filename d1).2
  let r1 := NTSerialize.read_TestStruct1 struct_in1_ ser_in
  let r2 := NTSerialize.read_TestStruct2 struct_in2_ r1.2
  (r1.1, r2.1)

/-- What it means for `enc` to be an encoder with wire bytes `w`: on every
instance it acts on the stream as one `write` of `w v`, and it leaves the trace
flag alone. -/
def Encodes {α : Type} (enc : α → NTSerialize → NTSerialize) (w : α → List Nat) : Prop :=
  ∀ v st, (enc v st)._buffer = st._buffer.write (w v) ∧ (enc v st)._is_debug = st._is_debug

/-- What it means for `dec` to be the decoder of the wire bytes `w` on the
values satisfying `ok`: on a good stream whose unread bytes start with `w v`
it yields `v` whatever the destination held, moves the get position past
`w v` and changes nothing else of the stream nor the trace flag. -/
def Decodes {α : Type} (dec : α → NTSerialize → α × NTSerialize) (w : α → List Nat)
    (ok : α → Prop) : Prop :=
  ∀ v d st rest, ok v → st._buffer.good = true →
    st._buffer.buf.drop st._buffer.gpos = w v ++ rest →
    (dec d st).1 = v ∧
    (dec d st).2._buffer = { st._buffer with gpos := st._buffer.gpos + (w v).length } ∧
    (dec d st).2._is_debug = st._is_debug

/-- One call on an instance: an encode or a decode of a shape, a directive
(clear, the two write-cursor seeks, trace on, trace off), or a repositioning of
the read cursor. -/
inductive Op where
  | encode (s : Shape) (v : s.Val)
  | decode (s : Shape) (d : s.Val)
  | directive (command : ntsdirective)
  | setpos (pos : Nat) (way : seekdir)

/-- The effect of one call: the instance afterwards and the value a decode
produced. -/
def Op.run : Op → NTSerialize → NTSerialize × List (Σ s : Shape, s.Val)
  | .encode s v, st => (s.write v st, [])
  | .decode s d, st => ((s.read d st).2, [⟨s, (s.read d st).1⟩])
  | .directive command, st => (st.directive command, [])
  | .setpos pos way, st => (st.setpos pos way, [])

/-- The effect of a sequence of calls: the instance afterwards and the decoded
values in order. -/
def run : List Op → NTSerialize → NTSerialize × List (Σ s : Shape, s.Val)
  | [], st => (st, [])
  | op :: ops, st => ((run ops (op.run st).1).1, (op.run st).2 ++ (run ops (op.run st).1).2)

/-- What it means for a decoder to look at the stream only: on two instances
with the same stream it yields the same value and the same stream. -/
def StreamOnly {α : Type} (dec : α → NTSerialize → α × NTSerialize) : Prop :=
  ∀ d st st', st._buffer = st'._buffer →
    (dec d st).1 = (dec d st').1 ∧ (dec d st).2._buffer = (dec d st').2._buffer

/-- What a decode may do to the stream between the instance `st` before the
call and the instance `st'` after it: the content bytes and the write cursor
are the same and the read cursor has not moved back. -/
def ReadFrame (st st' : NTSerialize) : Prop :=
  st'._buffer.buf = st._buffer.buf ∧ st'._buffer.ppos = st._buffer.ppos ∧
    st._buffer.gpos ≤ st'._buffer.gpos

/-- The destination a call decodes into, if it is a decode. -/
def Op.destination : Op → List (Σ s : Shape, s.Val)
  | .decode s d => [⟨s, d⟩]
  | _ => []

/-- The destinations of the decodes of a sequence of calls, in order. -/
def destinations : List Op → List (Σ s : Shape, s.Val)
  | [] => []
  | op :: ops => op.destination ++ destinations ops

/-- The calls that are an encode of some shape or a decode of a fixed-width
value into a destination that fits the width. -/
def Op.isEncodeOrScalarDecode : Op → Prop
  | .encode _ _ => True
  | .decode (.scalar W) d => d < 256 ^ W
  | _ => False

/-- The encoders of the header that yield the instance: every operator `<<`
on a value, with the element operators of a template being encoders in turn
(and the two records of the test file). -/
inductive IsEncoder : (α : Type) → (α → NTSerialize → NTSerialize) → Prop where
  | fundamental (W : Nat) : IsEncoder Nat (NTSerialize.write_fundamental W)
  | class_ : IsEncoder (List Nat) NTSerialize.write_class
  | string : IsEncoder (List Nat) NTSerialize.write_string
  | vector {α : Type} {enc : α → NTSerialize → NTSerialize} (h : IsEncoder α enc) :
      IsEncoder (List α) (NTSerialize.write_vector enc)
  | vector_bool : IsEncoder (List Bool) NTSerialize.write_vector_bool
  | deque {α : Type} {enc : α → NTSerialize → NTSerialize} (h : IsEncoder α enc) :
      IsEncoder (List α) (NTSerialize.write_deque enc)
  | list {α : Type} {enc : α → NTSerialize → NTSerialize} (h : IsEncoder α enc) :
      IsEncoder (List α) (NTSerialize.write_list enc)
  | array {α : Type} {enc : α → NTSerialize → NTSerialize} (h : IsEncoder α enc) :
      IsEncoder (List α) (NTSerialize.write_array enc)
  | builtin_array {α : Type} {enc : α → NTSerialize → NTSerialize} (h : IsEncoder α enc) :
      IsEncoder (List α) (NTSerialize.write_builtin_array enc)
  | set {α : Type} {enc : α → NTSerialize → NTSerialize} (h : IsEncoder α enc) :
      IsEncoder (List α) (NTSerialize.write_set enc)
  | multiset {α : Type} {enc : α → NTSerialize → NTSerialize} (h : IsEncoder α enc) :
      IsEncoder (List α) (NTSerialize.write_multiset enc)
  | unordered_set {α : Type} {enc : α → NTSerialize → NTSerialize} (h : IsEncoder α enc) :
      IsEncoder (List α) (NTSerialize.write_unordered_set enc)
  | unordered_multiset {α : Type} {enc : α → NTSerialize → NTSerialize}
      (h : IsEncoder α enc) : IsEncoder (List α) (NTSerialize.write_unordered_multiset enc)
  | pair {α β : Type} {enc1 : α → NTSerialize → NTSerialize}
      {enc2 : β → NTSerialize → NTSerialize} (h1 : IsEncoder α enc1) (h2 : IsEncoder β enc2) :
      IsEncoder (α × β) (NTSerialize.write_pair enc1 enc2)
  | map {κ β : Type} {enc1 : κ → NTSerialize → NTSerialize}
      {enc2 : β → NTSerialize → NTSerialize} (h1 : IsEncoder κ enc1) (h2 : IsEncoder β enc2) :
      IsEncoder (List (κ × β)) (NTSerialize.write_map enc1 enc2)
  | multimap {κ β : Type} {enc1 : κ → NTSerialize → NTSerialize}
      {enc2 : β → NTSerialize → NTSerialize} (h1 : IsEncoder κ enc1) (h2 : IsEncoder β enc2) :
      IsEncoder (List (κ × β)) (NTSerialize.write_multimap enc1 enc2)
  | unordered_map {κ β : Type} {enc1 : κ → NTSerialize → NTSerialize}
      {enc2 : β → NTSerialize → NTSerialize} (h1 : IsEncoder κ enc1) (h2 : IsEncoder β enc2) :
      IsEncoder (List (κ × β)) (NTSerialize.write_unordered_map enc1 enc2)
  | unordered_multimap {κ β : Type} {enc1 : κ → NTSerialize → NTSerialize}
      {enc2 : β → NTSerialize → NTSerialize} (h1 : IsEncoder κ enc1) (h2 : IsEncoder β enc2) :
      IsEncoder (List (κ × β)) (NTSerialize.write_unordered_multimap enc1 enc2)
  | testStruct1 : IsEncoder TestStruct1 NTSerialize.write_TestStruct1
  | testStruct2 : IsEncoder TestStruct2 NTSerialize.write_TestStruct2

/-- What `*this << data.top()` can resolve to inside the encoder of a stack:
`top()` of a stack that is not `const` yields a reference that is not `const`,
so besides the encoders of values the encoder of a stack is a candidate (a
stack of stacks).  That encoder hands the inner stack back as it found it, so
as an element operator its effect is the instance it yields. -/
inductive IsStackElementEncoder : (α : Type) → (α → NTSerialize → NTSerialize) → Prop where
  | value {α : Type} {enc : α → NTSerialize → NTSerialize} (h : IsEncoder α enc) :
      IsStackElementEncoder α enc
  | stack {α : Type} {enc : α → NTSerialize → NTSerialize} (h : IsStackElementEncoder α enc)
      (T : α) :
      IsStackElementEncoder (List α) (fun data st => (NTSerialize.write_stack enc T data st).1)

/-- The encoders of the header that also change their argument: the operators
`<<` on the three adapters, which yield the instance and the adapter after the
call.  The elements of a queue and of a priority queue are reached through
references to `const` and go through the encoders of values. -/
inductive IsAdapterEncoder :
    (α : Type) → (List α → NTSerialize → NTSerialize × List α) → Prop where
  | stack {α : Type} {enc : α → NTSerialize → NTSerialize} (h : IsStackElementEncoder α enc)
      (T : α) : IsAdapterEncoder α (NTSerialize.write_stack enc T)
  | queue {α : Type} {enc : α → NTSerialize → NTSerialize} (h : IsEncoder α enc) :
      IsAdapterEncoder α (NTSerialize.write_queue enc)
  | priority_queue {α : Type} {enc : α → NTSerialize → NTSerialize} (h : IsEncoder α enc) :
      IsAdapterEncoder α (NTSerialize.write_priority_queue enc)

/-- The decoders of the header: every operator `>>` on a destination, with the
element operators of a template being decoders in turn (and the two records of
the test file). -/
inductive IsDecoder : (α : Type) → (α → NTSerialize → α × NTSerialize) → Prop where
  | fundamental (W : Nat) : IsDecoder Nat (NTSerialize.read_fundamental W)
  | class_ : IsDecoder (List Nat) NTSerialize.read_class
  | string : IsDecoder (List Nat) NTSerialize.read_string
  | vector {α : Type} {dec : α → NTSerialize → α × NTSerialize} (h : IsDecoder α dec)
      (T : α) : IsDecoder (List α) (NTSerialize.read_vector dec T)
  | vector_bool (val_ : Nat → Bool) : IsDecoder (List Bool) (NTSerialize.read_vector_bool val_)
  | deque {α : Type} {dec : α → NTSerialize → α × NTSerialize} (h : IsDecoder α dec)
      (T : α) : IsDecoder (List α) (NTSerialize.read_deque dec T)
  | forward_list {α : Type} {dec : α → NTSerialize → α × NTSerialize} (h : IsDecoder α dec)
      (T : α) : IsDecoder (List α) (NTSerialize.read_forward_list dec T)
  | list {α : Type} {dec : α → NTSerialize → α × NTSerialize} (h : IsDecoder α dec)
      (T : α) : IsDecoder (List α) (NTSerialize.read_list dec T)
  | queue {α : Type} {dec : α → NTSerialize → α × NTSerialize} (h : IsDecoder α dec)
      (val_ : Nat → α) : IsDecoder (List α) (NTSerialize.read_queue dec val_)
  | priority_queue {α : Type} [LinearOrder α] {dec : α → NTSerialize → α × NTSerialize}
      (h : IsDecoder α dec) (val_ : Nat → α) :
      IsDecoder (List α) (NTSerialize.read_priority_queue dec val_)
  | stack {α : Type} {dec : α → NTSerialize → α × NTSerialize} (h : IsDecoder α dec)
      (T : α) (val_ : Nat → α) : IsDecoder (List α) (NTSerialize.read_stack dec T val_)
  | array {α : Type} {dec : α → NTSerialize → α × NTSerialize} (h : IsDecoder α dec) :
      IsDecoder (List α) (NTSerialize.read_array dec)
  | builtin_array {α : Type} {dec : α → NTSerialize → α × NTSerialize}
      (h : IsDecoder α dec) : IsDecoder (List α) (NTSerialize.read_builtin_array dec)
  | set {α : Type} [LinearOrder α] {dec : α → NTSerialize → α × NTSerialize}
      (h : IsDecoder α dec) (val_ : Nat → α) : IsDecoder (List α) (NTSerialize.read_set dec val_)
  | multiset {α : Type} [LinearOrder α] {dec : α → NTSerialize → α × NTSerialize}
      (h : IsDecoder α dec) (val_ : Nat → α) :
      IsDecoder (List α) (NTSerialize.read_multiset dec val_)
  | unordered_set {α : Type} [DecidableEq α] {dec : α → NTSerialize → α × NTSerialize}
      (slot : α → List α → Nat) (h : IsDecoder α dec) (val_ : Nat → α) :
      IsDecoder (List α) (NTSerialize.read_unordered_set slot dec val_)
  | unordered_multiset {α : Type} {dec : α → NTSerialize → α × NTSerialize}
      (slot : α → List α → Nat) (h : IsDecoder α dec) (val_ : Nat → α) :
      IsDecoder (List α) (NTSerialize.read_unordered_multiset slot dec val_)
  | pair {α β : Type} {dec1 : α → NTSerialize → α × NTSerialize}
      {dec2 : β → NTSerialize → β × NTSerialize} (h1 : IsDecoder α dec1)
      (h2 : IsDecoder β dec2) : IsDecoder (α × β) (NTSerialize.read_pair dec1 dec2)
  | map {κ β : Type} [LinearOrder κ] {dec1 : κ → NTSerialize → κ × NTSerialize}
      {dec2 : β → NTSerialize → β × NTSerialize} (h1 : IsDecoder κ dec1)
      (h2 : IsDecoder β dec2) (val_ : Nat → κ × β) :
      IsDecoder (List (κ × β)) (NTSerialize.read_map dec1 dec2 val_)
  | multimap {κ β : Type} [LinearOrder κ] {dec1 : κ → NTSerialize → κ × NTSerialize}
      {dec2 : β → NTSerialize → β × NTSerialize} (h1 : IsDecoder κ dec1)
      (h2 : IsDecoder β dec2) (val_ : Nat → κ × β) :
      IsDecoder (List (κ × β)) (NTSerialize.read_multimap dec1 dec2 val_)
  | unordered_map {κ β : Type} [DecidableEq κ] {dec1 : κ → NTSerialize → κ × NTSerialize}
      {dec2 : β → NTSerialize → β × NTSerialize} (slot : κ × β → List (κ × β) → Nat)
      (h1 : IsDecoder κ dec1) (h2 : IsDecoder β dec2) (val_ : Nat → κ × β) :
      IsDecoder (List (κ × β)) (NTSerialize.read_unordered_map slot dec1 dec2 val_)
  | unordered_multimap {κ β : Type} {dec1 : κ → NTSerialize → κ × NTSerialize}
      {dec2 : β → NTSerialize → β × NTSerialize} (slot : κ × β → List (κ × β) → Nat)
      (h1 : IsDecoder κ dec1) (h2 : IsDecoder β dec2) (val_ : Nat → κ × β) :
      IsDecoder (List (κ × β)) (NTSerialize.read_unordered_multimap slot dec1 dec2 val_)
  | testStruct1 : IsDecoder TestStruct1 NTSerialize.read_TestStruct1
  | testStruct2 : IsDecoder TestStruct2 NTSerialize.read_TestStruct2

/-- One call on an instance, of any kind the header offers: an encode of a
value, an encode of an adapter, a decode into a destination, a directive, or a
repositioning of the read cursor. -/
inductive Call : Type 1 where
  | encode {α : Type} (enc : α → NTSerialize → NTSerialize) (h : IsEncoder α enc) (v : α)
  | encodeAdapter {α : Type} (enc : List α → NTSerialize → NTSerialize × List α)
      (h : IsAdapterEncoder α enc) (data : List α)
  | decode {α : Type} (dec : α → NTSerialize → α × NTSerialize) (h : IsDecoder α dec) (d : α)
  | directive (command : ntsdirective)
  | setpos (pos : Nat) (way : seekdir)

/-- The effect of one call: the instance afterwards and what the caller gets
to see, the decoded value of a decode and the adapter an adapter encode leaves
behind. -/
def Call.run : Call → NTSerialize → NTSerialize × List (Σ α : Type, α)
  | .encode enc _ v, st => (enc v st, [])
  | .encodeAdapter enc _ data, st => ((enc data st).1, [⟨_, (enc data st).2⟩])
  | .decode dec _ d, st => ((dec d st).2, [⟨_, (dec d st).1⟩])
  | .directive command, st => (st.directive command, [])
  | .setpos pos way, st => (st.setpos pos way, [])

/-- The effect of a sequence of calls: the instance afterwards and everything
the caller got to see, in order. -/
def runCalls : List Call → NTSerialize → NTSerialize × List (Σ α : Type, α)
  | [], st => (st, [])
  | c :: cs, st => ((runCalls cs (c.run st).1).1, (c.run st).2 ++ (runCalls cs (c.run st).1).2)

/-! ## Bytes -/

@[simp] theorem toBytes_length (W n : Nat) : (toBytes W n).length = W := by
  induction W generalizing n with
  | zero => rfl
  | succ W ih => simp [toBytes, ih]

theorem ofBytes_toBytes (W n : Nat) (h : n < 256 ^ W) : ofBytes (toBytes W n) = n := by
  induction W generalizing n with
  | zero => simp [toBytes, ofBytes] at *; omega
  | succ W ih =>
    have h2 : n / 256 < 256 ^ W := by
      rw [Nat.div_lt_iff_lt_mul (by norm_num)]
      rw [pow_succ] at h; exact h
    simp only [toBytes, ofBytes, ih _ h2]
    omega

theorem drop_add_of_drop_eq {α : Type} (l a b : List α) (n : Nat) (h : l.drop n = a ++ b) :
    l.drop (n + a.length) = b := by
  rw [← List.drop_drop, h]
  simp

/-! ## The stream -/

namespace Stream

theorem write_of_good (s : Stream) (src : List Nat) (hg : s.good = true) :
    s.write src = { s with buf := s.buf.take s.ppos ++ src ++ s.buf.drop (s.ppos + src.length),
                           ppos := s.ppos + src.length } := by
  simp [write, hg]

theorem write_at_end (s : Stream) (src : List Nat) (hg : s.good = true)
    (hp : s.ppos = s.buf.length) :
    s.write src = { s with buf := s.buf ++ src, ppos := s.buf.length + src.length } := by
  rw [write_of_good s src hg, hp]
  simp

@[simp] theorem write_good (s : Stream) (src : List Nat) : (s.write src).good = s.good := by
  unfold write; split <;> simp_all [good]

@[simp] theorem write_gpos (s : Stream) (src : List Nat) : (s.write src).gpos = s.gpos := by
  unfold write; split <;> simp

@[simp] theorem write_nil (s : Stream) : s.write [] = s := by
  unfold write; split <;> simp

theorem write_write (s : Stream) (a b : List Nat) : (s.write a).write b = s.write (a ++ b) := by
  by_cases hg : s.good = true
  · have hg2 : (s.write a).good = true := by simpa using hg
    rw [write_of_good _ b hg2, write_of_good s a hg, write_of_good s (a ++ b) hg]
    simp only [List.length_append, mk.injEq, and_true, true_and]
    refine ⟨?_, by omega⟩
    by_cases hp : s.ppos ≤ s.buf.length
    · have h1 : (List.take s.ppos s.buf ++ a).length = s.ppos + a.length := by simp [hp]
      have h2 : List.take (s.ppos + a.length)
          (List.take s.ppos s.buf ++ a ++ List.drop (s.ppos + a.length) s.buf)
          = List.take s.ppos s.buf ++ a := by
        rw [← h1]; exact List.take_left' rfl
      have h3 : List.drop (s.ppos + a.length + b.length)
          (List.take s.ppos s.buf ++ a ++ List.drop (s.ppos + a.length) s.buf)
          = List.drop (s.ppos + (a.length + b.length)) s.buf := by
        rw [List.drop_append_eq_append_drop, h1]
        have : List.drop (s.ppos + a.length + b.length) (List.take s.ppos s.buf ++ a) = [] :=
          List.drop_eq_nil_of_le (by omega)
        rw [this, List.drop_drop]
        simp only [List.nil_append]
        congr 1; omega
      rw [h2, h3]; simp
    · have hp2 : s.buf.length ≤ s.ppos := by omega
      have e1 : List.take s.ppos s.buf = s.buf := List.take_of_length_le hp2
      have e2 : List.drop (s.ppos + a.length) s.buf = [] := List.drop_eq_nil_of_le (by omega)
      have e3 : List.drop (s.ppos + (a.length + b.length)) s.buf = [] :=
        List.drop_eq_nil_of_le (by omega)
      rw [e1, e2, e3]
      simp only [List.append_nil]
      rw [List.take_of_length_le (by simp; omega), List.drop_eq_nil_of_le (by simp; omega)]
      simp
  · simp [write, hg]

theorem read_exact (s : Stream) (dst bs rest : List Nat) (hg : s.good = true)
    (hb : s.buf.drop s.gpos = bs ++ rest) (hd : dst.length ≤ bs.length) :
    s.read dst bs.length = (bs, { s with gpos := s.gpos + bs.length }) := by
  simp [read, hg, hb, List.drop_eq_nil_of_le hd]

end Stream

/-! ## Encoders -/

namespace NTSerialize

@[simp] theorem trace_buffer (st : NTSerialize) : st.trace._buffer = st._buffer := by
  unfold trace; split <;> rfl

@[simp] theorem trace_is_debug (st : NTSerialize) : st.trace._is_debug = st._is_debug := by
  unfold trace; split <;> rfl

@[simp] theorem write_size_buffer (n : Nat) (st : NTSerialize) :
    (write_size n st)._buffer = st._buffer.write (toBytes sizeof_size_t n) := rfl

@[simp] theorem write_size_is_debug (n : Nat) (st : NTSerialize) :
    (write_size n st)._is_debug = st._is_debug := rfl

theorem encodes_fundamental (W : Nat) : Encodes (write_fundamental W) (toBytes W) := by
  intro v st; simp [write_fundamental]

theorem encodes_class : Encodes write_class (fun image => image) := by
  intro v st; simp [write_class]

theorem encodes_string :
    Encodes write_string (fun data => toBytes sizeof_size_t data.length ++ data) := by
  intro v st; simp [write_string, Stream.write_write]

theorem write_each_spec {α : Type} {enc : α → NTSerialize → NTSerialize} {w : α → List Nat}
    (h : Encodes enc w) (xs : List α) (st : NTSerialize) :
    (write_each enc xs st)._buffer = st._buffer.write (wire_each w xs) ∧
    (write_each enc xs st)._is_debug = st._is_debug := by
  induction xs generalizing st with
  | nil => simp [write_each, wire_each]
  | cons x xs ih =>
    simp only [write_each, wire_each]
    rw [(ih (enc x st)).1, (ih (enc x st)).2, (h x st).1, (h x st).2, Stream.write_write]
    exact ⟨rfl, rfl⟩

theorem encodes_counted {α : Type} {enc : α → NTSerialize → NTSerialize} {w : α → List Nat}
    (h : Encodes enc w) (xs : List α) (st : NTSerialize) :
    (write_each enc xs (write_size xs.length st.trace))._buffer
      = st._buffer.write (wire_counted w xs) ∧
    (write_each enc xs (write_size xs.length st.trace))._is_debug = st._is_debug := by
  rw [(write_each_spec h xs _).1, (write_each_spec h xs _).2]
  simp [wire_counted, Stream.write_write]

theorem encodes_vector {α : Type} {enc : α → NTSerialize → NTSerialize} {w : α → List Nat}
    (h : Encodes enc w) : Encodes (write_vector enc) (wire_counted w) :=
  fun xs st => encodes_counted h xs st

theorem encodes_deque {α : Type} {enc : α → NTSerialize → NTSerialize} {w : α → List Nat}
    (h : Encodes enc w) : Encodes (write_deque enc) (wire_counted w) :=
  fun xs st => encodes_counted h xs st

theorem encodes_list {α : Type} {enc : α → NTSerialize → NTSerialize} {w : α → List Nat}
    (h : Encodes enc w) : Encodes (write_list enc) (wire_counted w) :=
  fun xs st => encodes_counted h xs st

theorem encodes_set {α : Type} {enc : α → NTSerialize → NTSerialize} {w : α → List Nat}
    (h : Encodes enc w) : Encodes (write_set enc) (wire_counted w) :=
  fun xs st => encodes_counted h xs st

theorem encodes_multiset {α : Type} {enc : α → NTSerialize → NTSerialize} {w : α → List Nat}
    (h : Encodes enc w) : Encodes (write_multiset enc) (wire_counted w) :=
  fun xs st => encodes_counted h xs st

theorem encodes_pair {α β : Type} {enc1 : α → NTSerialize → NTSerialize}
    {enc2 : β → NTSerialize → NTSerialize} {w1 : α → List Nat} {w2 : β → List Nat}
    (h1 : Encodes enc1 w1) (h2 : Encodes enc2 w2) :
    Encodes (write_pair enc1 enc2) (fun v => w1 v.1 ++ w2 v.2) := by
  intro v st
  simp only [write_pair]
  rw [(h2 _ _).1, (h2 _ _).2, (h1 _ _).1, (h1 _ _).2, Stream.write_write]
  simp

theorem encodes_map {κ β : Type} {enc1 : κ → NTSerialize → NTSerialize}
    {enc2 : β → NTSerialize → NTSerialize} {w1 : κ → List Nat} {w2 : β → List Nat}
    (h1 : Encodes enc1 w1) (h2 : Encodes enc2 w2) :
    Encodes (write_map enc1 enc2) (wire_counted (fun v => w1 v.1 ++ w2 v.2)) :=
  fun xs st => encodes_counted (encodes_pair h1 h2) xs st

theorem encodes_unordered_multimap {κ β : Type} {enc1 : κ → NTSerialize → NTSerialize}
    {enc2 : β → NTSerialize → NTSerialize} {w1 : κ → List Nat} {w2 : β → List Nat}
    (h1 : Encodes enc1 w1) (h2 : Encodes enc2 w2) :
    Encodes (write_unordered_multimap enc1 enc2) (wire_counted (fun v => w1 v.1 ++ w2 v.2)) :=
  fun xs st => encodes_counted (encodes_pair h1 h2) xs st

end NTSerialize

theorem Shape.encodes (s : Shape) : Encodes s.write s.wire := by
  induction s with
  | scalar W => exact NTSerialize.encodes_fundamental W
  | text => exact NTSerialize.encodes_string
  | pair a b iha ihb => exact NTSerialize.encodes_pair iha ihb
  | vector a ih => exact NTSerialize.encodes_vector ih


/-! ## Decoders -/

namespace NTSerialize

@[simp] theorem resize_length {α : Type} (l : List α) (n : Nat) (d : α) :
    (resize l n d).length = n := by
  simp [resize]; omega

theorem decodes_fundamental (W : Nat) :
    Decodes (read_fundamental W) (toBytes W) (fun v => v < 256 ^ W) := by
  intro v d st rest hv hg hb
  have h := Stream.read_exact st._buffer (toBytes W d) (toBytes W v) rest hg hb (by simp)
  simp only [toBytes_length] at h
  simp [read_fundamental, h, ofBytes_toBytes W v hv]

theorem read_size_spec (st : NTSerialize) (n : Nat) (rest : List Nat)
    (hn : n < 256 ^ sizeof_size_t) (hg : st._buffer.good = true)
    (hb : st._buffer.buf.drop st._buffer.gpos = toBytes sizeof_size_t n ++ rest) :
    read_size st
      = (n, { st with _buffer := { st._buffer with gpos := st._buffer.gpos + sizeof_size_t } }) := by
  have h := Stream.read_exact st._buffer (toBytes sizeof_size_t 0) (toBytes sizeof_size_t n) rest
    hg hb (by simp)
  simp only [toBytes_length] at h
  simp [read_size, h, ofBytes_toBytes _ n hn]

theorem decodes_string :
    Decodes read_string (fun data => toBytes sizeof_size_t data.length ++ data)
      (fun data => data.length < 256 ^ sizeof_size_t) := by
  intro v d st rest hv hg hb
  rw [List.append_assoc] at hb
  have h1 := read_size_spec st v.length (v ++ rest) hv hg hb
  have hb2 := drop_add_of_drop_eq _ _ _ _ hb
  simp only [toBytes_length] at hb2
  have h2 := Stream.read_exact { st._buffer with gpos := st._buffer.gpos + sizeof_size_t }
    (resize d v.length 0) v rest hg hb2 (by simp)
  simp only [read_string, h1, h2]
  simp [Nat.add_assoc]

theorem read_each_spec {α : Type} {dec : α → NTSerialize → α × NTSerialize}
    {w : α → List Nat} {ok : α → Prop} (h : Decodes dec w ok) (xs ds : List α)
    (st : NTSerialize) (rest : List Nat) (hl : ds.length = xs.length) (hok : ∀ x ∈ xs, ok x)
    (hg : st._buffer.good = true)
    (hb : st._buffer.buf.drop st._buffer.gpos = wire_each w xs ++ rest) :
    (read_each dec ds st).1 = xs ∧
    (read_each dec ds st).2._buffer
      = { st._buffer with gpos := st._buffer.gpos + (wire_each w xs).length } ∧
    (read_each dec ds st).2._is_debug = st._is_debug := by
  induction xs generalizing ds st with
  | nil =>
    have : ds = [] := List.length_eq_zero.mp hl
    subst this
    simp [read_each, wire_each]
  | cons x xs ih =>
    match ds, hl with
    | d :: ds, hl =>
      simp only [wire_each, List.append_assoc] at hb
      obtain ⟨e1, e2, e3⟩ := h x d st (wire_each w xs ++ rest) (hok x (by simp)) hg hb
      have hb2 := drop_add_of_drop_eq _ _ _ _ hb
      have hg2 : (dec d st).2._buffer.good = true := by rw [e2]; exact hg
      have hb3 : (dec d st).2._buffer.buf.drop (dec d st).2._buffer.gpos
          = wire_each w xs ++ rest := by rw [e2]; exact hb2
      obtain ⟨f1, f2, f3⟩ := ih ds (dec d st).2 (by simpa using hl)
        (fun y hy => hok y (by simp [hy])) hg2 hb3
      simp only [read_each, wire_each, f1, f2, f3, e1, e2, e3, List.length_append]
      simp [Nat.add_assoc]

theorem decodes_counted {α : Type} {dec : α → NTSerialize → α × NTSerialize}
    {w : α → List Nat} {ok : α → Prop} (h : Decodes dec w ok) (T : α) (xs ds : List α)
    (st : NTSerialize) (rest : List Nat) (hn : xs.length < 256 ^ sizeof_size_t)
    (hok : ∀ x ∈ xs, ok x) (hg : st._buffer.good = true)
    (hb : st._buffer.buf.drop st._buffer.gpos = wire_counted w xs ++ rest) :
    (read_each dec (resize ds (read_size st).1 T) (read_size st).2.trace).1 = xs ∧
    (read_each dec (resize ds (read_size st).1 T) (read_size st).2.trace).2._buffer
      = { st._buffer with gpos := st._buffer.gpos + (wire_counted w xs).length } ∧
    (read_each dec (resize ds (read_size st).1 T) (read_size st).2.trace).2._is_debug
      = st._is_debug := by
  simp only [wire_counted, List.append_assoc] at hb
  have h1 := read_size_spec st xs.length (wire_each w xs ++ rest) hn hg hb
  have hb2 := drop_add_of_drop_eq _ _ _ _ hb
  simp only [toBytes_length] at hb2
  rw [h1]
  obtain ⟨f1, f2, f3⟩ := read_each_spec h xs (resize ds xs.length T)
    (NTSerialize.trace { st with _buffer := { st._buffer with gpos := st._buffer.gpos + sizeof_size_t } })
    rest (by simp) hok (by simpa using hg) (by simpa using hb2)
  refine ⟨f1, ?_, ?_⟩
  · rw [f2]; simp [wire_counted, Nat.add_assoc]
  · rw [f3]; simp

theorem decodes_vector {α : Type} {dec : α → NTSerialize → α × NTSerialize}
    {w : α → List Nat} {ok : α → Prop} (h : Decodes dec w ok) (T : α) :
    Decodes (read_vector dec T) (wire_counted w)
      (fun xs => xs.length < 256 ^ sizeof_size_t ∧ ∀ x ∈ xs, ok x) :=
  fun xs ds st rest hv hg hb => decodes_counted h T xs ds st rest hv.1 hv.2 hg hb

theorem decodes_pair {α β : Type} {dec1 : α → NTSerialize → α × NTSerialize}
    {dec2 : β → NTSerialize → β × NTSerialize} {w1 : α → List Nat} {w2 : β → List Nat}
    {ok1 : α → Prop} {ok2 : β → Prop} (h1 : Decodes dec1 w1 ok1) (h2 : Decodes dec2 w2 ok2) :
    Decodes (read_pair dec1 dec2) (fun v => w1 v.1 ++ w2 v.2) (fun v => ok1 v.1 ∧ ok2 v.2) := by
  intro v d st rest hv hg hb
  simp only [List.append_assoc] at hb
  obtain ⟨e1, e2, e3⟩ := h1 v.1 d.1 st.trace (w2 v.2 ++ rest) hv.1 (by simpa using hg)
    (by simpa using hb)
  have hb2 := drop_add_of_drop_eq _ _ _ _ hb
  obtain ⟨f1, f2, f3⟩ := h2 v.2 d.2 (dec1 d.1 st.trace).2 rest hv.2
    (by rw [e2]; simpa using hg) (by rw [e2]; simpa using hb2)
  simp only [read_pair, e1, f1, f2, f3, e2, e3]
  simp [Nat.add_assoc]

end NTSerialize

theorem Shape.decodes (s : Shape) : Decodes s.read s.wire s.Valid := by
  induction s with
  | scalar W => exact NTSerialize.decodes_fundamental W
  | text => exact NTSerialize.decodes_string
  | pair a b iha ihb => exact NTSerialize.decodes_pair iha ihb
  | vector a ih => exact NTSerialize.decodes_vector ih a.T


/-! ## Loops that insert, and the stack loops -/

namespace NTSerialize

theorem read_insert_spec {α C : Type} {dec : α → NTSerialize → α × NTSerialize}
    {w : α → List Nat} {ok : α → Prop} (h : Decodes dec w ok) (val_ : Nat → α)
    (ins : α → C → C) (xs : List α) (i : Nat) (data : C) (st : NTSerialize)
    (rest : List Nat) (hok : ∀ x ∈ xs, ok x) (hg : st._buffer.good = true)
    (hb : st._buffer.buf.drop st._buffer.gpos = wire_each w xs ++ rest) :
    (read_insert dec val_ ins xs.length i data st).1 = xs.foldl (fun c x => ins x c) data ∧
    (read_insert dec val_ ins xs.length i data st).2._buffer
      = { st._buffer with gpos := st._buffer.gpos + (wire_each w xs).length } ∧
    (read_insert dec val_ ins xs.length i data st).2._is_debug = st._is_debug := by
  induction xs generalizing i data st with
  | nil => simp [read_insert, wire_each]
  | cons x xs ih =>
    simp only [wire_each, List.append_assoc] at hb
    obtain ⟨e1, e2, e3⟩ := h x (val_ i) st (wire_each w xs ++ rest) (hok x (by simp)) hg hb
    have hb2 := drop_add_of_drop_eq _ _ _ _ hb
    obtain ⟨f1, f2, f3⟩ := ih (i + 1) (ins (dec (val_ i) st).1 data) (dec (val_ i) st).2
      (fun y hy => hok y (by simp [hy])) (by rw [e2]; exact hg) (by rw [e2]; exact hb2)
    simp only [List.length_cons, read_insert, List.foldl_cons, wire_each, List.length_append]
    rw [f1, f2, f3, e1, e2, e3]
    simp [Nat.add_assoc]

theorem set_at_end {α : Type} (pre : List α) (x T : α) (n : Nat) :
    (pre ++ List.replicate (n + 1) T).set pre.length x
      = (pre ++ [x]) ++ List.replicate n T := by
  induction pre with
  | nil => simp [List.replicate_succ]
  | cons p pre ih => simpa using ih

theorem write_stack_loop_data {α : Type} (enc : α → NTSerialize → NTSerialize) (T : α)
    (data pre : List α) (st : NTSerialize) :
    (write_stack_loop enc data.length pre.length st (pre ++ List.replicate data.length T) data).2
      = (pre ++ data, []) := by
  induction data generalizing pre st with
  | nil => simp [write_stack_loop]
  | cons x xs ih =>
    simp only [List.length_cons, write_stack_loop, set_at_end]
    have := ih (pre ++ [x]) (enc x st)
    simp only [List.length_append, List.length_singleton] at this
    rw [this]; simp

theorem write_stack_loop_buffer {α : Type} {enc : α → NTSerialize → NTSerialize}
    {w : α → List Nat} (h : Encodes enc w) (data temp_ : List α) (i : Nat)
    (st : NTSerialize) :
    (write_stack_loop enc data.length i st temp_ data).1._buffer
      = st._buffer.write (wire_each w data) ∧
    (write_stack_loop enc data.length i st temp_ data).1._is_debug = st._is_debug := by
  induction data generalizing temp_ i st with
  | nil => simp [write_stack_loop, wire_each]
  | cons x xs ih =>
    simp only [List.length_cons, write_stack_loop, wire_each]
    rw [(ih _ _ _).1, (ih _ _ _).2, (h x st).1, (h x st).2, Stream.write_write]
    exact ⟨rfl, rfl⟩

theorem push_reversed_eq {α : Type} (temp_ data : List α) :
    push_reversed temp_ data = temp_ ++ data := by
  have key : ∀ (l d : List α), l.foldl (fun d x => x :: d) d = l.reverse ++ d := by
    intro l
    induction l with
    | nil => intro d; rfl
    | cons a l ih => intro d; simp [List.foldl_cons, ih]
  simp [push_reversed, key]

theorem read_stack_loop_spec {α : Type} {dec : α → NTSerialize → α × NTSerialize}
    {w : α → List Nat} {ok : α → Prop} (h : Decodes dec w ok) (val_ : Nat → α) (T : α)
    (xs pre : List α) (st : NTSerialize) (rest : List Nat) (hok : ∀ x ∈ xs, ok x)
    (hg : st._buffer.good = true)
    (hb : st._buffer.buf.drop st._buffer.gpos = wire_each w xs ++ rest) :
    (read_stack_loop dec val_ xs.length pre.length st (pre ++ List.replicate xs.length T)).2
      = pre ++ xs ∧
    (read_stack_loop dec val_ xs.length pre.length st (pre ++ List.replicate xs.length T)).1._buffer
      = { st._buffer with gpos := st._buffer.gpos + (wire_each w xs).length } ∧
    (read_stack_loop dec val_ xs.length pre.length st
        (pre ++ List.replicate xs.length T)).1._is_debug = st._is_debug := by
  induction xs generalizing pre st with
  | nil => simp [read_stack_loop, wire_each]
  | cons x xs ih =>
    simp only [wire_each, List.append_assoc] at hb
    obtain ⟨e1, e2, e3⟩ := h x (val_ pre.length) st (wire_each w xs ++ rest)
      (hok x (by simp)) hg hb
    have hb2 := drop_add_of_drop_eq _ _ _ _ hb
    have := ih (pre ++ [x]) (dec (val_ pre.length) st).2
      (fun y hy => hok y (by simp [hy])) (by rw [e2]; exact hg) (by rw [e2]; exact hb2)
    simp only [List.length_append, List.length_singleton] at this
    obtain ⟨f1, f2, f3⟩ := this
    simp only [List.length_cons, read_stack_loop, set_at_end, wire_each, List.length_append]
    rw [e1, f1, f2, f3, e2, e3]
    simp [Nat.add_assoc]

end NTSerialize

theorem Encodes.at_end {α : Type} {enc : α → NTSerialize → NTSerialize} {w : α → List Nat}
    (h : Encodes enc w) (v : α) (st : NTSerialize) (hg : st._buffer.good = true)
    (hp : st._buffer.ppos = st._buffer.buf.length) :
    (enc v st)._buffer = { st._buffer with buf := st._buffer.buf ++ w v,
                                           ppos := st._buffer.buf.length + (w v).length } := by
  rw [(h v st).1, Stream.write_at_end _ _ hg hp]

theorem Encodes.fresh {α : Type} {enc : α → NTSerialize → NTSerialize} {w : α → List Nat}
    (h : Encodes enc w) (v : α) :
    (enc v NTSerialize.fresh)._buffer = ⟨w v, 0, (w v).length, false, false⟩ := by
  rw [h.at_end v NTSerialize.fresh rfl rfl]
  simp [NTSerialize.fresh, Stream.empty]

/-- C1: for every value `v` of a shape built from fixed-width scalars, text,
pairs and dynamic arrays, and every healthy buffer whose write cursor is at
the end of its content, decoding the same shape from the offset where the
encoding of `v` begins yields `v` (whatever the destination held), advances the read
cursor by exactly the number of bytes the encode appended, and leaves the bytes
encoded after `v` as the unread rest of a still healthy buffer. -/
theorem decode_after_encode_roundtrip (s : Shape) (v d : s.Val) (st : NTSerialize)
    (later : List Nat) (hv : s.Valid v) (hg : st._buffer.good = true)
    (hp : st._buffer.ppos = st._buffer.buf.length) :
    (decode_after_encode s v d st later).1 = v ∧
    (decode_after_encode s v d st later).2._buffer.gpos
      = st._buffer.buf.length + ((s.write v st)._buffer.buf.length - st._buffer.buf.length) ∧
    (decode_after_encode s v d st later).2._buffer.buf.drop
      (decode_after_encode s v d st later).2._buffer.gpos = later ∧
    (decode_after_encode s v d st later).2._buffer.good = true := by
  have h1 := (Shape.encodes s).at_end v st hg hp
  have h2 : (((s.write v st).get_write later).setpos st._buffer.buf.length seekdir.beg)._buffer
      = { st._buffer with buf := st._buffer.buf ++ s.wire v ++ later,
                          gpos := st._buffer.buf.length,
                          ppos := st._buffer.buf.length + (s.wire v).length + later.length } := by
    have hf : st._buffer.failbit = false := by
      simp [Stream.good] at hg; exact hg.2
    have he : st._buffer.eofbit = false := by
      simp [Stream.good] at hg; exact hg.1
    simp only [NTSerialize.setpos, NTSerialize.get_write, h1]
    rw [Stream.write_at_end _ _ (by simpa [Stream.good] using hg) (by simp)]
    simp [Stream.seekg, Stream.fail, Stream.target, hf, he]
  obtain ⟨e1, e2, e3⟩ := Shape.decodes s v d
    (((s.write v st).get_write later).setpos st._buffer.buf.length seekdir.beg) later hv
    (by rw [h2]; simpa [Stream.good] using hg) (by rw [h2]; simp)
  unfold decode_after_encode
  rw [e1, e2, h2, h1]
  refine ⟨rfl, by simp, by simp, by simpa [Stream.good] using hg⟩

theorem decode_after_encode_roundtrip_witness :
    (Shape.vector Shape.text).Valid [[72, 105], []] ∧
    (NTSerialize.write_fundamental 4 7 NTSerialize.fresh)._buffer.good = true ∧
    (NTSerialize.write_fundamental 4 7 NTSerialize.fresh)._buffer.ppos
      = (NTSerialize.write_fundamental 4 7 NTSerialize.fresh)._buffer.buf.length ∧
    (decode_after_encode (Shape.vector Shape.text) [[72, 105], []] [[1]]
      (NTSerialize.write_fundamental 4 7 NTSerialize.fresh) [9, 9]).1 = [[72, 105], []] :=
  ⟨by simp [Shape.Valid, sizeof_size_t], by decide, by decide,
    (decode_after_encode_roundtrip (Shape.vector Shape.text) [[72, 105], []] [[1]]
      (NTSerialize.write_fundamental 4 7 NTSerialize.fresh) [9, 9]
      (by simp [Shape.Valid, sizeof_size_t]) (by decide) (by decide)).1⟩

theorem save_load_fresh (st : NTSerialize) (filename : String) (d : Disk) (bytes : List Nat)
    (hb : st._buffer.buf = bytes) (hne : bytes ≠ []) (hc : d.creatable filename = true)
    (hr : bytes.length ≤ d.room filename) :
    (NTSerialize.fresh.load filename (st.save filename d).2.1).2
      = ⟨⟨bytes, 0, 0, false, false⟩, false, 0⟩ := by
  have hl : bytes.length ≠ 0 := by simpa using hne
  have ht : List.take (d.room filename) bytes = bytes := List.take_of_length_le hr
  simp [NTSerialize.save, NTSerialize.load, hc, Stream.str, hb, Stream.insert_streambuf,
    NTSerialize.fresh, Stream.empty, Stream.good, hl, Stream.write, Stream.seekp, Stream.fail,
    Stream.target, ht]

/-- C2: for every unsigned 64-bit `n` and text `s`, encoding `n` then `s` into
a fresh instance, saving (to a file that opens and has room for the bytes),
loading the file into another fresh instance and decoding a 64-bit value then
a text yields exactly `n` and `s`, whatever the two destinations held. -/
theorem test_easy_roundtrip (n : Nat) (s : List Nat) (val_in_ : Nat) (text_in_ : List Nat)
    (filename : String) (d : Disk) (hn : n < 2 ^ 64) (hs : s.length < 2 ^ 64)
    (hc : d.creatable filename = true)
    (hr : sizeof_size_t + (sizeof_size_t + s.length) ≤ d.room filename) :
    test_easy n s val_in_ text_in_ filename d = (n, s) := by
  have henc := (NTSerialize.encodes_pair (NTSerialize.encodes_fundamental sizeof_size_t)
    NTSerialize.encodes_string).fresh (n, s)
  simp only [NTSerialize.write_pair, NTSerialize.trace, NTSerialize.fresh, Bool.false_eq_true,
    if_false] at henc
  have hin := save_load_fresh
    (NTSerialize.write_string s (NTSerialize.write_fundamental sizeof_size_t n NTSerialize.fresh))
    filename d _ (by rw [NTSerialize.fresh, henc]) (by simp [sizeof_size_t, toBytes]) hc
    (by simpa using hr)
  obtain ⟨e1, e2, -⟩ := NTSerialize.decodes_fundamental sizeof_size_t n val_in_
    ⟨⟨toBytes sizeof_size_t n ++ (toBytes sizeof_size_t s.length ++ s), 0, 0, false, false⟩,
      false, 0⟩
    (toBytes sizeof_size_t s.length ++ s) (by simpa [sizeof_size_t] using hn) rfl (by simp)
  obtain ⟨f1, -, -⟩ := NTSerialize.decodes_string s text_in_
    (NTSerialize.read_fundamental sizeof_size_t val_in_
      ⟨⟨toBytes sizeof_size_t n ++ (toBytes sizeof_size_t s.length ++ s), 0, 0, false, false⟩,
        false, 0⟩).2
    [] (by simpa [sizeof_size_t] using hs) (by rw [e2]; rfl) (by rw [e2]; simp)
  simp only [test_easy, hin, e1, f1]

theorem test_easy_roundtrip_witness :
    (123 < 2 ^ 64 ∧ [83, 111, 109, 101, 32, 116, 101, 120, 116, 46, 46, 46].length < 2 ^ 64 ∧
      (⟨fun _ => none, fun _ => true, fun _ => 64⟩ : Disk).creatable "test_easy.bin" = true ∧
      sizeof_size_t
          + (sizeof_size_t + [83, 111, 109, 101, 32, 116, 101, 120, 116, 46, 46, 46].length)
        ≤ (⟨fun _ => none, fun _ => true, fun _ => 64⟩ : Disk).room "test_easy.bin") ∧
    test_easy 123 [83, 111, 109, 101, 32, 116, 101, 120, 116, 46, 46, 46] 0 [46, 46, 46]
      "test_easy.bin" ⟨fun _ => none, fun _ => true, fun _ => 64⟩
      = (123, [83, 111, 109, 101, 32, 116, 101, 120, 116, 46, 46, 46]) :=
  ⟨⟨by norm_num, by norm_num, rfl, by decide⟩,
    test_easy_roundtrip 123 [83, 111, 109, 101, 32, 116, 101, 120, 116, 46, 46, 46] 0
      [46, 46, 46] "test_easy.bin" ⟨fun _ => none, fun _ => true, fun _ => 64⟩ (by norm_num)
      (by norm_num) rfl (by decide)⟩

namespace NTSerialize

theorem resize_nil {α : Type} (n : Nat) (T : α) : resize [] n T = List.replicate n T := by
  simp [resize]

theorem write_stack_buffer {α : Type} {enc : α → NTSerialize → NTSerialize}
    {w : α → List Nat} (h : Encodes enc w) (T : α) (data : List α) (st : NTSerialize) :
    (write_stack enc T data st).1._buffer = st._buffer.write (wire_counted w data) ∧
    (write_stack enc T data st).1._is_debug = st._is_debug := by
  simp only [write_stack]
  rw [(write_stack_loop_buffer h data _ 0 _).1, (write_stack_loop_buffer h data _ 0 _).2]
  simp [wire_counted, Stream.write_write]

theorem write_stack_data {α : Type} (enc : α → NTSerialize → NTSerialize) (T : α)
    (data : List α) (st : NTSerialize) : (write_stack enc T data st).2 = data := by
  simp only [write_stack, resize_nil]
  have h := write_stack_loop_data enc T data [] (write_size data.length st.trace)
  simp only [List.nil_append, List.length_nil] at h
  rw [h, push_reversed_eq]
  simp

theorem read_stack_spec {α : Type} {dec : α → NTSerialize → α × NTSerialize}
    {w : α → List Nat} {ok : α → Prop} (h : Decodes dec w ok) (T : α) (val_ : Nat → α)
    (xs data : List α) (st : NTSerialize) (rest : List Nat)
    (hn : xs.length < 256 ^ sizeof_size_t) (hok : ∀ x ∈ xs, ok x)
    (hg : st._buffer.good = true)
    (hb : st._buffer.buf.drop st._buffer.gpos = wire_counted w xs ++ rest) :
    (read_stack dec T val_ data st).1 = xs ++ data ∧
    (read_stack dec T val_ data st).2._buffer
      = { st._buffer with gpos := st._buffer.gpos + (wire_counted w xs).length } := by
  simp only [wire_counted, List.append_assoc] at hb
  have h1 := read_size_spec st xs.length (wire_each w xs ++ rest) hn hg hb
  have hb2 := drop_add_of_drop_eq _ _ _ _ hb
  simp only [toBytes_length] at hb2
  have h2 := read_stack_loop_spec h val_ T xs []
    (NTSerialize.trace { st with _buffer := { st._buffer with gpos := st._buffer.gpos + sizeof_size_t } })
    rest hok (by simpa using hg) (by simpa using hb2)
  simp only [List.nil_append, List.length_nil] at h2
  obtain ⟨f1, f2, -⟩ := h2
  simp only [read_stack, h1, resize_nil]
  rw [f1, f2, push_reversed_eq]
  simp [wire_counted, Nat.add_assoc]

theorem read_inserting_spec {α C : Type} {dec : α → NTSerialize → α × NTSerialize}
    {w : α → List Nat} {ok : α → Prop} (h : Decodes dec w ok) (val_ : Nat → α)
    (ins : α → C → C) (xs : List α) (data : C) (st : NTSerialize) (rest : List Nat)
    (hn : xs.length < 256 ^ sizeof_size_t) (hok : ∀ x ∈ xs, ok x)
    (hg : st._buffer.good = true)
    (hb : st._buffer.buf.drop st._buffer.gpos = wire_counted w xs ++ rest) :
    (read_insert dec val_ ins (read_size st).1 0 data (read_size st).2.trace).1
      = xs.foldl (fun c x => ins x c) data ∧
    (read_insert dec val_ ins (read_size st).1 0 data (read_size st).2.trace).2._buffer
      = { st._buffer with gpos := st._buffer.gpos + (wire_counted w xs).length } := by
  simp only [wire_counted, List.append_assoc] at hb
  have h1 := read_size_spec st xs.length (wire_each w xs ++ rest) hn hg hb
  have hb2 := drop_add_of_drop_eq _ _ _ _ hb
  simp only [toBytes_length] at hb2
  obtain ⟨f1, f2, -⟩ := read_insert_spec h val_ ins xs 0 data
    (NTSerialize.trace { st with _buffer := { st._buffer with gpos := st._buffer.gpos + sizeof_size_t } })
    rest hok (by simpa using hg) (by simpa using hb2)
  rw [h1, f1, f2]
  simp [wire_counted, Nat.add_assoc]

end NTSerialize

theorem Encodes.fresh_of {α : Type} {enc : α → NTSerialize → NTSerialize} {w : α → List Nat}
    (h : Encodes enc w) (v : α) (st : NTSerialize) (hst : st._buffer = Stream.empty) :
    (enc v st)._buffer = ⟨w v, 0, (w v).length, false, false⟩ := by
  rw [h.at_end v st (by rw [hst]; rfl) (by rw [hst]; rfl), hst]
  simp [Stream.empty]

/-- C3: for every list `xs` of 32-bit unsigned integers, the empty one
included, encoding `xs` as a dynamic array into a fresh buffer and decoding a
dynamic array from it yields a destination of the same length with the same
elements in the same order, whatever the destination held. -/
theorem vector_roundtrip (xs dst : List Nat) (st : NTSerialize)
    (hst : st._buffer = Stream.empty) (hl : xs.length < 2 ^ 64) (hx : ∀ x ∈ xs, x < 2 ^ 32) :
    (NTSerialize.read_vector (NTSerialize.read_fundamental 4) 0 dst
      (NTSerialize.write_vector (NTSerialize.write_fundamental 4) xs st)).1 = xs ∧
    (NTSerialize.read_vector (NTSerialize.read_fundamental 4) 0 dst
      (NTSerialize.write_vector (NTSerialize.write_fundamental 4) xs st)).1.length
      = xs.length := by
  have henc := (NTSerialize.encodes_vector (NTSerialize.encodes_fundamental 4)).fresh_of xs st hst
  obtain ⟨e1, -, -⟩ := NTSerialize.decodes_vector (NTSerialize.decodes_fundamental 4) 0 xs dst
    (NTSerialize.write_vector (NTSerialize.write_fundamental 4) xs st) []
    ⟨by simpa [sizeof_size_t] using hl, fun x h => by simpa using hx x h⟩
    (by rw [henc]; rfl) (by rw [henc]; simp)
  rw [e1]; exact ⟨rfl, rfl⟩

theorem vector_roundtrip_witness :
    (NTSerialize.fresh._buffer = Stream.empty ∧ [10, 20, 30].length < 2 ^ 64 ∧
      ∀ x ∈ [10, 20, 30], x < 2 ^ 32) ∧
    (NTSerialize.read_vector (NTSerialize.read_fundamental 4) 0 [1, 2, 3, 4, 5]
      (NTSerialize.write_vector (NTSerialize.write_fundamental 4) [10, 20, 30]
        NTSerialize.fresh)).1 = [10, 20, 30] :=
  ⟨⟨rfl, by norm_num, by decide⟩,
    (vector_roundtrip [10, 20, 30] [1, 2, 3, 4, 5] NTSerialize.fresh rfl (by norm_num)
      (by decide)).1⟩

/-- C4: for every stack `data` of fixed-width elements (top first), encoding it
into a fresh buffer and decoding into an empty stack yields a stack with the
same pop sequence and the same number of elements. -/
theorem stack_roundtrip (W : Nat) (data : List Nat) (val_ : Nat → Nat) (st : NTSerialize)
    (hst : st._buffer = Stream.empty) (hl : data.length < 2 ^ 64)
    (hx : ∀ x ∈ data, x < 256 ^ W) :
    (NTSerialize.read_stack (NTSerialize.read_fundamental W) 0 val_ []
      (NTSerialize.write_stack (NTSerialize.write_fundamental W) 0 data st).1).1 = data ∧
    (NTSerialize.read_stack (NTSerialize.read_fundamental W) 0 val_ []
      (NTSerialize.write_stack (NTSerialize.write_fundamental W) 0 data st).1).1.length
      = data.length := by
  have henc := (NTSerialize.write_stack_buffer (NTSerialize.encodes_fundamental W) 0 data st).1
  rw [Stream.write_at_end _ _ (by rw [hst]; rfl) (by rw [hst]; rfl), hst] at henc
  obtain ⟨e1, -⟩ := NTSerialize.read_stack_spec (NTSerialize.decodes_fundamental W) 0 val_ data []
    (NTSerialize.write_stack (NTSerialize.write_fundamental W) 0 data st).1 []
    (by simpa [sizeof_size_t] using hl) hx
    (by rw [henc]; rfl) (by rw [henc]; simp [Stream.empty])
  rw [e1]; simp

theorem stack_roundtrip_witness :
    (NTSerialize.fresh._buffer = Stream.empty ∧ [30, 20, 10].length < 2 ^ 64 ∧
      ∀ x ∈ [30, 20, 10], x < 256 ^ 4) ∧
    (NTSerialize.read_stack (NTSerialize.read_fundamental 4) 0 (fun _ => 99) []
      (NTSerialize.write_stack (NTSerialize.write_fundamental 4) 0 [30, 20, 10]
        NTSerialize.fresh).1).1 = [30, 20, 10] :=
  ⟨⟨rfl, by norm_num, by decide⟩,
    (stack_roundtrip 4 [30, 20, 10] (fun _ => 99) NTSerialize.fresh rfl (by norm_num)
      (by decide)).1⟩

/-- C5: for every stack, the empty one included, and every buffer state, the
stack after an encode call holds exactly the elements it held before, in the
same order: draining into `temp_` and pushing `temp_` back in reverse is the
identity on the source stack. -/
theorem write_stack_restores {α : Type} (enc : α → NTSerialize → NTSerialize) (T : α)
    (data : List α) (st : NTSerialize) :
    (NTSerialize.write_stack enc T data st).2 = data :=
  NTSerialize.write_stack_data enc T data st

theorem foldl_unordered_insert_perm {α : Type} (slot : α → List α → Nat) (xs acc : List α) :
    (xs.foldl (fun c x => NTSerialize.unordered_insert slot x c) acc).Perm (xs ++ acc) := by
  induction xs generalizing acc with
  | nil => simp
  | cons x xs ih =>
    simp only [List.foldl_cons]
    refine (ih _).trans ?_
    have h1 : (NTSerialize.unordered_insert slot x acc).Perm (x :: acc) := by
      unfold NTSerialize.unordered_insert
      refine List.perm_middle.trans ?_
      rw [List.take_append_drop]
    refine (List.Perm.append_left xs h1).trans ?_
    simp

/-- C6: for every multi-key unordered collection `m` of pairs of 32-bit
unsigned values (given in its iteration order) and every placement the
destination's hashing makes, encoding `m` into a fresh buffer and decoding
into an empty multi-key collection yields the same number of elements and the
same multiset of pairs, duplicates of a key kept. -/
theorem unordered_multimap_roundtrip (slot : Nat × Nat → List (Nat × Nat) → Nat)
    (m : List (Nat × Nat)) (val_ : Nat → Nat × Nat) (st : NTSerialize)
    (hst : st._buffer = Stream.empty) (hl : m.length < 2 ^ 64)
    (hx : ∀ p ∈ m, p.1 < 2 ^ 32 ∧ p.2 < 2 ^ 32) :
    (NTSerialize.read_unordered_multimap slot (NTSerialize.read_fundamental 4)
      (NTSerialize.read_fundamental 4) val_ []
      (NTSerialize.write_unordered_multimap (NTSerialize.write_fundamental 4)
        (NTSerialize.write_fundamental 4) m st)).1.length = m.length ∧
    (NTSerialize.read_unordered_multimap slot (NTSerialize.read_fundamental 4)
      (NTSerialize.read_fundamental 4) val_ []
      (NTSerialize.write_unordered_multimap (NTSerialize.write_fundamental 4)
        (NTSerialize.write_fundamental 4) m st)).1.Perm m := by
  have henc := (NTSerialize.encodes_unordered_multimap (NTSerialize.encodes_fundamental 4)
    (NTSerialize.encodes_fundamental 4)).fresh_of m st hst
  obtain ⟨e1, -⟩ := NTSerialize.read_inserting_spec
    (NTSerialize.decodes_pair (NTSerialize.decodes_fundamental 4)
      (NTSerialize.decodes_fundamental 4)) val_ (NTSerialize.unordered_insert slot) m []
    (NTSerialize.write_unordered_multimap (NTSerialize.write_fundamental 4)
        (NTSerialize.write_fundamental 4) m st) []
    (by simpa [sizeof_size_t] using hl) (fun p hp => by simpa using hx p hp)
    (by rw [henc]; rfl) (by rw [henc]; simp)
  have hp := foldl_unordered_insert_perm slot m []
  simp only [List.append_nil] at hp
  simp only [NTSerialize.read_unordered_multimap]
  rw [e1]
  exact ⟨hp.length_eq, hp⟩

theorem unordered_multimap_roundtrip_witness :
    (NTSerialize.fresh._buffer = Stream.empty ∧
      [(10, 1), (20, 2), (20, 5), (30, 3)].length < 2 ^ 64 ∧
      ∀ p ∈ [(10, 1), (20, 2), (20, 5), (30, 3)], p.1 < 2 ^ 32 ∧ p.2 < 2 ^ 32) ∧
    (NTSerialize.read_unordered_multimap (fun p _ => p.1 % 3) (NTSerialize.read_fundamental 4)
      (NTSerialize.read_fundamental 4) (fun _ => (0, 0)) []
      (NTSerialize.write_unordered_multimap (NTSerialize.write_fundamental 4)
        (NTSerialize.write_fundamental 4) [(10, 1), (20, 2), (20, 5), (30, 3)]
        NTSerialize.fresh)).1.length = 4 :=
  ⟨⟨rfl, by norm_num, by decide⟩,
    (unordered_multimap_roundtrip (fun p _ => p.1 % 3) [(10, 1), (20, 2), (20, 5), (30, 3)]
      (fun _ => (0, 0)) NTSerialize.fresh rfl (by norm_num) (by decide)).1⟩

theorem foldl_insert_ascending {α : Type} (R : α → α → Prop) (ins : α → List α → List α)
    (hins : ∀ (x : α) (l : List α), (∀ y ∈ l, R y x) → ins x l = l ++ [x]) (xs : List α)
    (hs : xs.Pairwise R) : xs.foldl (fun c x => ins x c) [] = xs := by
  induction xs using List.reverseRecOn with
  | nil => rfl
  | append_singleton l x ih =>
    rw [List.pairwise_append] at hs
    rw [List.foldl_append, ih hs.1]
    simp only [List.foldl_cons, List.foldl_nil]
    exact hins x l (fun y hy => hs.2.2 y hy x (by simp))

theorem set_insert_last {α : Type} [LinearOrder α] (x : α) (l : List α)
    (h : ∀ y ∈ l, y < x) : NTSerialize.set_insert x l = l ++ [x] := by
  induction l with
  | nil => rfl
  | cons y ys ih =>
    have hy : y < x := h y (by simp)
    simp only [NTSerialize.set_insert, not_lt_of_gt hy, if_false, hy, if_true]
    rw [ih (fun z hz => h z (by simp [hz]))]
    rfl

theorem map_insert_last {κ β : Type} [LinearOrder κ] (x : κ × β) (l : List (κ × β))
    (h : ∀ y ∈ l, y.1 < x.1) : NTSerialize.map_insert x l = l ++ [x] := by
  induction l with
  | nil => rfl
  | cons y ys ih =>
    have hy : y.1 < x.1 := h y (by simp)
    simp only [NTSerialize.map_insert, not_lt_of_gt hy, if_false, hy, if_true]
    rw [ih (fun z hz => h z (by simp [hz]))]
    rfl

/-- C7: for every set `c` of 32-bit unsigned values and every map `m` from
32-bit unsigned keys to 32-bit unsigned values (each given in its ascending
iteration order), encoding into a fresh buffer and decoding into an empty
collection of the same shape yields a collection of the same size whose
entries in iteration order equal those of the source one by one. -/
theorem set_map_roundtrip (c : List Nat) (m : List (Nat × Nat)) (val_ : Nat → Nat)
    (pval_ : Nat → Nat × Nat) (st : NTSerialize) (hst : st._buffer = Stream.empty)
    (hc : c.Pairwise (fun a b => a < b)) (hcl : c.length < 2 ^ 64)
    (hcx : ∀ x ∈ c, x < 2 ^ 32)
    (hm : m.Pairwise (fun a b => a.1 < b.1)) (hml : m.length < 2 ^ 64)
    (hmx : ∀ p ∈ m, p.1 < 2 ^ 32 ∧ p.2 < 2 ^ 32) :
    (NTSerialize.read_set (NTSerialize.read_fundamental 4) val_ []
      (NTSerialize.write_set (NTSerialize.write_fundamental 4) c st)).1 = c ∧
    (NTSerialize.read_map (NTSerialize.read_fundamental 4) (NTSerialize.read_fundamental 4)
      pval_ []
      (NTSerialize.write_map (NTSerialize.write_fundamental 4)
        (NTSerialize.write_fundamental 4) m st)).1 = m := by
  constructor
  · have henc := (NTSerialize.encodes_set (NTSerialize.encodes_fundamental 4)).fresh_of c st hst
    obtain ⟨e1, -⟩ := NTSerialize.read_inserting_spec (NTSerialize.decodes_fundamental 4) val_
      NTSerialize.set_insert c []
      (NTSerialize.write_set (NTSerialize.write_fundamental 4) c st) []
      (by simpa [sizeof_size_t] using hcl) (fun x hx => by simpa using hcx x hx)
      (by rw [henc]; rfl) (by rw [henc]; simp)
    simp only [NTSerialize.read_set]
    rw [e1]
    exact foldl_insert_ascending _ _ set_insert_last c hc
  · have henc := (NTSerialize.encodes_map (NTSerialize.encodes_fundamental 4)
      (NTSerialize.encodes_fundamental 4)).fresh_of m st hst
    obtain ⟨e1, -⟩ := NTSerialize.read_inserting_spec
      (NTSerialize.decodes_pair (NTSerialize.decodes_fundamental 4)
        (NTSerialize.decodes_fundamental 4)) pval_ NTSerialize.map_insert m []
      (NTSerialize.write_map (NTSerialize.write_fundamental 4)
        (NTSerialize.write_fundamental 4) m st) []
      (by simpa [sizeof_size_t] using hml) (fun p hp => by simpa using hmx p hp)
      (by rw [henc]; rfl) (by rw [henc]; simp)
    simp only [NTSerialize.read_map]
    rw [e1]
    exact foldl_insert_ascending _ _ map_insert_last m hm

theorem set_map_roundtrip_witness :
    (NTSerialize.fresh._buffer = Stream.empty ∧
      [10, 20, 30].Pairwise (fun a b => a < b) ∧
      [((10 : Nat), (1 : Nat)), (20, 2), (30, 3)].Pairwise (fun a b => a.1 < b.1)) ∧
    (NTSerialize.read_set (NTSerialize.read_fundamental 4) (fun _ => 0) []
      (NTSerialize.write_set (NTSerialize.write_fundamental 4) [10, 20, 30]
        NTSerialize.fresh)).1 = [10, 20, 30] ∧
    (NTSerialize.read_map (NTSerialize.read_fundamental 4) (NTSerialize.read_fundamental 4)
      (fun _ => (0, 0)) []
      (NTSerialize.write_map (NTSerialize.write_fundamental 4)
        (NTSerialize.write_fundamental 4) [(10, 1), (20, 2), (30, 3)] NTSerialize.fresh)).1
      = [(10, 1), (20, 2), (30, 3)] :=
  ⟨⟨rfl, by decide, by decide⟩,
    set_map_roundtrip [10, 20, 30] [(10, 1), (20, 2), (30, 3)] (fun _ => 0) (fun _ => (0, 0))
      NTSerialize.fresh rfl (by decide) (by norm_num) (by decide) (by decide) (by norm_num)
      (by decide)⟩

theorem TestStruct1.image_length (t : TestStruct1) : t.image.length = 8 := by
  simp [TestStruct1.image]

theorem TestStruct1.ofImage_image (t : TestStruct1) (h1 : t.x1 < 2 ^ 32) (h2 : t.x2 < 2 ^ 32) :
    TestStruct1.ofImage t.image = t := by
  have e1 : List.take 4 (toBytes 4 t.x1 ++ toBytes 4 t.x2) = toBytes 4 t.x1 :=
    List.take_left' (by simp)
  have e2 : List.drop 4 (toBytes 4 t.x1 ++ toBytes 4 t.x2) = toBytes 4 t.x2 :=
    List.drop_left' (by simp)
  have e3 : List.take 4 (toBytes 4 t.x2) = toBytes 4 t.x2 :=
    List.take_of_length_le (by simp)
  simp only [TestStruct1.ofImage, TestStruct1.image, e1, e2, e3]
  rw [ofBytes_toBytes 4 _ (by simpa using h1), ofBytes_toBytes 4 _ (by simpa using h2)]

theorem encodes_TestStruct1 : Encodes NTSerialize.write_TestStruct1 TestStruct1.image :=
  fun v st => NTSerialize.encodes_class v.image st

theorem encodes_TestStruct2 :
    Encodes NTSerialize.write_TestStruct2 (fun t => toBytes 4 t.x1 ++ toBytes 4 t.x2) := by
  intro v st
  simp only [NTSerialize.write_TestStruct2]
  rw [(NTSerialize.encodes_fundamental 4 _ _).1, (NTSerialize.encodes_fundamental 4 _ _).2,
    (NTSerialize.encodes_fundamental 4 _ _).1, (NTSerialize.encodes_fundamental 4 _ _).2,
    Stream.write_write]
  exact ⟨rfl, rfl⟩

theorem decodes_TestStruct1 :
    Decodes NTSerialize.read_TestStruct1 TestStruct1.image
      (fun t => t.x1 < 2 ^ 32 ∧ t.x2 < 2 ^ 32) := by
  intro v d st rest hv hg hb
  have h := Stream.read_exact st._buffer d.image v.image rest hg hb
    (by simp [TestStruct1.image_length])
  rw [TestStruct1.image_length] at h
  simp [NTSerialize.read_TestStruct1, NTSerialize.read_class, TestStruct1.image_length, h,
    TestStruct1.ofImage_image v hv.1 hv.2]

theorem decodes_TestStruct2 :
    Decodes NTSerialize.read_TestStruct2 (fun t => toBytes 4 t.x1 ++ toBytes 4 t.x2)
      (fun t => t.x1 < 2 ^ 32 ∧ t.x2 < 2 ^ 32) := by
  intro v d st rest hv hg hb
  simp only [List.append_assoc] at hb
  obtain ⟨e1, e2, e3⟩ := NTSerialize.decodes_fundamental 4 v.x1 d.x1 st _
    (by simpa using hv.1) hg hb
  have hb2 := drop_add_of_drop_eq _ _ _ _ hb
  obtain ⟨f1, f2, f3⟩ := NTSerialize.decodes_fundamental 4 v.x2 d.x2
    (NTSerialize.read_fundamental 4 d.x1 st).2 rest (by simpa using hv.2)
    (by rw [e2]; exact hg) (by rw [e2]; exact hb2)
  simp only [NTSerialize.read_TestStruct2]
  rw [e1, f1, f2, f3, e2, e3]
  simp [Nat.add_assoc]

/-- C8: for all 32-bit unsigned `x1 x2 y1 y2`, the opaque aggregate
`{x1, x2}` is encoded as its 8-byte image, the same bytes as encoding `x1`
then `x2`; and encoding it followed by the record `{y1, y2}` (field by field
through its own operators), saving (to a file that opens and has room for the
16 bytes), loading into a fresh instance and decoding the same two shapes in
order yields the fields `x1, x2, y1, y2`, whatever the destinations held. -/
theorem test_struct_roundtrip (x1 x2 y1 y2 : Nat) (struct_in1_ : TestStruct1)
    (struct_in2_ : TestStruct2) (filename : String) (d : Disk) (st : NTSerialize)
    (hx1 : x1 < 2 ^ 32) (hx2 : x2 < 2 ^ 32) (hy1 : y1 < 2 ^ 32) (hy2 : y2 < 2 ^ 32)
    (hc : d.creatable filename = true) (hr : 16 ≤ d.room filename) :
    test_struct ⟨x1, x2⟩ ⟨y1, y2⟩ struct_in1_ struct_in2_ filename d = (⟨x1, x2⟩, ⟨y1, y2⟩) ∧
    (TestStruct1.image ⟨x1, x2⟩).length = 8 ∧
    (NTSerialize.write_TestStruct1 ⟨x1, x2⟩ st)._buffer
      = (NTSerialize.write_fundamental 4 x2 (NTSerialize.write_fundamental 4 x1 st))._buffer := by
  refine ⟨?_, TestStruct1.image_length _, ?_⟩
  · have henc := (NTSerialize.encodes_pair encodes_TestStruct1 encodes_TestStruct2).fresh
      (⟨x1, x2⟩, ⟨y1, y2⟩)
    simp only [NTSerialize.write_pair, NTSerialize.trace, NTSerialize.fresh, Bool.false_eq_true,
      if_false] at henc
    have hin := save_load_fresh
      (NTSerialize.write_TestStruct2 ⟨y1, y2⟩
        (NTSerialize.write_TestStruct1 ⟨x1, x2⟩ NTSerialize.fresh))
      filename d _ (by rw [NTSerialize.fresh, henc]) (by simp [TestStruct1.image, toBytes]) hc
      (by simpa [TestStruct1.image] using hr)
    obtain ⟨e1, e2, -⟩ := decodes_TestStruct1 ⟨x1, x2⟩ struct_in1_
      ⟨⟨TestStruct1.image ⟨x1, x2⟩ ++ (toBytes 4 y1 ++ toBytes 4 y2), 0, 0, false, false⟩,
        false, 0⟩
      (toBytes 4 y1 ++ toBytes 4 y2) ⟨hx1, hx2⟩ rfl (by simp)
    obtain ⟨f1, -, -⟩ := decodes_TestStruct2 ⟨y1, y2⟩ struct_in2_
      (NTSerialize.read_TestStruct1 struct_in1_
        ⟨⟨TestStruct1.image ⟨x1, x2⟩ ++ (toBytes 4 y1 ++ toBytes 4 y2), 0, 0, false, false⟩,
          false, 0⟩).2
      [] ⟨hy1, hy2⟩ (by rw [e2]; rfl) (by rw [e2]; simp)
    simp only [test_struct, hin, e1, f1]
  · rw [(encodes_TestStruct1 _ _).1]
    exact (encodes_TestStruct2 ⟨x1, x2⟩ st).1.symm

theorem test_struct_roundtrip_witness :
    ((2 < 2 ^ 32 ∧ 7 < 2 ^ 32 ∧ 6 < 2 ^ 32 ∧ 11 < 2 ^ 32) ∧
      (⟨fun _ => none, fun _ => true, fun _ => 64⟩ : Disk).creatable "test_struct.bin" = true ∧
      16 ≤ (⟨fun _ => none, fun _ => true, fun _ => 64⟩ : Disk).room "test_struct.bin") ∧
    test_struct ⟨2, 7⟩ ⟨6, 11⟩ ⟨3, 8⟩ ⟨5, 10⟩ "test_struct.bin"
      ⟨fun _ => none, fun _ => true, fun _ => 64⟩ = (⟨2, 7⟩, ⟨6, 11⟩) :=
  ⟨⟨by norm_num, rfl, by decide⟩,
    (test_struct_roundtrip 2 7 6 11 ⟨3, 8⟩ ⟨5, 10⟩ "test_struct.bin"
      ⟨fun _ => none, fun _ => true, fun _ => 64⟩ NTSerialize.fresh (by norm_num) (by norm_num)
      (by norm_num) (by norm_num) rfl (by decide)).1⟩

theorem wire_each_fixed_length (W : Nat) (xs : List Nat) :
    (wire_each (toBytes W) xs).length = xs.length * W := by
  induction xs with
  | nil => simp [wire_each]
  | cons x xs ih => simp [wire_each, ih, Nat.add_mul, Nat.add_comm]

/-- C9, on the collection encoders that can be instantiated (dynamic array,
deque, list, set, multiset): for every element encoder `enc` with element wire
bytes `w`, the collection encoder is itself an encoder whose wire bytes are the
count in `sizeof( size_t )` bytes followed by the elements' own encodings in
iteration order (so the layout nests), and on a healthy buffer whose write
cursor is at the end it appends exactly those bytes; the five shapes therefore
produce the same bytes for the same element sequence.  The forward-list
encoder, the sixth shape, has no instantiation and so produces no bytes. -/
theorem counted_envelope {α : Type} (enc : α → NTSerialize → NTSerialize) (w : α → List Nat)
    (h : Encodes enc w) (xs : List α) (st : NTSerialize) (hg : st._buffer.good = true)
    (hp : st._buffer.ppos = st._buffer.buf.length) :
    ∀ K ∈ [NTSerialize.write_vector enc, NTSerialize.write_deque enc,
        NTSerialize.write_list enc, NTSerialize.write_set enc,
        NTSerialize.write_multiset enc],
      Encodes K (fun ys => toBytes sizeof_size_t ys.length ++ wire_each w ys) ∧
      (K xs st)._buffer.buf
        = st._buffer.buf ++ (toBytes sizeof_size_t xs.length ++ wire_each w xs) := by
  intro K hK
  have key : Encodes K (wire_counted w) := by
    simp only [List.mem_cons, List.mem_singleton, List.not_mem_nil, or_false] at hK
    rcases hK with rfl | rfl | rfl | rfl | rfl
    · exact NTSerialize.encodes_vector h
    · exact NTSerialize.encodes_deque h
    · exact NTSerialize.encodes_list h
    · exact NTSerialize.encodes_set h
    · exact NTSerialize.encodes_multiset h
  refine ⟨key, ?_⟩
  rw [key.at_end xs st hg hp]
  rfl

theorem counted_envelope_witness :
    (Encodes NTSerialize.write_string (fun s => toBytes sizeof_size_t s.length ++ s) ∧
      NTSerialize.fresh._buffer.good = true ∧
      NTSerialize.fresh._buffer.ppos = NTSerialize.fresh._buffer.buf.length) ∧
    (NTSerialize.write_vector NTSerialize.write_string [[72, 105], []] NTSerialize.fresh)._buffer.buf
      = NTSerialize.fresh._buffer.buf ++ (toBytes sizeof_size_t 2 ++
          ((toBytes sizeof_size_t 2 ++ [72, 105]) ++ ((toBytes sizeof_size_t 0 ++ []) ++ []))) :=
  ⟨⟨NTSerialize.encodes_string, rfl, rfl⟩,
    ((counted_envelope NTSerialize.write_string (fun s => toBytes sizeof_size_t s.length ++ s)
      NTSerialize.encodes_string [[72, 105], []] NTSerialize.fresh rfl rfl)
      (NTSerialize.write_vector NTSerialize.write_string) (by simp)).2⟩

/-- C10: for every `N` and every dynamic sequence that has an encoder (dynamic
array, deque, list) of `N` fixed-width elements of width `W`, encoding it into
a fresh buffer produces content of exactly `sizeof( size_t ) + N * W` bytes. -/
theorem counted_length (W : Nat) (xs : List Nat) (st : NTSerialize)
    (hst : st._buffer = Stream.empty) :
    ∀ K ∈ [NTSerialize.write_vector (NTSerialize.write_fundamental W),
        NTSerialize.write_deque (NTSerialize.write_fundamental W),
        NTSerialize.write_list (NTSerialize.write_fundamental W)],
      (K xs st)._buffer.buf.length = sizeof_size_t + xs.length * W := by
  intro K hK
  have key : Encodes K (wire_counted (toBytes W)) := by
    simp only [List.mem_cons, List.mem_singleton, List.not_mem_nil, or_false] at hK
    rcases hK with rfl | rfl | rfl
    · exact NTSerialize.encodes_vector (NTSerialize.encodes_fundamental W)
    · exact NTSerialize.encodes_deque (NTSerialize.encodes_fundamental W)
    · exact NTSerialize.encodes_list (NTSerialize.encodes_fundamental W)
  rw [key.fresh_of xs st hst]
  simp [wire_counted, wire_each_fixed_length]

theorem counted_length_witness :
    NTSerialize.fresh._buffer = Stream.empty ∧
    (NTSerialize.write_vector (NTSerialize.write_fundamental 4) [10, 20, 30]
      NTSerialize.fresh)._buffer.buf.length = 8 + 3 * 4 :=
  ⟨rfl, (counted_length 4 [10, 20, 30] NTSerialize.fresh rfl)
    (NTSerialize.write_vector (NTSerialize.write_fundamental 4)) (by simp)⟩

theorem streamOnly_fundamental (W : Nat) : StreamOnly (NTSerialize.read_fundamental W) := by
  intro d st st' h
  simp [NTSerialize.read_fundamental, h]

theorem read_size_streamOnly (st st' : NTSerialize) (h : st._buffer = st'._buffer) :
    (NTSerialize.read_size st).1 = (NTSerialize.read_size st').1 ∧
    (NTSerialize.read_size st).2._buffer = (NTSerialize.read_size st').2._buffer := by
  simp [NTSerialize.read_size, h]

theorem streamOnly_string : StreamOnly NTSerialize.read_string := by
  intro d st st' h
  obtain ⟨e1, e2⟩ := read_size_streamOnly st st' h
  simp [NTSerialize.read_string, e1, e2]

theorem streamOnly_pair {α β : Type} {dec1 : α → NTSerialize → α × NTSerialize}
    {dec2 : β → NTSerialize → β × NTSerialize} (h1 : StreamOnly dec1) (h2 : StreamOnly dec2) :
    StreamOnly (NTSerialize.read_pair dec1 dec2) := by
  intro d st st' h
  obtain ⟨e1, e2⟩ := h1 d.1 st.trace st'.trace (by simpa using h)
  obtain ⟨f1, f2⟩ := h2 d.2 _ _ e2
  simp only [NTSerialize.read_pair, e1, f1, f2, and_self]

theorem read_each_streamOnly {α : Type} {dec : α → NTSerialize → α × NTSerialize}
    (h : StreamOnly dec) (ds : List α) (st st' : NTSerialize)
    (hst : st._buffer = st'._buffer) :
    (NTSerialize.read_each dec ds st).1 = (NTSerialize.read_each dec ds st').1 ∧
    (NTSerialize.read_each dec ds st).2._buffer
      = (NTSerialize.read_each dec ds st').2._buffer := by
  induction ds generalizing st st' with
  | nil => exact ⟨rfl, hst⟩
  | cons d ds ih =>
    obtain ⟨e1, e2⟩ := h d st st' hst
    obtain ⟨f1, f2⟩ := ih _ _ e2
    simp only [NTSerialize.read_each, e1, f1, f2, and_self]

theorem streamOnly_vector {α : Type} {dec : α → NTSerialize → α × NTSerialize}
    (h : StreamOnly dec) (T : α) : StreamOnly (NTSerialize.read_vector dec T) := by
  intro d st st' hst
  obtain ⟨e1, e2⟩ := read_size_streamOnly st st' hst
  simp only [NTSerialize.read_vector, e1]
  exact read_each_streamOnly h _ _ _ (by simpa using e2)

theorem Shape.read_streamOnly (s : Shape) : StreamOnly s.read := by
  induction s with
  | scalar W => exact streamOnly_fundamental W
  | text => exact streamOnly_string
  | pair a b iha ihb => exact streamOnly_pair iha ihb
  | vector a ih => exact streamOnly_vector ih a.T

theorem directive_streamOnly (command : ntsdirective) (st st' : NTSerialize)
    (h : st._buffer = st'._buffer) :
    (st.directive command)._buffer = (st'.directive command)._buffer := by
  cases command <;> simp [NTSerialize.directive, NTSerialize.clear, h]

/-- C11: for every text `s` (any byte values, zero bytes and the empty text
included), encoding on a healthy buffer whose write cursor is at the end
appends exactly the length of `s` in `sizeof( size_t )` bytes followed by the
bytes of `s` unchanged, `sizeof( size_t ) + |s|` bytes in all and no
terminator; and decoding those bytes yields a text of length `|s|` equal to
`s`, whatever the destination text held. -/
theorem string_wire (s d : List Nat) (st st2 : NTSerialize) (rest : List Nat)
    (hs : s.length < 2 ^ 64) (hg : st._buffer.good = true)
    (hp : st._buffer.ppos = st._buffer.buf.length) (hg2 : st2._buffer.good = true)
    (hb2 : st2._buffer.buf.drop st2._buffer.gpos
      = (toBytes sizeof_size_t s.length ++ s) ++ rest) :
    (NTSerialize.write_string s st)._buffer.buf
      = st._buffer.buf ++ (toBytes sizeof_size_t s.length ++ s) ∧
    (NTSerialize.write_string s st)._buffer.buf.length
      = st._buffer.buf.length + (sizeof_size_t + s.length) ∧
    (NTSerialize.read_string d st2).1 = s ∧
    (NTSerialize.read_string d st2).1.length = s.length ∧
    (NTSerialize.read_string d st2).2._buffer.buf.drop
      (NTSerialize.read_string d st2).2._buffer.gpos = rest := by
  have h1 := NTSerialize.encodes_string.at_end s st hg hp
  obtain ⟨e1, e2, -⟩ := NTSerialize.decodes_string s d st2 rest
    (by simpa [sizeof_size_t] using hs) hg2 hb2
  have hb3 := drop_add_of_drop_eq _ _ _ _ hb2
  rw [h1, e1, e2]
  exact ⟨rfl, by simp, rfl, rfl, hb3⟩

theorem string_wire_witness :
    ([0, 65, 0].length < 2 ^ 64 ∧ NTSerialize.fresh._buffer.good = true) ∧
    (NTSerialize.write_string [0, 65, 0] NTSerialize.fresh)._buffer.buf
      = [3, 0, 0, 0, 0, 0, 0, 0, 0, 65, 0] ∧
    (NTSerialize.read_string [7, 7, 7, 7, 7]
      (NTSerialize.write_string [0, 65, 0] NTSerialize.fresh)).1 = [0, 65, 0] :=
  ⟨⟨by norm_num, rfl⟩,
    (string_wire [0, 65, 0] [7, 7, 7, 7, 7] NTSerialize.fresh
      (NTSerialize.write_string [0, 65, 0] NTSerialize.fresh) [] (by norm_num) rfl rfl rfl
      (by decide)).1,
    (string_wire [0, 65, 0] [7, 7, 7, 7, 7] NTSerialize.fresh
      (NTSerialize.write_string [0, 65, 0] NTSerialize.fresh) [] (by norm_num) rfl rfl rfl
      (by decide)).2.2.1⟩

theorem encodes_array {α : Type} {enc : α → NTSerialize → NTSerialize} {w : α → List Nat}
    (h : Encodes enc w) : Encodes (NTSerialize.write_array enc) (wire_each w) := by
  intro xs st
  simp only [NTSerialize.write_array]
  rw [(NTSerialize.write_each_spec h xs _).1, (NTSerialize.write_each_spec h xs _).2]
  simp

theorem encodes_builtin_array {α : Type} {enc : α → NTSerialize → NTSerialize}
    {w : α → List Nat} (h : Encodes enc w) :
    Encodes (NTSerialize.write_builtin_array enc) (wire_each w) :=
  fun xs st => encodes_array h xs st

/-- C12: for every fixed-size array of `N` elements (`std::array<T, N>` or a
built-in `T[N]`), encode writes no count: on a healthy buffer whose write
cursor is at the end the appended bytes are exactly the element encodings in
index order (`N * W` bytes for elements of width `W`), and decoding them into
an array of the same `N` reproduces every element at its index, whatever the
destination held. -/
theorem array_wire {α : Type} (enc : α → NTSerialize → NTSerialize)
    (dec : α → NTSerialize → α × NTSerialize) (w : α → List Nat) (ok : α → Prop)
    (data dst : List α) (W : Nat) (ys : List Nat) (st st2 : NTSerialize) (rest : List Nat)
    (henc : Encodes enc w) (hdec : Decodes dec w ok) (hl : dst.length = data.length)
    (hok : ∀ x ∈ data, ok x) (hg : st._buffer.good = true)
    (hp : st._buffer.ppos = st._buffer.buf.length) (hg2 : st2._buffer.good = true)
    (hb2 : st2._buffer.buf.drop st2._buffer.gpos = wire_each w data ++ rest) :
    (NTSerialize.write_array enc data st)._buffer.buf = st._buffer.buf ++ wire_each w data ∧
    (NTSerialize.write_builtin_array enc data st)._buffer.buf
      = st._buffer.buf ++ wire_each w data ∧
    (NTSerialize.write_array (NTSerialize.write_fundamental W) ys st)._buffer.buf.length
      = st._buffer.buf.length + ys.length * W ∧
    (NTSerialize.write_builtin_array (NTSerialize.write_fundamental W) ys st)._buffer.buf.length
      = st._buffer.buf.length + ys.length * W ∧
    (NTSerialize.read_array dec dst st2).1 = data ∧
    (NTSerialize.read_builtin_array dec dst st2).1 = data := by
  have h1 := (encodes_array henc).at_end data st hg hp
  have h2 := (encodes_builtin_array henc).at_end data st hg hp
  have h3 := (encodes_array (NTSerialize.encodes_fundamental W)).at_end ys st hg hp
  have h4 := (encodes_builtin_array (NTSerialize.encodes_fundamental W)).at_end ys st hg hp
  obtain ⟨e1, -, -⟩ := NTSerialize.read_each_spec hdec data dst st2.trace rest hl hok
    (by simpa using hg2) (by simpa using hb2)
  rw [h1, h2, h3, h4]
  refine ⟨rfl, rfl, by simp [wire_each_fixed_length], by simp [wire_each_fixed_length], e1, e1⟩

theorem array_wire_witness :
    (Encodes (NTSerialize.write_fundamental 4) (toBytes 4) ∧
      Decodes (NTSerialize.read_fundamental 4) (toBytes 4) (fun v => v < 256 ^ 4) ∧
      [0, 0, 0].length = [10, 20, 30].length) ∧
    (NTSerialize.write_array (NTSerialize.write_fundamental 4) [10, 20, 30]
      NTSerialize.fresh)._buffer.buf = [10, 0, 0, 0, 20, 0, 0, 0, 30, 0, 0, 0] ∧
    (NTSerialize.read_array (NTSerialize.read_fundamental 4) [0, 0, 0]
      (NTSerialize.write_array (NTSerialize.write_fundamental 4) [10, 20, 30]
        NTSerialize.fresh)).1 = [10, 20, 30] :=
  ⟨⟨NTSerialize.encodes_fundamental 4, NTSerialize.decodes_fundamental 4, rfl⟩,
    (array_wire (NTSerialize.write_fundamental 4) (NTSerialize.read_fundamental 4) (toBytes 4)
      (fun v => v < 256 ^ 4) [10, 20, 30] [0, 0, 0] 4 [] NTSerialize.fresh
      (NTSerialize.write_array (NTSerialize.write_fundamental 4) [10, 20, 30] NTSerialize.fresh)
      [] (NTSerialize.encodes_fundamental 4) (NTSerialize.decodes_fundamental 4) rfl
      (by decide) rfl rfl rfl (by decide)).1,
    (array_wire (NTSerialize.write_fundamental 4) (NTSerialize.read_fundamental 4) (toBytes 4)
      (fun v => v < 256 ^ 4) [10, 20, 30] [0, 0, 0] 4 [] NTSerialize.fresh
      (NTSerialize.write_array (NTSerialize.write_fundamental 4) [10, 20, 30] NTSerialize.fresh)
      [] (NTSerialize.encodes_fundamental 4) (NTSerialize.decodes_fundamental 4) rfl
      (by decide) rfl rfl rfl (by decide)).2.2.2.2.1⟩

/-- C13: for every buffer state, `clear()` (called directly or through the
clear directive) yields empty content, both cursors at 0 and a healthy stream,
leaves the trace flag unchanged, and clearing twice gives the same state as
clearing once. -/
theorem clear_resets (st : NTSerialize) :
    st.clear._buffer.buf = [] ∧ st.clear._buffer.buf.length = 0 ∧
    st.clear._buffer.gpos = 0 ∧ st.clear._buffer.ppos = 0 ∧
    st.clear._buffer.good = true ∧ st.clear._is_debug = st._is_debug ∧
    st.directive ntsdirective.clear = st.clear ∧ st.clear.clear = st.clear :=
  ⟨rfl, rfl, rfl, rfl, rfl, rfl, rfl, rfl⟩

/-- C15: for every healthy buffer state, the seek-write-start directive sets
the write cursor to offset 0 and the seek-write-end directive sets it to the
content length, and both leave everything else (content bytes, read cursor,
state bits, trace flag) unchanged. -/
theorem seek_write_directives (st : NTSerialize) (hg : st._buffer.good = true) :
    st.directive ntsdirective.posstart
      = { st with _buffer := { st._buffer with ppos := 0 } } ∧
    st.directive ntsdirective.posend
      = { st with _buffer := { st._buffer with ppos := st._buffer.buf.length } } := by
  have hf : st._buffer.failbit = false := by
    simp [Stream.good] at hg; exact hg.2
  simp [NTSerialize.directive, Stream.seekp, Stream.fail, Stream.target, hf]

theorem seek_write_directives_witness :
    (NTSerialize.write_fundamental 4 7 NTSerialize.fresh)._buffer.good = true ∧
    ((NTSerialize.write_fundamental 4 7 NTSerialize.fresh).directive
      ntsdirective.posstart)._buffer = ⟨[7, 0, 0, 0], 0, 0, false, false⟩ :=
  ⟨rfl, by
    rw [(seek_write_directives (NTSerialize.write_fundamental 4 7 NTSerialize.fresh) rfl).1]
    rfl⟩

theorem read_size_clear (st : NTSerialize) :
    NTSerialize.read_size st.clear
      = (0, { st.clear with _buffer := ⟨[], 0, 0, true, true⟩ }) := by
  simp [NTSerialize.read_size, NTSerialize.clear, Stream.read, Stream.clear, Stream.setstr,
    Stream.good, sizeof_size_t, toBytes, ofBytes]

theorem read_each_nil {α : Type} (dec : α → NTSerialize → α × NTSerialize) (T : α)
    (seq : List α) (st : NTSerialize) :
    (NTSerialize.read_each dec (NTSerialize.resize seq 0 T) st).1 = [] := by
  simp [NTSerialize.resize, NTSerialize.read_each]

/-- C14: for every buffer state, right after `clear()` a decode of a
fixed-width value of width `W > 0` fails (the stream is unhealthy afterwards)
and leaves the destination as it was, a decode of a text yields the empty
text, and a decode of a dynamic sequence (dynamic array, deque, forward list,
list) yields the empty sequence; what a decode of any shape yields after the
clear is the same whatever the buffer held before it, so no decode returns a
byte written before the clear. -/
theorem decode_after_clear {α : Type} (st : NTSerialize) (W d : Nat) (text : List Nat)
    (dec : α → NTSerialize → α × NTSerialize) (T : α) (seq : List α)
    (hW : 0 < W) (hd : d < 256 ^ W) :
    (NTSerialize.read_fundamental W d st.clear).2._buffer.good = false ∧
    (NTSerialize.read_fundamental W d st.clear).1 = d ∧
    (NTSerialize.read_string text st.clear).1 = [] ∧
    (NTSerialize.read_vector dec T seq st.clear).1 = [] ∧
    (NTSerialize.read_deque dec T seq st.clear).1 = [] ∧
    (NTSerialize.read_forward_list dec T seq st.clear).1 = [] ∧
    (NTSerialize.read_list dec T seq st.clear).1 = [] ∧
    ∀ (s : Shape) (x : s.Val) (st' : NTSerialize),
      (s.read x st.clear).1 = (s.read x st'.clear).1 := by
  have hW2 : ¬ (0 = W) := by omega
  refine ⟨?_, ?_, ?_, ?_, ?_, ?_, ?_, fun s x st' =>
    (Shape.read_streamOnly s x st.clear st'.clear rfl).1⟩
  · simp [NTSerialize.read_fundamental, NTSerialize.clear, Stream.read, Stream.clear,
      Stream.setstr, Stream.good, hW2]
  · simp [NTSerialize.read_fundamental, NTSerialize.clear, Stream.read, Stream.clear,
      Stream.setstr, Stream.good, ofBytes_toBytes W d hd]
  · simp [NTSerialize.read_string, read_size_clear, NTSerialize.resize, Stream.read,
      Stream.good]
  · simp only [NTSerialize.read_vector, read_size_clear]
    exact read_each_nil dec T seq _
  · simp only [NTSerialize.read_deque, read_size_clear]
    exact read_each_nil dec T seq _
  · simp only [NTSerialize.read_forward_list, read_size_clear]
    exact read_each_nil dec T seq _
  · simp only [NTSerialize.read_list, read_size_clear]
    exact read_each_nil dec T seq _

theorem decode_after_clear_witness :
    (0 < 4 ∧ 77 < 256 ^ 4) ∧
    (NTSerialize.read_fundamental 4 77
      (NTSerialize.write_fundamental 4 5 NTSerialize.fresh).clear).2._buffer.good = false ∧
    (NTSerialize.read_fundamental 4 77
      (NTSerialize.write_fundamental 4 5 NTSerialize.fresh).clear).1 = 77 :=
  ⟨by norm_num,
    (decode_after_clear (NTSerialize.write_fundamental 4 5 NTSerialize.fresh) 4 77 [1, 2]
      (NTSerialize.read_fundamental 4) 0 [3] (by norm_num) (by norm_num)).1,
    (decode_after_clear (NTSerialize.write_fundamental 4 5 NTSerialize.fresh) 4 77 [1, 2]
      (NTSerialize.read_fundamental 4) 0 [3] (by norm_num) (by norm_num)).2.1⟩

/-- C20: for every healthy buffer state and every fixed-width shape of width
`W`, decoding one value leaves the stream unhealthy if and only if fewer than
`W` bytes lie between the read cursor and the end of the content; when at
least `W` bytes are there the stream stays healthy, the value is built from
exactly those `W` bytes and the read cursor moves past them. -/
theorem read_fundamental_health (st : NTSerialize) (W d : Nat)
    (hg : st._buffer.good = true) :
    ((NTSerialize.read_fundamental W d st).2._buffer.good = false
      ↔ st._buffer.buf.length - st._buffer.gpos < W) ∧
    (W ≤ st._buffer.buf.length - st._buffer.gpos →
      (NTSerialize.read_fundamental W d st).2._buffer.good = true ∧
      (NTSerialize.read_fundamental W d st).1
        = ofBytes ((st._buffer.buf.drop st._buffer.gpos).take W) ∧
      (NTSerialize.read_fundamental W d st).2._buffer.gpos = st._buffer.gpos + W) := by
  have hlen : ((st._buffer.buf.drop st._buffer.gpos).take W).length
      = min W (st._buffer.buf.length - st._buffer.gpos) := by simp
  have he : st._buffer.eofbit = false := by
    simp [Stream.good] at hg; exact hg.1
  have hf : st._buffer.failbit = false := by
    simp [Stream.good] at hg; exact hg.2
  constructor
  · simp only [NTSerialize.read_fundamental, NTSerialize.trace_buffer, Stream.read, hg, if_true]
    by_cases h : W ≤ st._buffer.buf.length - st._buffer.gpos
    · simp [h, Stream.good, he, hf]
    · simp [h, Stream.good]
      omega
  · intro h
    have hl : ((st._buffer.buf.drop st._buffer.gpos).take W).length = W := by
      rw [hlen]; omega
    have hdrop : List.drop ((st._buffer.buf.drop st._buffer.gpos).take W).length (toBytes W d)
        = [] := List.drop_eq_nil_of_le (by rw [hl]; simp)
    simp only [NTSerialize.read_fundamental, NTSerialize.trace_buffer, Stream.read, hg, if_true,
      hdrop, List.append_nil]
    simp [hl, Stream.good, he, hf]

theorem read_fundamental_health_witness :
    (NTSerialize.write_fundamental 2 513 NTSerialize.fresh)._buffer.good = true ∧
    ((NTSerialize.read_fundamental 4 0
        (NTSerialize.write_fundamental 2 513 NTSerialize.fresh)).2._buffer.good = false
      ↔ (NTSerialize.write_fundamental 2 513 NTSerialize.fresh)._buffer.buf.length
          - (NTSerialize.write_fundamental 2 513 NTSerialize.fresh)._buffer.gpos < 4) :=
  ⟨rfl, (read_fundamental_health (NTSerialize.write_fundamental 2 513 NTSerialize.fresh) 4 0
    rfl).1⟩

/-- C17, as stated, fails: loading the one-byte file `[9]` into an instance
that already holds the byte `7` (write cursor after it) returns true and
leaves the content `[7, 9]`, not `[9]`; loading it into an instance whose
stream a failed decode left unhealthy returns true and stores nothing; and
loading an empty file into the instance holding `7` returns true and leaves
both the content `[7]` and the write cursor at offset 1. -/
theorem load_keeps_previous_content :
    (((NTSerialize.write_fundamental 1 7 NTSerialize.fresh).load "f.bin"
        ⟨fun _ => some [9], fun _ => true, fun _ => 64⟩).1 = true ∧
      ((NTSerialize.write_fundamental 1 7 NTSerialize.fresh).load "f.bin"
        ⟨fun _ => some [9], fun _ => true, fun _ => 64⟩).2._buffer.buf = [7, 9] ∧
      ((NTSerialize.write_fundamental 1 7 NTSerialize.fresh).load "f.bin"
        ⟨fun _ => some [9], fun _ => true, fun _ => 64⟩).2._buffer.buf ≠ [9]) ∧
    (((NTSerialize.read_fundamental 1 0 NTSerialize.fresh).2.load "f.bin"
        ⟨fun _ => some [9], fun _ => true, fun _ => 64⟩).1 = true ∧
      ((NTSerialize.read_fundamental 1 0 NTSerialize.fresh).2.load "f.bin"
        ⟨fun _ => some [9], fun _ => true, fun _ => 64⟩).2._buffer.buf ≠ [9]) ∧
    (((NTSerialize.write_fundamental 1 7 NTSerialize.fresh).load "f.bin"
        ⟨fun _ => some [], fun _ => true, fun _ => 64⟩).1 = true ∧
      ((NTSerialize.write_fundamental 1 7 NTSerialize.fresh).load "f.bin"
        ⟨fun _ => some [], fun _ => true, fun _ => 64⟩).2._buffer.buf = [7] ∧
      ((NTSerialize.write_fundamental 1 7 NTSerialize.fresh).load "f.bin"
        ⟨fun _ => some [], fun _ => true, fun _ => 64⟩).2._buffer.ppos = 1) := by
  decide

/-- C17, amended: for every healthy buffer state and every openable file with
non-empty bytes `F`, `load` returns true, stores `F` at the write cursor over
the bytes that were there (the content grows as needed), so that the content is
exactly `F` when the buffer held nothing before, and leaves the write cursor at
offset 0; the read cursor and the trace flag are as before. -/
theorem load_writes_at_put_position (st : NTSerialize) (filename : String) (d : Disk)
    (F : List Nat) (hF : d.file filename = some F) (hne : F ≠ [])
    (hg : st._buffer.good = true) :
    (st.load filename d).1 = true ∧
    (st.load filename d).2._buffer.buf
      = st._buffer.buf.take st._buffer.ppos ++ F
          ++ st._buffer.buf.drop (st._buffer.ppos + F.length) ∧
    (st._buffer.buf = [] → (st.load filename d).2._buffer.buf = F) ∧
    (st.load filename d).2._buffer.ppos = 0 ∧
    (st.load filename d).2._buffer.gpos = st._buffer.gpos ∧
    (st.load filename d).2._buffer.good = true ∧
    (st.load filename d).2._is_debug = st._is_debug := by
  have hl : F.length ≠ 0 := by simpa using hne
  have hf : st._buffer.failbit = false := by
    simp [Stream.good] at hg; exact hg.2
  have he : st._buffer.eofbit = false := by
    simp [Stream.good] at hg; exact hg.1
  have hb : (st.load filename d).2._buffer
      = { st._buffer with
            buf := st._buffer.buf.take st._buffer.ppos ++ F
              ++ st._buffer.buf.drop (st._buffer.ppos + F.length),
            ppos := 0 } := by
    simp [NTSerialize.load, hF, Stream.insert_streambuf, hg, hl, Stream.write, Stream.seekp,
      Stream.fail, Stream.target, hf]
  refine ⟨by simp [NTSerialize.load, hF], by rw [hb], ?_, by rw [hb], by rw [hb],
    by rw [hb]; simp [Stream.good, hf, he], by simp [NTSerialize.load, hF]⟩
  intro h0
  rw [hb, h0]
  simp

theorem load_writes_at_put_position_witness :
    ((⟨fun _ => some [9, 8], fun _ => true, fun _ => 64⟩ : Disk).file "f.bin" = some [9, 8] ∧
      [9, 8] ≠ [] ∧ NTSerialize.fresh.clear._buffer.good = true) ∧
    (NTSerialize.fresh.clear.load "f.bin" ⟨fun _ => some [9, 8], fun _ => true, fun _ => 64⟩).2._buffer.buf
      = [9, 8] :=
  ⟨⟨rfl, by decide, rfl⟩,
    (load_writes_at_put_position NTSerialize.fresh.clear "f.bin"
      ⟨fun _ => some [9, 8], fun _ => true, fun _ => 64⟩ [9, 8] rfl (by decide) rfl).2.2.1 rfl⟩

/-- C18: for every file with bytes `F` (as `save` produces them, the empty file
included), loading it into a fresh instance and saving that instance (to a
file that opens and has room for the bytes) writes a file with exactly the
bytes `F`: both calls return true and the saved file equals the loaded one. -/
theorem load_save_fixed_point (F : List Nat) (source target : String) (d : Disk)
    (hF : d.file source = some F) (hc : d.creatable target = true)
    (hr : F.length ≤ d.room target) :
    (NTSerialize.fresh.load source d).1 = true ∧
    ((NTSerialize.fresh.load source d).2.save target d).1 = true ∧
    ((NTSerialize.fresh.load source d).2.save target d).2.1.file target = some F := by
  have hb : (NTSerialize.fresh.load source d).2._buffer.buf = F := by
    cases F with
    | nil =>
      simp [NTSerialize.load, hF, Stream.insert_streambuf, NTSerialize.fresh, Stream.empty,
        Stream.good, Stream.seekp, Stream.fail]
    | cons b bs =>
      simp [NTSerialize.load, hF, Stream.insert_streambuf, NTSerialize.fresh, Stream.empty,
        Stream.good, Stream.seekp, Stream.fail, Stream.write, Stream.target]
  have ht : List.take (d.room target) F = F := List.take_of_length_le hr
  refine ⟨by simp [NTSerialize.load, hF], by simp [NTSerialize.save, hc, Stream.str, hb, hr], ?_⟩
  simp [NTSerialize.save, hc, Stream.str, hb, ht]

theorem load_save_fixed_point_witness :
    (((NTSerialize.write_fundamental 2 513 NTSerialize.fresh).save "a.bin"
        ⟨fun _ => none, fun _ => true, fun _ => 64⟩).2.1.file "a.bin" = some [1, 2] ∧
      ((NTSerialize.write_fundamental 2 513 NTSerialize.fresh).save "a.bin"
        ⟨fun _ => none, fun _ => true, fun _ => 64⟩).2.1.creatable "b.bin" = true ∧
      [1, 2].length ≤ ((NTSerialize.write_fundamental 2 513 NTSerialize.fresh).save "a.bin"
        ⟨fun _ => none, fun _ => true, fun _ => 64⟩).2.1.room "b.bin") ∧
    ((NTSerialize.fresh.load "a.bin"
        ((NTSerialize.write_fundamental 2 513 NTSerialize.fresh).save "a.bin"
          ⟨fun _ => none, fun _ => true, fun _ => 64⟩).2.1).2.save "b.bin"
      ((NTSerialize.write_fundamental 2 513 NTSerialize.fresh).save "a.bin"
        ⟨fun _ => none, fun _ => true, fun _ => 64⟩).2.1).2.1.file "b.bin" = some [1, 2] :=
  ⟨⟨by decide, rfl, by decide⟩,
    (load_save_fixed_point [1, 2] "a.bin" "b.bin"
      ((NTSerialize.write_fundamental 2 513 NTSerialize.fresh).save "a.bin"
        ⟨fun _ => none, fun _ => true, fun _ => 64⟩).2.1 (by decide) rfl (by decide)).2.2⟩

/-- C19: for every buffer state, a save that returns true has written a file
whose bytes are exactly the whole content of the buffer, whatever the positions
of the read and write cursors, with nothing before or after them, and has
touched no other file; it returns true exactly when the file opens and has
room for the whole content; the instance after the call is the instance before
it (content, both cursors, state bits, trace flag); and when the file cannot be
opened save returns false and leaves the instance and the disk as they were. -/
theorem save_writes_content (st : NTSerialize) (filename : String) (d : Disk) (g p : Nat) :
    ((st.save filename d).1 = true →
      (st.save filename d).2.1.file filename = some st._buffer.buf ∧
      ∀ other, other ≠ filename → (st.save filename d).2.1.file other = d.file other) ∧
    ((st.save filename d).1 = true
      ↔ d.creatable filename = true ∧ st._buffer.buf.length ≤ d.room filename) ∧
    (st.save filename d).2.2 = st ∧
    (d.creatable filename = false →
      (st.save filename d).1 = false ∧ (st.save filename d).2.1 = d ∧
      (st.save filename d).2.2 = st) ∧
    ((({ st with _buffer := { st._buffer with gpos := g, ppos := p } } : NTSerialize).save
        filename d).1 = (st.save filename d).1 ∧
      (({ st with _buffer := { st._buffer with gpos := g, ppos := p } } : NTSerialize).save
        filename d).2.1 = (st.save filename d).2.1) := by
  have hcur : (({ st with _buffer := { st._buffer with gpos := g, ppos := p } } :
        NTSerialize).save filename d).1 = (st.save filename d).1 ∧
      (({ st with _buffer := { st._buffer with gpos := g, ppos := p } } : NTSerialize).save
        filename d).2.1 = (st.save filename d).2.1 := by
    by_cases hc : d.creatable filename = true <;> simp [NTSerialize.save, hc, Stream.str]
  by_cases hc : d.creatable filename = true
  · refine ⟨?_, by simp [NTSerialize.save, hc, Stream.str], by simp [NTSerialize.save, hc],
      by simp [hc], hcur⟩
    intro h
    have hr : st._buffer.buf.length ≤ d.room filename := by
      simpa [NTSerialize.save, hc, Stream.str] using h
    have ht : List.take (d.room filename) st._buffer.buf = st._buffer.buf :=
      List.take_of_length_le hr
    refine ⟨by simp [NTSerialize.save, hc, Stream.str, ht], ?_⟩
    intro other ho
    simp [NTSerialize.save, hc, ho]
  · have hc2 : d.creatable filename = false := by simpa using hc
    exact ⟨by simp [NTSerialize.save, hc2], by simp [NTSerialize.save, hc2],
      by simp [NTSerialize.save, hc2], by simp [NTSerialize.save, hc2], hcur⟩

theorem set_insert_mem {α : Type} [LinearOrder α] (x y : α) (l : List α) :
    y ∈ NTSerialize.set_insert x l ↔ y = x ∨ y ∈ l := by
  induction l with
  | nil => simp [NTSerialize.set_insert]
  | cons z zs ih =>
    unfold NTSerialize.set_insert
    split
    · simp
    · split
      · simp only [List.mem_cons, ih]
        tauto
      · have hxz : x = z := le_antisymm (not_lt.mp ‹¬ z < x›) (not_lt.mp ‹¬ x < z›)
        subst hxz
        simp only [List.mem_cons]
        tauto

theorem foldl_set_insert_mem {α : Type} [LinearOrder α] (xs acc : List α) (y : α) :
    y ∈ xs.foldl (fun c x => NTSerialize.set_insert x c) acc ↔ y ∈ acc ∨ y ∈ xs := by
  induction xs generalizing acc with
  | nil => simp
  | cons x xs ih =>
    simp only [List.foldl_cons, ih, set_insert_mem, List.mem_cons]
    tauto

theorem map_insert_mem_weak {κ β : Type} [LinearOrder κ] (x p : κ × β) (l : List (κ × β))
    (h : p ∈ NTSerialize.map_insert x l) : p = x ∨ p ∈ l := by
  induction l with
  | nil => simpa [NTSerialize.map_insert] using h
  | cons z zs ih =>
    unfold NTSerialize.map_insert at h
    split at h
    · simpa using h
    · split at h
      · simp only [List.mem_cons] at h ⊢
        rcases h with h | h
        · exact Or.inr (Or.inl h)
        · rcases ih h with h | h
          · exact Or.inl h
          · exact Or.inr (Or.inr h)
      · exact Or.inr h

theorem map_insert_sorted {κ β : Type} [LinearOrder κ] (x : κ × β) (l : List (κ × β))
    (hs : l.Pairwise (fun a b => a.1 < b.1)) :
    (NTSerialize.map_insert x l).Pairwise (fun a b => a.1 < b.1) := by
  induction l with
  | nil => simp [NTSerialize.map_insert]
  | cons z zs ih =>
    rw [List.pairwise_cons] at hs
    unfold NTSerialize.map_insert
    split
    · rename_i hxz
      refine List.pairwise_cons.mpr ⟨?_, List.pairwise_cons.mpr hs⟩
      intro q hq
      rcases List.mem_cons.mp hq with rfl | hq
      · exact hxz
      · exact lt_trans hxz (hs.1 q hq)
    · split
      · rename_i hzx
        refine List.pairwise_cons.mpr ⟨?_, ih hs.2⟩
        intro q hq
        rcases map_insert_mem_weak x q zs hq with rfl | hq
        · exact hzx
        · exact hs.1 q hq
      · exact List.pairwise_cons.mpr hs

theorem map_insert_mem {κ β : Type} [LinearOrder κ] (x p : κ × β) (l : List (κ × β))
    (hs : l.Pairwise (fun a b => a.1 < b.1)) :
    p ∈ NTSerialize.map_insert x l ↔ p ∈ l ∨ (p = x ∧ ∀ q ∈ l, q.1 ≠ x.1) := by
  induction l with
  | nil => simp [NTSerialize.map_insert]
  | cons z zs ih =>
    rw [List.pairwise_cons] at hs
    unfold NTSerialize.map_insert
    split
    · rename_i hxz
      have hall : ∀ q ∈ z :: zs, q.1 ≠ x.1 := by
        intro q hq
        rcases List.mem_cons.mp hq with rfl | hq
        · exact ne_of_gt hxz
        · exact ne_of_gt (lt_trans hxz (hs.1 q hq))
      simp only [List.mem_cons]
      constructor
      · rintro (h | h | h)
        · exact Or.inr ⟨h, fun q hq => hall q (List.mem_cons.mpr hq)⟩
        · exact Or.inl (Or.inl h)
        · exact Or.inl (Or.inr h)
      · rintro (h | ⟨h, -⟩)
        · exact Or.inr h
        · exact Or.inl h
    · split
      · rename_i hzx
        simp only [List.mem_cons, ih hs.2]
        constructor
        · rintro (h | h | ⟨h, h2⟩)
          · exact Or.inl (Or.inl h)
          · exact Or.inl (Or.inr h)
          · refine Or.inr ⟨h, ?_⟩
            intro q hq
            rcases hq with rfl | hq
            · exact ne_of_lt hzx
            · exact h2 q hq
        · rintro ((h | h) | ⟨h, h2⟩)
          · exact Or.inl h
          · exact Or.inr (Or.inl h)
          · exact Or.inr (Or.inr ⟨h, fun q hq => h2 q (Or.inr hq)⟩)
      · rename_i h1 h2
        have hxz : x.1 = z.1 := le_antisymm (not_lt.mp h2) (not_lt.mp h1)
        constructor
        · exact fun h => Or.inl h
        · rintro (h | ⟨-, h⟩)
          · exact h
          · exact absurd hxz.symm (h z (by simp))

theorem foldl_map_insert_sorted {κ β : Type} [LinearOrder κ] (xs acc : List (κ × β))
    (hs : acc.Pairwise (fun a b => a.1 < b.1)) :
    (xs.foldl (fun c x => NTSerialize.map_insert x c) acc).Pairwise (fun a b => a.1 < b.1) := by
  induction xs generalizing acc with
  | nil => exact hs
  | cons x xs ih => exact ih _ (map_insert_sorted x acc hs)

theorem foldl_map_insert_mem {κ β : Type} [LinearOrder κ] (xs acc : List (κ × β))
    (p : κ × β) (hs : acc.Pairwise (fun a b => a.1 < b.1)) :
    p ∈ xs.foldl (fun c x => NTSerialize.map_insert x c) acc ↔
      p ∈ acc ∨ ((∀ q ∈ acc, q.1 ≠ p.1) ∧ xs.find? (fun q => decide (q.1 = p.1)) = some p) := by
  induction xs generalizing acc with
  | nil => simp
  | cons x xs ih =>
    have hs2 := map_insert_sorted x acc hs
    simp only [List.foldl_cons, ih _ hs2, map_insert_mem x p acc hs, List.find?_cons]
    have hkeys : (∀ q ∈ NTSerialize.map_insert x acc, q.1 ≠ p.1)
        ↔ (∀ q ∈ acc, q.1 ≠ p.1) ∧ x.1 ≠ p.1 := by
      constructor
      · intro h
        have h1 : ∀ q ∈ acc, q.1 ≠ p.1 := fun q hq =>
          h q ((map_insert_mem x q acc hs).mpr (Or.inl hq))
        refine ⟨h1, fun hx => ?_⟩
        by_cases hk : ∀ q ∈ acc, q.1 ≠ x.1
        · exact h x ((map_insert_mem x x acc hs).mpr (Or.inr ⟨rfl, hk⟩)) hx
        · push_neg at hk
          obtain ⟨q, hq, hqx⟩ := hk
          exact h1 q hq (hqx.trans hx)
      · rintro ⟨h1, h2⟩ q hq
        rcases map_insert_mem_weak x q acc hq with rfl | hq
        · exact h2
        · exact h1 q hq
    rw [hkeys]
    by_cases hx : x.1 = p.1
    · simp only [hx, decide_True, Option.some.injEq, ne_eq, not_true_eq_false, and_false,
        false_and, or_false]
      constructor
      · rintro (h | ⟨h, h2⟩)
        · exact Or.inl h
        · exact Or.inr ⟨h2, h.symm⟩
      · rintro (h | ⟨h, h2⟩)
        · exact Or.inl h
        · exact Or.inr ⟨h2.symm, h⟩
    · simp only [hx, decide_False, ne_eq, not_false_eq_true, and_true]
      constructor
      · rintro ((h | ⟨h, -⟩) | h)
        · exact Or.inl h
        · exact absurd (by rw [h]) hx
        · exact Or.inr h
      · rintro (h | h)
        · exact Or.inl (Or.inl h)
        · exact Or.inr h

theorem find_key_iff_mem {κ β : Type} [LinearOrder κ] (ps : List (κ × β)) (p : κ × β)
    (hs : ps.Pairwise (fun a b => a.1 < b.1)) :
    ps.find? (fun q => decide (q.1 = p.1)) = some p ↔ p ∈ ps := by
  induction ps with
  | nil => simp
  | cons y ys ih =>
    rw [List.pairwise_cons] at hs
    simp only [List.find?_cons, List.mem_cons]
    by_cases hy : y.1 = p.1
    · simp only [hy, decide_True, Option.some.injEq]
      constructor
      · exact fun h => Or.inl h.symm
      · rintro (h | h)
        · exact h.symm
        · exact absurd hy (ne_of_lt (hs.1 p h))
    · simp only [hy, decide_False, ih hs.2]
      constructor
      · exact fun h => Or.inr h
      · rintro (h | h)
        · exact absurd (by rw [h]) hy
        · exact h

theorem map_keys_length {κ β : Type} [LinearOrder κ] (ps : List (κ × β)) :
    (ps.foldl (fun c x => NTSerialize.map_insert x c) []).length
      = ((ps.map Prod.fst).dedup).length := by
  have hs := foldl_map_insert_sorted ps [] List.Pairwise.nil
  have hmem := fun p => foldl_map_insert_mem ps [] p List.Pairwise.nil
  have hnd : ((ps.foldl (fun c x => NTSerialize.map_insert x c) []).map Prod.fst).Nodup := by
    rw [List.Nodup, List.pairwise_map]
    exact hs.imp (fun h => ne_of_lt h)
  have hperm : ((ps.foldl (fun c x => NTSerialize.map_insert x c) []).map Prod.fst).Perm
      ((ps.map Prod.fst).dedup) := by
    rw [List.perm_ext_iff_of_nodup hnd (List.nodup_dedup _)]
    intro k
    simp only [List.mem_map, List.mem_dedup]
    constructor
    · rintro ⟨p, hp, rfl⟩
      have := (hmem p).mp hp
      simp only [List.not_mem_nil, false_or, false_implies, implies_true, true_and] at this
      exact ⟨p, List.mem_of_find?_eq_some this, rfl⟩
    · rintro ⟨q, hq, rfl⟩
      have hsome : (ps.find? (fun r => decide (r.1 = q.1))).isSome := by
        rw [List.find?_isSome]
        exact ⟨q, hq, by simp⟩
      obtain ⟨p, hp⟩ := Option.isSome_iff_exists.mp hsome
      have hk : p.1 = q.1 := by simpa using List.find?_some hp
      refine ⟨p, (hmem p).mpr (Or.inr ⟨by simp, ?_⟩), hk⟩
      rw [hk]; exact hp
  have := hperm.length_eq
  simpa using this

theorem multimap_insert_perm {κ β : Type} [LinearOrder κ] (x : κ × β) (l : List (κ × β)) :
    (NTSerialize.multimap_insert x l).Perm (x :: l) := by
  induction l with
  | nil => simp [NTSerialize.multimap_insert]
  | cons y ys ih =>
    unfold NTSerialize.multimap_insert
    split
    · exact List.Perm.refl _
    · exact (List.Perm.cons y ih).trans (List.Perm.swap x y ys)

theorem foldl_insert_perm {α : Type} (ins : α → List α → List α)
    (hins : ∀ x l, (ins x l).Perm (x :: l)) (xs acc : List α) :
    (xs.foldl (fun c x => ins x c) acc).Perm (xs ++ acc) := by
  induction xs generalizing acc with
  | nil => simp
  | cons x xs ih =>
    simp only [List.foldl_cons]
    refine (ih _).trans ?_
    refine (List.Perm.append_left xs (hins x acc)).trans ?_
    simp

/-- C21: for every wire stream made of a count `n` and `n` (key, value) pairs,
with or without repeated keys, decoding it into an empty unique-key map yields
a map whose size is the number of distinct keys and that holds for each key the
value of its first occurrence on the wire, while decoding the same stream into
an empty multi-key map yields all `n` pairs, duplicates kept. -/
theorem duplicate_keys_on_wire (W1 W2 : Nat) (ps : List (Nat × Nat))
    (pval_ : Nat → Nat × Nat) (st : NTSerialize) (rest : List Nat)
    (hn : ps.length < 2 ^ 64) (hx : ∀ p ∈ ps, p.1 < 256 ^ W1 ∧ p.2 < 256 ^ W2)
    (hg : st._buffer.good = true)
    (hb : st._buffer.buf.drop st._buffer.gpos
      = wire_counted (fun p => toBytes W1 p.1 ++ toBytes W2 p.2) ps ++ rest) :
    (NTSerialize.read_map (NTSerialize.read_fundamental W1) (NTSerialize.read_fundamental W2)
      pval_ [] st).1.length = ((ps.map Prod.fst).dedup).length ∧
    (∀ k v, (k, v) ∈ (NTSerialize.read_map (NTSerialize.read_fundamental W1)
        (NTSerialize.read_fundamental W2) pval_ [] st).1
      ↔ ps.find? (fun q => decide (q.1 = k)) = some (k, v)) ∧
    (NTSerialize.read_multimap (NTSerialize.read_fundamental W1)
      (NTSerialize.read_fundamental W2) pval_ [] st).1.length = ps.length ∧
    (NTSerialize.read_multimap (NTSerialize.read_fundamental W1)
      (NTSerialize.read_fundamental W2) pval_ [] st).1.Perm ps := by
  have hdec := NTSerialize.decodes_pair (NTSerialize.decodes_fundamental W1)
    (NTSerialize.decodes_fundamental W2)
  obtain ⟨e1, -⟩ := NTSerialize.read_inserting_spec hdec pval_ NTSerialize.map_insert ps []
    st rest (by simpa [sizeof_size_t] using hn) hx hg hb
  obtain ⟨e2, -⟩ := NTSerialize.read_inserting_spec hdec pval_ NTSerialize.multimap_insert ps []
    st rest (by simpa [sizeof_size_t] using hn) hx hg hb
  have hp := foldl_insert_perm NTSerialize.multimap_insert multimap_insert_perm ps []
  simp only [List.append_nil] at hp
  simp only [NTSerialize.read_map, NTSerialize.read_multimap]
  rw [e1, e2]
  refine ⟨map_keys_length ps, ?_, hp.length_eq, hp⟩
  intro k v
  have := foldl_map_insert_mem ps [] (k, v) List.Pairwise.nil
  simpa using this

theorem duplicate_keys_on_wire_witness :
    ([((10 : Nat), (1 : Nat)), (20, 2), (20, 5), (30, 3)].length < 2 ^ 64 ∧
      (∀ p ∈ [((10 : Nat), (1 : Nat)), (20, 2), (20, 5), (30, 3)],
        p.1 < 256 ^ 4 ∧ p.2 < 256 ^ 4)) ∧
    (NTSerialize.read_map (NTSerialize.read_fundamental 4) (NTSerialize.read_fundamental 4)
      (fun _ => (0, 0)) []
      (NTSerialize.write_multimap (NTSerialize.write_fundamental 4)
        (NTSerialize.write_fundamental 4) [(10, 1), (20, 2), (20, 5), (30, 3)]
        NTSerialize.fresh)).1.length = 3 ∧
    (NTSerialize.read_multimap (NTSerialize.read_fundamental 4) (NTSerialize.read_fundamental 4)
      (fun _ => (0, 0)) []
      (NTSerialize.write_multimap (NTSerialize.write_fundamental 4)
        (NTSerialize.write_fundamental 4) [(10, 1), (20, 2), (20, 5), (30, 3)]
        NTSerialize.fresh)).1.length = 4 :=
  ⟨⟨by norm_num, by decide⟩,
    (duplicate_keys_on_wire 4 4 [(10, 1), (20, 2), (20, 5), (30, 3)] (fun _ => (0, 0))
      (NTSerialize.write_multimap (NTSerialize.write_fundamental 4)
        (NTSerialize.write_fundamental 4) [(10, 1), (20, 2), (20, 5), (30, 3)]
        NTSerialize.fresh) [] (by norm_num) (by decide) rfl (by decide)).1,
    (duplicate_keys_on_wire 4 4 [(10, 1), (20, 2), (20, 5), (30, 3)] (fun _ => (0, 0))
      (NTSerialize.write_multimap (NTSerialize.write_fundamental 4)
        (NTSerialize.write_fundamental 4) [(10, 1), (20, 2), (20, 5), (30, 3)]
        NTSerialize.fresh) [] (by norm_num) (by decide) rfl (by decide)).2.2.1⟩

theorem write_drain_loop_data {α : Type} (enc : α → NTSerialize → NTSerialize)
    (data : List α) (st : NTSerialize) :
    (NTSerialize.write_drain_loop enc data.length st data).2 = [] := by
  induction data generalizing st with
  | nil => rfl
  | cons x xs ih => simpa [NTSerialize.write_drain_loop] using ih (enc x st)

/-- C22, on the code: for every queue and every priority queue, the adapter an
encode call leaves behind is empty; the loop removes every element and nothing
puts them back, unlike the stack encoder, which refills the stack from
`temp_`. -/
theorem queue_encode_drains {α : Type} (enc : α → NTSerialize → NTSerialize)
    (data : List α) (st : NTSerialize) :
    (NTSerialize.write_queue enc data st).2 = [] ∧
    (NTSerialize.write_priority_queue enc data st).2 = [] ∧
    (NTSerialize.write_queue (NTSerialize.write_fundamental 4) [10, 20, 30]
      NTSerialize.fresh).2 ≠ [10, 20, 30] :=
  ⟨write_drain_loop_data enc data _, write_drain_loop_data enc data _, by decide⟩

theorem ofBool_lt (b : Bool) : NTSerialize.ofBool b < 256 ^ 1 := by
  cases b <;> simp [NTSerialize.ofBool]

theorem toBool_ofBool (b : Bool) : NTSerialize.toBool (NTSerialize.ofBool b) = b := by
  cases b <;> rfl

theorem wire_each_bool (bs : List Bool) :
    wire_each (fun b => toBytes 1 (NTSerialize.ofBool b)) bs = bs.map NTSerialize.ofBool := by
  induction bs with
  | nil => rfl
  | cons b bs ih =>
    simp only [wire_each, ih, List.map_cons]
    cases b <;> rfl

theorem encodes_bool :
    Encodes (fun b => NTSerialize.write_fundamental 1 (NTSerialize.ofBool b))
      (fun b => toBytes 1 (NTSerialize.ofBool b)) :=
  fun b st => NTSerialize.encodes_fundamental 1 (NTSerialize.ofBool b) st

theorem encodes_vector_bool :
    Encodes NTSerialize.write_vector_bool
      (fun bs => toBytes sizeof_size_t bs.length ++ bs.map NTSerialize.ofBool) := by
  intro bs st
  have h := NTSerialize.encodes_counted encodes_bool bs st
  simp only [wire_counted, wire_each_bool] at h
  exact h

theorem read_vector_bool_loop_spec (val_ : Nat → Bool) (bs ds : List Bool) (i : Nat)
    (st : NTSerialize) (rest : List Nat) (hl : ds.length = bs.length)
    (hg : st._buffer.good = true)
    (hb : st._buffer.buf.drop st._buffer.gpos = bs.map NTSerialize.ofBool ++ rest) :
    (NTSerialize.read_vector_bool_loop val_ ds i st).1 = bs := by
  induction bs generalizing ds i st with
  | nil =>
    have : ds = [] := List.length_eq_zero.mp hl
    subst this
    rfl
  | cons b bs ih =>
    match ds, hl with
    | d :: ds, hl =>
      have hb1 : st._buffer.buf.drop st._buffer.gpos
          = toBytes 1 (NTSerialize.ofBool b) ++ (bs.map NTSerialize.ofBool ++ rest) := by
        rw [hb]; cases b <;> simp [toBytes, NTSerialize.ofBool]
      obtain ⟨e1, e2, -⟩ := NTSerialize.decodes_fundamental 1 (NTSerialize.ofBool b) (NTSerialize.ofBool (val_ i)) st
        (bs.map NTSerialize.ofBool ++ rest) (ofBool_lt b) hg hb1
      have hb2 := drop_add_of_drop_eq _ _ _ _ hb1
      have f1 := ih ds (i + 1) (NTSerialize.read_fundamental 1 (NTSerialize.ofBool (val_ i)) st).2
        (by simpa using hl) (by rw [e2]; exact hg) (by rw [e2]; exact hb2)
      simp only [NTSerialize.read_vector_bool_loop, e1, f1, toBool_ofBool]

/-- C24: for every boolean sequence `bs` of `N` elements, the specialised
encoder produces exactly what the generic dynamic-array encoder produces for
the same booleans, each converted to `bool` and encoded as a fundamental value:
one count field followed by one byte per element, `sizeof( size_t ) + N` bytes
in all and no bit packing; and decoding those bytes yields `bs`, whatever the
destination held. -/
theorem vector_bool_wire (bs dst : List Bool) (val_ : Nat → Bool) (st st2 : NTSerialize)
    (rest : List Nat) (hl : bs.length < 2 ^ 64) (hg : st._buffer.good = true)
    (hp : st._buffer.ppos = st._buffer.buf.length) (hg2 : st2._buffer.good = true)
    (hb2 : st2._buffer.buf.drop st2._buffer.gpos
      = (toBytes sizeof_size_t bs.length ++ bs.map NTSerialize.ofBool) ++ rest) :
    NTSerialize.write_vector_bool bs st
      = NTSerialize.write_vector (fun b => NTSerialize.write_fundamental 1 (NTSerialize.ofBool b)) bs st ∧
    (NTSerialize.write_vector_bool bs st)._buffer.buf
      = st._buffer.buf ++ (toBytes sizeof_size_t bs.length ++ bs.map NTSerialize.ofBool) ∧
    (NTSerialize.write_vector_bool bs st)._buffer.buf.length
      = st._buffer.buf.length + (sizeof_size_t + bs.length * 1) ∧
    (NTSerialize.read_vector_bool val_ dst st2).1 = bs := by
  have h1 := encodes_vector_bool.at_end bs st hg hp
  rw [List.append_assoc] at hb2
  have h2 := NTSerialize.read_size_spec st2 bs.length (bs.map NTSerialize.ofBool ++ rest)
    (by simpa [sizeof_size_t] using hl) hg2 hb2
  have hb3 := drop_add_of_drop_eq _ _ _ _ hb2
  simp only [toBytes_length] at hb3
  have h3 := read_vector_bool_loop_spec val_ bs (NTSerialize.resize dst bs.length false) 0
    (NTSerialize.trace { st2 with _buffer := { st2._buffer with gpos := st2._buffer.gpos + sizeof_size_t } })
    rest (by simp) (by simpa using hg2) (by simpa using hb3)
  refine ⟨rfl, by rw [h1], by rw [h1]; simp, ?_⟩
  simp only [NTSerialize.read_vector_bool, h2]
  exact h3

theorem vector_bool_wire_witness :
    ([true, false, true].length < 2 ^ 64 ∧ NTSerialize.fresh._buffer.good = true) ∧
    (NTSerialize.write_vector_bool [true, false, true] NTSerialize.fresh)._buffer.buf
      = [3, 0, 0, 0, 0, 0, 0, 0, 1, 0, 1] ∧
    (NTSerialize.read_vector_bool (fun _ => false) [false]
      (NTSerialize.write_vector_bool [true, false, true] NTSerialize.fresh)).1
      = [true, false, true] :=
  ⟨⟨by norm_num, rfl⟩,
    (vector_bool_wire [true, false, true] [false] (fun _ => false) NTSerialize.fresh
      (NTSerialize.write_vector_bool [true, false, true] NTSerialize.fresh) [] (by norm_num)
      rfl rfl rfl (by decide)).2.1,
    (vector_bool_wire [true, false, true] [false] (fun _ => false) NTSerialize.fresh
      (NTSerialize.write_vector_bool [true, false, true] NTSerialize.fresh) [] (by norm_num)
      rfl rfl rfl (by decide)).2.2.2⟩

/-- C25, as stated, fails: encoding the two booleans `true, false` into a fresh
buffer produces the ten bytes `2,0,0,0,0,0,0,0,1,0`, one count field and one
byte per boolean, which is `sizeof( size_t ) + 2 * sizeof( bool )` bytes and
not more. -/
theorem vector_bool_no_second_count :
    (NTSerialize.write_vector_bool [true, false] NTSerialize.fresh)._buffer.buf
      = [2, 0, 0, 0, 0, 0, 0, 0, 1, 0] ∧
    (NTSerialize.write_vector_bool [true, false] NTSerialize.fresh)._buffer.buf.length
      = sizeof_size_t + 2 * 1 ∧
    ¬ (sizeof_size_t + 2 * 1
      < (NTSerialize.write_vector_bool [true, false] NTSerialize.fresh)._buffer.buf.length) := by
  decide

/-- C25, amended: encoding a boolean sequence writes one count and then
encodes each boolean through the operator of the fundamental types, which
writes the single byte of the `bool` and no count; into a fresh buffer the
bytes produced for `N` booleans are the count field followed by the `N` bytes,
exactly `sizeof( size_t ) + N * sizeof( bool )` bytes. -/
theorem vector_bool_single_count (bs : List Bool) (b : Bool) (st : NTSerialize)
    (hst : st._buffer = Stream.empty) :
    (NTSerialize.write_fundamental 1 (NTSerialize.ofBool b) st)._buffer.buf = [NTSerialize.ofBool b] ∧
    (NTSerialize.write_vector_bool bs st)._buffer.buf
      = toBytes sizeof_size_t bs.length ++ bs.map NTSerialize.ofBool ∧
    (NTSerialize.write_vector_bool bs st)._buffer.buf.length = sizeof_size_t + bs.length * 1 := by
  have h1 := encodes_vector_bool.fresh_of bs st hst
  have h2 := encodes_bool.fresh_of b st hst
  simp only [] at h2
  rw [h1, h2]
  refine ⟨by cases b <;> simp [toBytes, NTSerialize.ofBool], rfl, by simp⟩

theorem vector_bool_single_count_witness :
    NTSerialize.fresh._buffer = Stream.empty ∧
    (NTSerialize.write_vector_bool [true, true, false] NTSerialize.fresh)._buffer.buf.length
      = sizeof_size_t + 3 * 1 :=
  ⟨rfl, (vector_bool_single_count [true, true, false] true NTSerialize.fresh rfl).2.2⟩

theorem ReadFrame.refl (st : NTSerialize) : ReadFrame st st := ⟨rfl, rfl, Nat.le_refl _⟩

theorem ReadFrame.trans {a b c : NTSerialize} (h1 : ReadFrame a b) (h2 : ReadFrame b c) :
    ReadFrame a c :=
  ⟨h2.1.trans h1.1, h2.2.1.trans h1.2.1, Nat.le_trans h1.2.2 h2.2.2⟩

theorem ReadFrame.from_buffer {a b c : NTSerialize} (h : ReadFrame a b)
    (hc : c._buffer = a._buffer) : ReadFrame c b := by
  unfold ReadFrame at *
  rw [hc]; exact h

theorem Stream.read_frame (s : Stream) (dst : List Nat) (n : Nat) :
    (s.read dst n).2.buf = s.buf ∧ (s.read dst n).2.ppos = s.ppos ∧
    s.gpos ≤ (s.read dst n).2.gpos := by
  unfold Stream.read
  split
  · dsimp only
    split <;> simp
  · simp

theorem frame_fundamental (W d : Nat) (st : NTSerialize) :
    ReadFrame st (NTSerialize.read_fundamental W d st).2 := by
  have h := Stream.read_frame st._buffer (toBytes W d) W
  simpa [ReadFrame, NTSerialize.read_fundamental] using h

theorem frame_read_size (st : NTSerialize) : ReadFrame st (NTSerialize.read_size st).2 := by
  have h := Stream.read_frame st._buffer (toBytes sizeof_size_t 0) sizeof_size_t
  simpa [ReadFrame, NTSerialize.read_size] using h

theorem frame_string (d : List Nat) (st : NTSerialize) :
    ReadFrame st (NTSerialize.read_string d st).2 := by
  have h1 := frame_read_size st
  have h2 := Stream.read_frame (NTSerialize.read_size st).2._buffer
    (NTSerialize.resize d (NTSerialize.read_size st).1 0) (NTSerialize.read_size st).1
  refine h1.trans ?_
  simpa [ReadFrame, NTSerialize.read_string] using h2

theorem frame_pair {α β : Type} {dec1 : α → NTSerialize → α × NTSerialize}
    {dec2 : β → NTSerialize → β × NTSerialize}
    (h1 : ∀ d st, ReadFrame st (dec1 d st).2) (h2 : ∀ d st, ReadFrame st (dec2 d st).2)
    (d : α × β) (st : NTSerialize) : ReadFrame st (NTSerialize.read_pair dec1 dec2 d st).2 := by
  have e1 := (h1 d.1 st.trace).from_buffer (c := st) (by simp)
  exact e1.trans (h2 d.2 _)

theorem frame_each {α : Type} {dec : α → NTSerialize → α × NTSerialize}
    (h : ∀ d st, ReadFrame st (dec d st).2) (ds : List α) (st : NTSerialize) :
    ReadFrame st (NTSerialize.read_each dec ds st).2 := by
  induction ds generalizing st with
  | nil => exact ReadFrame.refl st
  | cons d ds ih => exact (h d st).trans (ih _)

theorem frame_vector {α : Type} {dec : α → NTSerialize → α × NTSerialize}
    (h : ∀ d st, ReadFrame st (dec d st).2) (T : α) (d : List α) (st : NTSerialize) :
    ReadFrame st (NTSerialize.read_vector dec T d st).2 := by
  have e1 := frame_read_size st
  have e2 := (frame_each h (NTSerialize.resize d (NTSerialize.read_size st).1 T)
    (NTSerialize.read_size st).2.trace).from_buffer (c := (NTSerialize.read_size st).2) (by simp)
  exact e1.trans e2

theorem frame_insert {α C : Type} {dec : α → NTSerialize → α × NTSerialize}
    (h : ∀ d st, ReadFrame st (dec d st).2) (val_ : Nat → α) (ins : α → C → C) (n i : Nat)
    (data : C) (st : NTSerialize) :
    ReadFrame st (NTSerialize.read_insert dec val_ ins n i data st).2 := by
  induction n generalizing i data st with
  | zero => exact ReadFrame.refl st
  | succ n ih => exact (h (val_ i) st).trans (ih _ _ _)

theorem frame_inserting {α C : Type} {dec : α → NTSerialize → α × NTSerialize}
    (h : ∀ d st, ReadFrame st (dec d st).2) (val_ : Nat → α) (ins : α → C → C) (data : C)
    (st : NTSerialize) :
    ReadFrame st (NTSerialize.read_insert dec val_ ins (NTSerialize.read_size st).1 0 data
      (NTSerialize.read_size st).2.trace).2 := by
  have e1 := frame_read_size st
  have e2 := (frame_insert h val_ ins (NTSerialize.read_size st).1 0 data
    (NTSerialize.read_size st).2.trace).from_buffer (c := (NTSerialize.read_size st).2) (by simp)
  exact e1.trans e2

theorem frame_stack_loop {α : Type} {dec : α → NTSerialize → α × NTSerialize}
    (h : ∀ d st, ReadFrame st (dec d st).2) (val_ : Nat → α) (n i : Nat) (temp_ : List α)
    (st : NTSerialize) :
    ReadFrame st (NTSerialize.read_stack_loop dec val_ n i st temp_).1 := by
  induction n generalizing i temp_ st with
  | zero => exact ReadFrame.refl st
  | succ n ih => exact (h (val_ i) st).trans (ih _ _ _)

theorem frame_stack {α : Type} {dec : α → NTSerialize → α × NTSerialize}
    (h : ∀ d st, ReadFrame st (dec d st).2) (T : α) (val_ : Nat → α) (data : List α)
    (st : NTSerialize) : ReadFrame st (NTSerialize.read_stack dec T val_ data st).2 := by
  have e1 := frame_read_size st
  have e2 := (frame_stack_loop h val_ (NTSerialize.read_size st).1 0
    (NTSerialize.resize [] (NTSerialize.read_size st).1 T)
    (NTSerialize.read_size st).2.trace).from_buffer (c := (NTSerialize.read_size st).2) (by simp)
  exact e1.trans e2

theorem Encodes.gpos {α : Type} {enc : α → NTSerialize → NTSerialize} {w : α → List Nat}
    (h : Encodes enc w) (v : α) (st : NTSerialize) :
    (enc v st)._buffer.gpos = st._buffer.gpos := by
  rw [(h v st).1]; simp

theorem step_on_unhealthy (op : Op) (st : NTSerialize) (hbad : st._buffer.good = false)
    (hop : op.isEncodeOrScalarDecode) :
    (op.run st).1._buffer.buf = st._buffer.buf ∧ (op.run st).1._buffer.good = false ∧
    (op.run st).2 = op.destination := by
  cases op with
  | encode s v =>
    simp only [Op.run, Op.destination, and_true]
    rw [(Shape.encodes s v st).1]
    simp [Stream.write, hbad]
  | decode s d =>
    cases s with
    | scalar W =>
      have hd : d < 256 ^ W := hop
      simp only [Op.run, Op.destination, Shape.read, NTSerialize.read_fundamental,
        NTSerialize.trace_buffer, Stream.read, hbad, Bool.false_eq_true, if_false,
        ofBytes_toBytes W d hd, and_true]
      simp [Stream.good]
    | text => exact absurd hop (by simp [Op.isEncodeOrScalarDecode])
    | pair a b => exact absurd hop (by simp [Op.isEncodeOrScalarDecode])
    | vector a => exact absurd hop (by simp [Op.isEncodeOrScalarDecode])
  | directive command => exact absurd hop (by simp [Op.isEncodeOrScalarDecode])
  | setpos pos way => exact absurd hop (by simp [Op.isEncodeOrScalarDecode])

theorem run_on_unhealthy (ops : List Op) (st : NTSerialize) (hbad : st._buffer.good = false)
    (hops : ∀ op ∈ ops, op.isEncodeOrScalarDecode) :
    (run ops st).1._buffer.buf = st._buffer.buf ∧ (run ops st).1._buffer.good = false ∧
    (run ops st).2 = destinations ops := by
  induction ops generalizing st with
  | nil => exact ⟨rfl, hbad, rfl⟩
  | cons op ops ih =>
    obtain ⟨e1, e2, e3⟩ := step_on_unhealthy op st hbad (hops op (by simp))
    obtain ⟨f1, f2, f3⟩ := ih (op.run st).1 e2 (fun o ho => hops o (by simp [ho]))
    simp only [run, destinations]
    rw [f1, f2, f3, e1, e3]
    exact ⟨rfl, rfl, rfl⟩

theorem roundtrip_on_empty (s : Shape) (v d : s.Val) (st : NTSerialize)
    (hst : st._buffer = Stream.empty) (hv : s.Valid v) : (s.read d (s.write v st)).1 = v := by
  have henc := (Shape.encodes s).fresh_of v st hst
  exact (Shape.decodes s v d (s.write v st) [] hv (by rw [henc]; rfl)
    (by rw [henc]; simp)).1

/-- C26: failure is sticky until clear. Once the stream is unhealthy, after any
number of further encodes (of any shape) and decodes of fixed-width values the
content bytes are the same, the stream is still unhealthy and every decode has
left its destination as it was; after `clear()` the stream is healthy again
and an encode followed by a decode round-trips as on a fresh buffer. -/
theorem failure_is_sticky (ops : List Op) (st : NTSerialize) (s : Shape) (v d : s.Val)
    (hbad : st._buffer.good = false) (hops : ∀ op ∈ ops, op.isEncodeOrScalarDecode)
    (hv : s.Valid v) :
    (run ops st).1._buffer.buf = st._buffer.buf ∧
    (run ops st).1._buffer.good = false ∧
    (run ops st).2 = destinations ops ∧
    (run ops st).1.clear._buffer.good = true ∧
    (s.read d (s.write v (run ops st).1.clear)).1 = v ∧
    (s.read d (s.write v (run ops st).1.clear)).1 = (s.read d (s.write v NTSerialize.fresh)).1 := by
  obtain ⟨e1, e2, e3⟩ := run_on_unhealthy ops st hbad hops
  have h1 := roundtrip_on_empty s v d (run ops st).1.clear rfl hv
  have h2 := roundtrip_on_empty s v d NTSerialize.fresh rfl hv
  exact ⟨e1, e2, e3, rfl, h1, h1.trans h2.symm⟩

theorem failure_is_sticky_witness :
    ((NTSerialize.read_fundamental 4 0 NTSerialize.fresh).2._buffer.good = false ∧
      (Shape.scalar 2).Valid 513) ∧
    (run [Op.encode (Shape.scalar 4) 5, Op.decode (Shape.scalar 4) 9, Op.encode Shape.text [1]]
      (NTSerialize.read_fundamental 4 0 NTSerialize.fresh).2).1._buffer.buf = [] ∧
    (run [Op.encode (Shape.scalar 4) 5, Op.decode (Shape.scalar 4) 9, Op.encode Shape.text [1]]
      (NTSerialize.read_fundamental 4 0 NTSerialize.fresh).2).2 = [⟨Shape.scalar 4, 9⟩] :=
  ⟨⟨by decide, by simp [Shape.Valid]⟩,
    (failure_is_sticky
      [Op.encode (Shape.scalar 4) 5, Op.decode (Shape.scalar 4) 9, Op.encode Shape.text [1]]
      (NTSerialize.read_fundamental 4 0 NTSerialize.fresh).2 (Shape.scalar 2) 513 0
      (by decide) (by simp [Op.isEncodeOrScalarDecode]) (by simp [Shape.Valid])).1,
    (failure_is_sticky
      [Op.encode (Shape.scalar 4) 5, Op.decode (Shape.scalar 4) 9, Op.encode Shape.text [1]]
      (NTSerialize.read_fundamental 4 0 NTSerialize.fresh).2 (Shape.scalar 2) 513 0
      (by decide) (by simp [Op.isEncodeOrScalarDecode]) (by simp [Shape.Valid])).2.2.1⟩

theorem Stream.write_at_zero (s : Stream) (src : List Nat) (hg : s.good = true)
    (hp : s.ppos = 0) :
    s.write src = { s with buf := src ++ s.buf.drop src.length, ppos := src.length } := by
  rw [Stream.write_of_good s src hg, hp]
  simp

theorem load_fresh (filename : String) (d : Disk) (F : List Nat)
    (hF : d.file filename = some F) (hne : F ≠ []) :
    (NTSerialize.fresh.load filename d).2._buffer = ⟨F, 0, 0, false, false⟩ := by
  have hl : F.length ≠ 0 := by simpa using hne
  simp [NTSerialize.load, hF, Stream.insert_streambuf, NTSerialize.fresh, Stream.empty,
    Stream.good, hl, Stream.write, Stream.seekp, Stream.fail, Stream.target]

theorem posstart_buffer (st : NTSerialize) (hg : st._buffer.good = true) :
    (st.directive ntsdirective.posstart)._buffer = { st._buffer with ppos := 0 } := by
  have hf : st._buffer.failbit = false := by
    simp [Stream.good] at hg; exact hg.2
  simp [NTSerialize.directive, Stream.seekp, Stream.fail, Stream.target, hf]

theorem posend_buffer (st : NTSerialize) (hg : st._buffer.good = true) :
    (st.directive ntsdirective.posend)._buffer
      = { st._buffer with ppos := st._buffer.buf.length } := by
  have hf : st._buffer.failbit = false := by
    simp [Stream.good] at hg; exact hg.2
  simp [NTSerialize.directive, Stream.seekp, Stream.fail, Stream.target, hf]

/-- C27, as stated, fails: loading an empty file into a fresh instance returns
true and leaves the write cursor at offset 0 with the content `B` empty, yet
the load has raised the fail bit, so encoding the two-byte value 513 stores
nothing: the content stays empty and the write cursor stays at 0, where the
claim has the content `[1, 2]` and the cursor at 2. The same happens after the
seek-write-start directive on a buffer that a failed decode left unhealthy. -/
theorem encode_after_empty_load :
    ((NTSerialize.fresh.load "f.bin" ⟨fun _ => some [], fun _ => true, fun _ => 64⟩).1 = true ∧
      (NTSerialize.fresh.load "f.bin"
        ⟨fun _ => some [], fun _ => true, fun _ => 64⟩).2._buffer.buf = [] ∧
      (NTSerialize.fresh.load "f.bin"
        ⟨fun _ => some [], fun _ => true, fun _ => 64⟩).2._buffer.ppos = 0 ∧
      toBytes 2 513 = [1, 2] ∧
      (NTSerialize.write_fundamental 2 513 (NTSerialize.fresh.load "f.bin"
        ⟨fun _ => some [], fun _ => true, fun _ => 64⟩).2)._buffer.buf = [] ∧
      (NTSerialize.write_fundamental 2 513 (NTSerialize.fresh.load "f.bin"
        ⟨fun _ => some [], fun _ => true, fun _ => 64⟩).2)._buffer.ppos = 0) ∧
    (((NTSerialize.read_fundamental 1 0 NTSerialize.fresh).2.directive
        ntsdirective.posstart)._buffer.ppos = 0 ∧
      (NTSerialize.write_fundamental 2 513
        ((NTSerialize.read_fundamental 1 0 NTSerialize.fresh).2.directive
          ntsdirective.posstart))._buffer.buf = [] ∧
      (NTSerialize.write_fundamental 2 513
        ((NTSerialize.read_fundamental 1 0 NTSerialize.fresh).2.directive
          ntsdirective.posstart))._buffer.ppos = 0) := by
  decide

/-- C27, amended: encoding writes at the write cursor and overwrites in place. For
every healthy buffer with content `B` brought to write offset 0 by the
seek-write-start directive, and for a fresh instance that has loaded a
non-empty file `B`, encoding a value whose encoding is `e` yields the content
`e` followed by the bytes of `B` from offset `|e|` on (length
`max |B| |e|`), with the write cursor at `|e|`; after a following
seek-write-end directive the next encode appends after the last content
byte. -/
theorem overwrite_at_write_cursor {α : Type} (enc : α → NTSerialize → NTSerialize)
    (w : α → List Nat) (v v2 : α) (st : NTSerialize) (filename : String) (d : Disk)
    (F : List Nat) (henc : Encodes enc w) (hg : st._buffer.good = true)
    (hF : d.file filename = some F) (hne : F ≠ []) :
    ((enc v (st.directive ntsdirective.posstart))._buffer.buf
        = w v ++ st._buffer.buf.drop (w v).length ∧
      (enc v (st.directive ntsdirective.posstart))._buffer.buf.length
        = max st._buffer.buf.length (w v).length ∧
      (enc v (st.directive ntsdirective.posstart))._buffer.ppos = (w v).length) ∧
    ((enc v (NTSerialize.fresh.load filename d).2)._buffer.buf = w v ++ F.drop (w v).length ∧
      (enc v (NTSerialize.fresh.load filename d).2)._buffer.buf.length
        = max F.length (w v).length ∧
      (enc v (NTSerialize.fresh.load filename d).2)._buffer.ppos = (w v).length) ∧
    (enc v2 ((enc v (st.directive ntsdirective.posstart)).directive
        ntsdirective.posend))._buffer.buf
      = (enc v (st.directive ntsdirective.posstart))._buffer.buf ++ w v2 := by
  have h1 : (enc v (st.directive ntsdirective.posstart))._buffer
      = { st._buffer with buf := w v ++ st._buffer.buf.drop (w v).length,
                          ppos := (w v).length } := by
    rw [(henc v _).1, posstart_buffer st hg,
      Stream.write_at_zero _ _ (by simpa [Stream.good] using hg) rfl]
  have h2 : (enc v (NTSerialize.fresh.load filename d).2)._buffer
      = ⟨w v ++ F.drop (w v).length, 0, (w v).length, false, false⟩ := by
    rw [(henc v _).1, load_fresh filename d F hF hne,
      Stream.write_at_zero ⟨F, 0, 0, false, false⟩ (w v) rfl rfl]
  have hg1 : (enc v (st.directive ntsdirective.posstart))._buffer.good = true := by
    rw [h1]; simpa [Stream.good] using hg
  have h3 := posend_buffer (enc v (st.directive ntsdirective.posstart)) hg1
  refine ⟨⟨by rw [h1], by rw [h1]; simp; omega, by rw [h1]⟩,
    ⟨by rw [h2], by rw [h2]; simp; omega, by rw [h2]⟩, ?_⟩
  rw [(henc v2 _).1, h3, Stream.write_at_end _ _ (by simpa [Stream.good] using hg1) rfl]

theorem overwrite_at_write_cursor_witness :
    (Encodes (NTSerialize.write_fundamental 2) (toBytes 2) ∧
      (NTSerialize.write_fundamental 4 7 NTSerialize.fresh)._buffer.good = true ∧
      (⟨fun _ => some [9, 8, 7], fun _ => true, fun _ => 64⟩ : Disk).file "f.bin" = some [9, 8, 7]) ∧
    (NTSerialize.write_fundamental 2 513
      ((NTSerialize.write_fundamental 4 7 NTSerialize.fresh).directive
        ntsdirective.posstart))._buffer.buf = [1, 2, 0, 0] ∧
    (NTSerialize.write_fundamental 2 513
      (NTSerialize.fresh.load "f.bin" ⟨fun _ => some [9, 8, 7], fun _ => true, fun _ => 64⟩).2)._buffer.buf
      = [1, 2, 7] :=
  ⟨⟨NTSerialize.encodes_fundamental 2, rfl, rfl⟩,
    (overwrite_at_write_cursor (NTSerialize.write_fundamental 2) (toBytes 2) 513 0
      (NTSerialize.write_fundamental 4 7 NTSerialize.fresh) "f.bin"
      ⟨fun _ => some [9, 8, 7], fun _ => true, fun _ => 64⟩ [9, 8, 7] (NTSerialize.encodes_fundamental 2)
      rfl rfl (by decide)).1.1,
    (overwrite_at_write_cursor (NTSerialize.write_fundamental 2) (toBytes 2) 513 0
      (NTSerialize.write_fundamental 4 7 NTSerialize.fresh) "f.bin"
      ⟨fun _ => some [9, 8, 7], fun _ => true, fun _ => 64⟩ [9, 8, 7] (NTSerialize.encodes_fundamental 2)
      rfl rfl (by decide)).2.1.1⟩

theorem encodes_stack_fresh {α : Type} {enc : α → NTSerialize → NTSerialize}
    {w : α → List Nat} (h : Encodes enc w) (T : α) (data : List α) (st : NTSerialize)
    (hst : st._buffer = Stream.empty) :
    (NTSerialize.write_stack enc T data st).1._buffer
      = ⟨wire_counted w data, 0, (wire_counted w data).length, false, false⟩ := by
  rw [(NTSerialize.write_stack_buffer h T data st).1,
    Stream.write_at_end _ _ (by rw [hst]; rfl) (by rw [hst]; rfl), hst]
  simp [Stream.empty]

/-- C28: decode replaces the destination for sequence shapes and merges into
it for associative and adapter shapes. Decoding a dynamic array, deque, list or
text yields exactly the encoded value whatever the destination held; decoding
a set into a destination `dset` yields the entries of `dset` together with the
decoded ones; decoding a map into a destination `dmap` yields the entries of
`dmap` together with the decoded entries whose key is not in `dmap` (on a key
already there the prior value is kept); and decoding a stack into a stack
`sdst` leaves the elements of `sdst` underneath the decoded ones. -/
theorem decode_replaces_or_merges (W : Nat) (xs dst txt tdst ks dset sx sdst : List Nat)
    (ps dmap : List (Nat × Nat)) (val_ : Nat → Nat) (pval_ : Nat → Nat × Nat)
    (st : NTSerialize) (hst : st._buffer = Stream.empty)
    (hxs : xs.length < 2 ^ 64 ∧ ∀ x ∈ xs, x < 256 ^ W) (htxt : txt.length < 2 ^ 64)
    (hks : ks.length < 2 ^ 64 ∧ ∀ x ∈ ks, x < 256 ^ W)
    (hps : ps.length < 2 ^ 64 ∧ ∀ p ∈ ps, p.1 < 256 ^ W ∧ p.2 < 256 ^ W)
    (hpsort : ps.Pairwise (fun a b => a.1 < b.1))
    (hdsort : dmap.Pairwise (fun a b => a.1 < b.1))
    (hsx : sx.length < 2 ^ 64 ∧ ∀ x ∈ sx, x < 256 ^ W) :
    ((NTSerialize.read_vector (NTSerialize.read_fundamental W) 0 dst
        (NTSerialize.write_vector (NTSerialize.write_fundamental W) xs st)).1 = xs ∧
      (NTSerialize.read_deque (NTSerialize.read_fundamental W) 0 dst
        (NTSerialize.write_deque (NTSerialize.write_fundamental W) xs st)).1 = xs ∧
      (NTSerialize.read_list (NTSerialize.read_fundamental W) 0 dst
        (NTSerialize.write_list (NTSerialize.write_fundamental W) xs st)).1 = xs ∧
      (NTSerialize.read_string tdst (NTSerialize.write_string txt st)).1 = txt) ∧
    (∀ y, y ∈ (NTSerialize.read_set (NTSerialize.read_fundamental W) val_ dset
        (NTSerialize.write_set (NTSerialize.write_fundamental W) ks st)).1
      ↔ y ∈ dset ∨ y ∈ ks) ∧
    (∀ p, p ∈ (NTSerialize.read_map (NTSerialize.read_fundamental W)
        (NTSerialize.read_fundamental W) pval_ dmap
        (NTSerialize.write_map (NTSerialize.write_fundamental W)
          (NTSerialize.write_fundamental W) ps st)).1
      ↔ p ∈ dmap ∨ (p ∈ ps ∧ ∀ q ∈ dmap, q.1 ≠ p.1)) ∧
    (NTSerialize.read_stack (NTSerialize.read_fundamental W) 0 val_ sdst
      (NTSerialize.write_stack (NTSerialize.write_fundamental W) 0 sx st).1).1
      = sx ++ sdst := by
  have hW := NTSerialize.encodes_fundamental W
  have hD := NTSerialize.decodes_fundamental W
  have h64 : ∀ n : Nat, n < 2 ^ 64 → n < 256 ^ sizeof_size_t := by
    intro n h; simpa [sizeof_size_t] using h
  refine ⟨⟨?_, ?_, ?_, ?_⟩, ?_, ?_, ?_⟩
  · have henc := (NTSerialize.encodes_vector hW).fresh_of xs st hst
    exact (NTSerialize.decodes_counted hD 0 xs dst _ [] (h64 _ hxs.1) hxs.2
      (by rw [henc]; rfl) (by rw [henc]; simp)).1
  · have henc := (NTSerialize.encodes_deque hW).fresh_of xs st hst
    exact (NTSerialize.decodes_counted hD 0 xs dst _ [] (h64 _ hxs.1) hxs.2
      (by rw [henc]; rfl) (by rw [henc]; simp)).1
  · have henc := (NTSerialize.encodes_list hW).fresh_of xs st hst
    exact (NTSerialize.decodes_counted hD 0 xs dst _ [] (h64 _ hxs.1) hxs.2
      (by rw [henc]; rfl) (by rw [henc]; simp)).1
  · have henc := NTSerialize.encodes_string.fresh_of txt st hst
    exact (NTSerialize.decodes_string txt tdst _ [] (h64 _ htxt)
      (by rw [henc]; rfl) (by rw [henc]; simp)).1
  · intro y
    have henc := (NTSerialize.encodes_set hW).fresh_of ks st hst
    obtain ⟨e1, -⟩ := NTSerialize.read_inserting_spec hD val_ NTSerialize.set_insert ks dset
      (NTSerialize.write_set (NTSerialize.write_fundamental W) ks st) [] (h64 _ hks.1) hks.2
      (by rw [henc]; rfl) (by rw [henc]; simp)
    simp only [NTSerialize.read_set]
    rw [e1]
    exact foldl_set_insert_mem ks dset y
  · intro p
    have henc := (NTSerialize.encodes_map hW hW).fresh_of ps st hst
    obtain ⟨e1, -⟩ := NTSerialize.read_inserting_spec (NTSerialize.decodes_pair hD hD) pval_
      NTSerialize.map_insert ps dmap
      (NTSerialize.write_map (NTSerialize.write_fundamental W)
        (NTSerialize.write_fundamental W) ps st) [] (h64 _ hps.1) hps.2
      (by rw [henc]; rfl) (by rw [henc]; simp)
    simp only [NTSerialize.read_map]
    rw [e1, foldl_map_insert_mem ps dmap p hdsort, find_key_iff_mem ps p hpsort]
    exact or_congr_right and_comm
  · have henc := encodes_stack_fresh hW 0 sx st hst
    exact (NTSerialize.read_stack_spec hD 0 val_ sx sdst _ [] (h64 _ hsx.1) hsx.2
      (by rw [henc]; rfl) (by rw [henc]; simp)).1

theorem decode_replaces_or_merges_witness :
    (NTSerialize.fresh._buffer = Stream.empty ∧
      [((20 : Nat), (7 : Nat)), (30, 3)].Pairwise (fun a b => a.1 < b.1) ∧
      [((10 : Nat), (1 : Nat)), (20, 2)].Pairwise (fun a b => a.1 < b.1)) ∧
    (NTSerialize.read_vector (NTSerialize.read_fundamental 4) 0 [9, 9, 9, 9]
      (NTSerialize.write_vector (NTSerialize.write_fundamental 4) [1, 2]
        NTSerialize.fresh)).1 = [1, 2] ∧
    (NTSerialize.read_stack (NTSerialize.read_fundamental 4) 0 (fun _ => 0) [5, 6]
      (NTSerialize.write_stack (NTSerialize.write_fundamental 4) 0 [30, 20, 10]
        NTSerialize.fresh).1).1 = [30, 20, 10] ++ [5, 6] :=
  ⟨⟨rfl, by decide, by decide⟩,
    (decode_replaces_or_merges 4 [1, 2] [9, 9, 9, 9] [65] [66, 67] [10, 20] [20, 40]
      [30, 20, 10] [5, 6] [(20, 7), (30, 3)] [(10, 1), (20, 2)] (fun _ => 0) (fun _ => (0, 0))
      NTSerialize.fresh rfl ⟨by norm_num, by decide⟩ (by norm_num) ⟨by norm_num, by decide⟩
      ⟨by norm_num, by decide⟩ (by decide) (by decide) ⟨by norm_num, by decide⟩).1.1,
    (decode_replaces_or_merges 4 [1, 2] [9, 9, 9, 9] [65] [66, 67] [10, 20] [20, 40]
      [30, 20, 10] [5, 6] [(20, 7), (30, 3)] [(10, 1), (20, 2)] (fun _ => 0) (fun _ => (0, 0))
      NTSerialize.fresh rfl ⟨by norm_num, by decide⟩ (by norm_num) ⟨by norm_num, by decide⟩
      ⟨by norm_num, by decide⟩ (by decide) (by decide) ⟨by norm_num, by decide⟩).2.2.2⟩

/-! ## Every operator of the header -/

theorem IsEncoder.wire_exists {α : Type} {enc : α → NTSerialize → NTSerialize}
    (h : IsEncoder α enc) : ∃ w, Encodes enc w := by
  induction h with
  | fundamental W => exact ⟨_, NTSerialize.encodes_fundamental W⟩
  | class_ => exact ⟨_, NTSerialize.encodes_class⟩
  | string => exact ⟨_, NTSerialize.encodes_string⟩
  | vector _ ih =>
    obtain ⟨w, hw⟩ := ih
    exact ⟨_, NTSerialize.encodes_vector hw⟩
  | vector_bool => exact ⟨_, encodes_vector_bool⟩
  | deque _ ih =>
    obtain ⟨w, hw⟩ := ih
    exact ⟨_, NTSerialize.encodes_deque hw⟩
  | list _ ih =>
    obtain ⟨w, hw⟩ := ih
    exact ⟨_, NTSerialize.encodes_list hw⟩
  | array _ ih =>
    obtain ⟨w, hw⟩ := ih
    exact ⟨_, encodes_array hw⟩
  | builtin_array _ ih =>
    obtain ⟨w, hw⟩ := ih
    exact ⟨_, encodes_builtin_array hw⟩
  | set _ ih =>
    obtain ⟨w, hw⟩ := ih
    exact ⟨_, NTSerialize.encodes_set hw⟩
  | multiset _ ih =>
    obtain ⟨w, hw⟩ := ih
    exact ⟨_, NTSerialize.encodes_multiset hw⟩
  | unordered_set _ ih =>
    obtain ⟨w, hw⟩ := ih
    exact ⟨wire_counted w, fun xs st => NTSerialize.encodes_counted hw xs st⟩
  | unordered_multiset _ ih =>
    obtain ⟨w, hw⟩ := ih
    exact ⟨wire_counted w, fun xs st => NTSerialize.encodes_counted hw xs st⟩
  | pair _ _ ih1 ih2 =>
    obtain ⟨w1, hw1⟩ := ih1
    obtain ⟨w2, hw2⟩ := ih2
    exact ⟨_, NTSerialize.encodes_pair hw1 hw2⟩
  | map _ _ ih1 ih2 =>
    obtain ⟨w1, hw1⟩ := ih1
    obtain ⟨w2, hw2⟩ := ih2
    exact ⟨_, NTSerialize.encodes_map hw1 hw2⟩
  | multimap _ _ ih1 ih2 =>
    obtain ⟨w1, hw1⟩ := ih1
    obtain ⟨w2, hw2⟩ := ih2
    exact ⟨wire_counted (fun v => w1 v.1 ++ w2 v.2),
      fun xs st => NTSerialize.encodes_counted (NTSerialize.encodes_pair hw1 hw2) xs st⟩
  | unordered_map _ _ ih1 ih2 =>
    obtain ⟨w1, hw1⟩ := ih1
    obtain ⟨w2, hw2⟩ := ih2
    exact ⟨wire_counted (fun v => w1 v.1 ++ w2 v.2),
      fun xs st => NTSerialize.encodes_counted (NTSerialize.encodes_pair hw1 hw2) xs st⟩
  | unordered_multimap _ _ ih1 ih2 =>
    obtain ⟨w1, hw1⟩ := ih1
    obtain ⟨w2, hw2⟩ := ih2
    exact ⟨_, NTSerialize.encodes_unordered_multimap hw1 hw2⟩
  | testStruct1 => exact ⟨_, encodes_TestStruct1⟩
  | testStruct2 => exact ⟨_, encodes_TestStruct2⟩

theorem write_drain_loop_buffer {α : Type} {enc : α → NTSerialize → NTSerialize}
    {w : α → List Nat} (h : Encodes enc w) (data : List α) (st : NTSerialize) :
    (NTSerialize.write_drain_loop enc data.length st data).1._buffer
      = st._buffer.write (wire_each w data) ∧
    (NTSerialize.write_drain_loop enc data.length st data).1._is_debug = st._is_debug := by
  induction data generalizing st with
  | nil => simp [NTSerialize.write_drain_loop, wire_each]
  | cons x xs ih =>
    simp only [NTSerialize.write_drain_loop, List.length_cons, wire_each]
    rw [(ih (enc x st)).1, (ih (enc x st)).2, (h x st).1, (h x st).2, Stream.write_write]
    exact ⟨rfl, rfl⟩

theorem write_queue_buffer {α : Type} {enc : α → NTSerialize → NTSerialize}
    {w : α → List Nat} (h : Encodes enc w) (data : List α) (st : NTSerialize) :
    (NTSerialize.write_queue enc data st).1._buffer = st._buffer.write (wire_counted w data) ∧
    (NTSerialize.write_queue enc data st).1._is_debug = st._is_debug := by
  simp only [NTSerialize.write_queue]
  rw [(write_drain_loop_buffer h data _).1, (write_drain_loop_buffer h data _).2]
  simp [wire_counted, Stream.write_write]

theorem IsStackElementEncoder.wire_exists_element {α : Type}
    {enc : α → NTSerialize → NTSerialize} (h : IsStackElementEncoder α enc) :
    ∃ w, Encodes enc w := by
  induction h with
  | value he => exact he.wire_exists
  | stack _ T ih =>
    obtain ⟨w, hw⟩ := ih
    exact ⟨wire_counted w, fun data st => NTSerialize.write_stack_buffer hw T data st⟩

theorem IsAdapterEncoder.wire_exists_adapter {α : Type} {enc : List α → NTSerialize → NTSerialize × List α}
    (h : IsAdapterEncoder α enc) :
    ∃ w : List α → List Nat, ∀ data st,
      (enc data st).1._buffer = st._buffer.write (w data) ∧
      (enc data st).1._is_debug = st._is_debug ∧
      ∀ st', (enc data st).2 = (enc data st').2 := by
  cases h with
  | stack he T =>
    obtain ⟨w, hw⟩ := he.wire_exists_element
    refine ⟨wire_counted w, fun data st => ⟨(NTSerialize.write_stack_buffer hw T data st).1,
      (NTSerialize.write_stack_buffer hw T data st).2, fun st' => ?_⟩⟩
    rw [NTSerialize.write_stack_data, NTSerialize.write_stack_data]
  | queue he =>
    obtain ⟨w, hw⟩ := he.wire_exists
    refine ⟨wire_counted w, fun data st => ⟨(write_queue_buffer hw data st).1,
      (write_queue_buffer hw data st).2, fun st' => ?_⟩⟩
    exact (write_drain_loop_data _ data _).trans (write_drain_loop_data _ data _).symm
  | priority_queue he =>
    obtain ⟨w, hw⟩ := he.wire_exists
    refine ⟨wire_counted w, fun data st => ⟨(write_queue_buffer hw data st).1,
      (write_queue_buffer hw data st).2, fun st' => ?_⟩⟩
    exact (write_drain_loop_data _ data _).trans (write_drain_loop_data _ data _).symm

theorem streamOnly_class : StreamOnly NTSerialize.read_class := by
  intro d st st' h
  simp [NTSerialize.read_class, h]

theorem streamOnly_counted {α : Type} {dec : α → NTSerialize → α × NTSerialize}
    (h : StreamOnly dec) (T : α) (d : List α) (st st' : NTSerialize)
    (hst : st._buffer = st'._buffer) :
    (NTSerialize.read_each dec (NTSerialize.resize d (NTSerialize.read_size st).1 T)
        (NTSerialize.read_size st).2.trace).1
      = (NTSerialize.read_each dec (NTSerialize.resize d (NTSerialize.read_size st').1 T)
        (NTSerialize.read_size st').2.trace).1 ∧
    (NTSerialize.read_each dec (NTSerialize.resize d (NTSerialize.read_size st).1 T)
        (NTSerialize.read_size st).2.trace).2._buffer
      = (NTSerialize.read_each dec (NTSerialize.resize d (NTSerialize.read_size st').1 T)
        (NTSerialize.read_size st').2.trace).2._buffer := by
  obtain ⟨e1, e2⟩ := read_size_streamOnly st st' hst
  rw [e1]
  exact read_each_streamOnly h _ _ _ (by simpa using e2)

theorem read_vector_bool_loop_streamOnly (val_ : Nat → Bool) (ds : List Bool) (i : Nat)
    (st st' : NTSerialize) (hst : st._buffer = st'._buffer) :
    (NTSerialize.read_vector_bool_loop val_ ds i st).1
      = (NTSerialize.read_vector_bool_loop val_ ds i st').1 ∧
    (NTSerialize.read_vector_bool_loop val_ ds i st).2._buffer
      = (NTSerialize.read_vector_bool_loop val_ ds i st').2._buffer := by
  induction ds generalizing i st st' with
  | nil => exact ⟨rfl, hst⟩
  | cons d ds ih =>
    obtain ⟨e1, e2⟩ := streamOnly_fundamental 1 (NTSerialize.ofBool (val_ i)) st st' hst
    obtain ⟨f1, f2⟩ := ih (i + 1) _ _ e2
    simp only [NTSerialize.read_vector_bool_loop, e1, f1, f2, and_self]

theorem streamOnly_vector_bool (val_ : Nat → Bool) :
    StreamOnly (NTSerialize.read_vector_bool val_) := by
  intro d st st' hst
  obtain ⟨e1, e2⟩ := read_size_streamOnly st st' hst
  simp only [NTSerialize.read_vector_bool, e1]
  exact read_vector_bool_loop_streamOnly val_ _ 0 _ _ (by simpa using e2)

theorem streamOnly_array {α : Type} {dec : α → NTSerialize → α × NTSerialize}
    (h : StreamOnly dec) : StreamOnly (NTSerialize.read_array dec) := by
  intro d st st' hst
  exact read_each_streamOnly h d st.trace st'.trace (by simpa using hst)

theorem read_insert_streamOnly {α C : Type} {dec : α → NTSerialize → α × NTSerialize}
    (h : StreamOnly dec) (val_ : Nat → α) (ins : α → C → C) (n i : Nat) (data : C)
    (st st' : NTSerialize) (hst : st._buffer = st'._buffer) :
    (NTSerialize.read_insert dec val_ ins n i data st).1
      = (NTSerialize.read_insert dec val_ ins n i data st').1 ∧
    (NTSerialize.read_insert dec val_ ins n i data st).2._buffer
      = (NTSerialize.read_insert dec val_ ins n i data st').2._buffer := by
  induction n generalizing i data st st' with
  | zero => exact ⟨rfl, hst⟩
  | succ n ih =>
    obtain ⟨e1, e2⟩ := h (val_ i) st st' hst
    simp only [NTSerialize.read_insert, e1]
    exact ih (i + 1) _ _ _ e2

theorem streamOnly_inserting {α C : Type} {dec : α → NTSerialize → α × NTSerialize}
    (h : StreamOnly dec) (val_ : Nat → α) (ins : α → C → C) (data : C)
    (st st' : NTSerialize) (hst : st._buffer = st'._buffer) :
    (NTSerialize.read_insert dec val_ ins (NTSerialize.read_size st).1 0 data
        (NTSerialize.read_size st).2.trace).1
      = (NTSerialize.read_insert dec val_ ins (NTSerialize.read_size st').1 0 data
        (NTSerialize.read_size st').2.trace).1 ∧
    (NTSerialize.read_insert dec val_ ins (NTSerialize.read_size st).1 0 data
        (NTSerialize.read_size st).2.trace).2._buffer
      = (NTSerialize.read_insert dec val_ ins (NTSerialize.read_size st').1 0 data
        (NTSerialize.read_size st').2.trace).2._buffer := by
  obtain ⟨e1, e2⟩ := read_size_streamOnly st st' hst
  rw [e1]
  exact read_insert_streamOnly h val_ ins _ 0 data _ _ (by simpa using e2)

theorem read_stack_loop_streamOnly {α : Type} {dec : α → NTSerialize → α × NTSerialize}
    (h : StreamOnly dec) (val_ : Nat → α) (n i : Nat) (temp_ : List α)
    (st st' : NTSerialize) (hst : st._buffer = st'._buffer) :
    (NTSerialize.read_stack_loop dec val_ n i st temp_).2
      = (NTSerialize.read_stack_loop dec val_ n i st' temp_).2 ∧
    (NTSerialize.read_stack_loop dec val_ n i st temp_).1._buffer
      = (NTSerialize.read_stack_loop dec val_ n i st' temp_).1._buffer := by
  induction n generalizing i temp_ st st' with
  | zero => exact ⟨rfl, hst⟩
  | succ n ih =>
    obtain ⟨e1, e2⟩ := h (val_ i) st st' hst
    simp only [NTSerialize.read_stack_loop, e1]
    exact ih (i + 1) _ _ _ e2

theorem streamOnly_stack {α : Type} {dec : α → NTSerialize → α × NTSerialize}
    (h : StreamOnly dec) (T : α) (val_ : Nat → α) :
    StreamOnly (NTSerialize.read_stack dec T val_) := by
  intro d st st' hst
  obtain ⟨e1, e2⟩ := read_size_streamOnly st st' hst
  obtain ⟨f1, f2⟩ := read_stack_loop_streamOnly h val_ (NTSerialize.read_size st').1 0
    (NTSerialize.resize [] (NTSerialize.read_size st').1 T) (NTSerialize.read_size st).2.trace
    (NTSerialize.read_size st').2.trace (by simpa using e2)
  simp only [NTSerialize.read_stack, e1, f1, f2, and_self]

theorem streamOnly_TestStruct1 : StreamOnly NTSerialize.read_TestStruct1 := by
  intro d st st' hst
  obtain ⟨e1, e2⟩ := streamOnly_class d.image st st' hst
  simp only [NTSerialize.read_TestStruct1, e1, e2, and_self]

theorem streamOnly_TestStruct2 : StreamOnly NTSerialize.read_TestStruct2 := by
  intro d st st' hst
  obtain ⟨e1, e2⟩ := streamOnly_fundamental 4 d.x1 st st' hst
  obtain ⟨f1, f2⟩ := streamOnly_fundamental 4 d.x2 _ _ e2
  simp only [NTSerialize.read_TestStruct2, e1, f1, f2, and_self]

theorem IsDecoder.stream_only {α : Type} {dec : α → NTSerialize → α × NTSerialize}
    (h : IsDecoder α dec) : StreamOnly dec := by
  induction h with
  | fundamental W => exact streamOnly_fundamental W
  | class_ => exact streamOnly_class
  | string => exact streamOnly_string
  | vector _ T ih => exact streamOnly_vector ih T
  | vector_bool val_ => exact streamOnly_vector_bool val_
  | deque _ T ih => exact fun d st st' hst => streamOnly_counted ih T d st st' hst
  | forward_list _ T ih => exact fun d st st' hst => streamOnly_counted ih T d st st' hst
  | list _ T ih => exact fun d st st' hst => streamOnly_counted ih T d st st' hst
  | queue _ val_ ih => exact fun d st st' hst => streamOnly_inserting ih val_ _ d st st' hst
  | priority_queue _ val_ ih =>
    exact fun d st st' hst => streamOnly_inserting ih val_ _ d st st' hst
  | stack _ T val_ ih => exact streamOnly_stack ih T val_
  | array _ ih => exact streamOnly_array ih
  | builtin_array _ ih => exact streamOnly_array ih
  | set _ val_ ih => exact fun d st st' hst => streamOnly_inserting ih val_ _ d st st' hst
  | multiset _ val_ ih => exact fun d st st' hst => streamOnly_inserting ih val_ _ d st st' hst
  | unordered_set slot _ val_ ih =>
    exact fun d st st' hst => streamOnly_inserting ih val_ _ d st st' hst
  | unordered_multiset slot _ val_ ih =>
    exact fun d st st' hst => streamOnly_inserting ih val_ _ d st st' hst
  | pair _ _ ih1 ih2 => exact streamOnly_pair ih1 ih2
  | map _ _ val_ ih1 ih2 =>
    exact fun d st st' hst =>
      streamOnly_inserting (streamOnly_pair ih1 ih2) val_ _ d st st' hst
  | multimap _ _ val_ ih1 ih2 =>
    exact fun d st st' hst =>
      streamOnly_inserting (streamOnly_pair ih1 ih2) val_ _ d st st' hst
  | unordered_map slot _ _ val_ ih1 ih2 =>
    exact fun d st st' hst =>
      streamOnly_inserting (streamOnly_pair ih1 ih2) val_ _ d st st' hst
  | unordered_multimap slot _ _ val_ ih1 ih2 =>
    exact fun d st st' hst =>
      streamOnly_inserting (streamOnly_pair ih1 ih2) val_ _ d st st' hst
  | testStruct1 => exact streamOnly_TestStruct1
  | testStruct2 => exact streamOnly_TestStruct2

theorem Call.run_blind (c : Call) (st st' : NTSerialize) (h : st._buffer = st'._buffer) :
    (c.run st).1._buffer = (c.run st').1._buffer ∧ (c.run st).2 = (c.run st').2 := by
  cases c with
  | encode enc he v =>
    obtain ⟨w, hw⟩ := he.wire_exists
    simp only [Call.run, and_true]
    rw [(hw v st).1, (hw v st').1, h]
  | encodeAdapter enc he data =>
    obtain ⟨w, hw⟩ := he.wire_exists_adapter
    simp only [Call.run]
    rw [(hw data st).1, (hw data st').1, h, (hw data st).2.2 st']
    exact ⟨rfl, rfl⟩
  | decode dec hd d =>
    obtain ⟨e1, e2⟩ := hd.stream_only d st st' h
    simp only [Call.run, e1, e2, and_self]
  | directive command => exact ⟨directive_streamOnly command st st' h, rfl⟩
  | setpos pos way => simp [Call.run, NTSerialize.setpos, h]

theorem runCalls_blind (calls : List Call) (st st' : NTSerialize)
    (h : st._buffer = st'._buffer) :
    (runCalls calls st).1._buffer = (runCalls calls st').1._buffer ∧
    (runCalls calls st).2 = (runCalls calls st').2 := by
  induction calls generalizing st st' with
  | nil => exact ⟨h, rfl⟩
  | cons c cs ih =>
    obtain ⟨e1, e2⟩ := Call.run_blind c st st' h
    obtain ⟨f1, f2⟩ := ih _ _ e1
    simp only [runCalls, e2, f1, f2, and_self]

/-- C16: the enable-trace and disable-trace directives change nothing but the
trace flag, and for every sequence of calls run from the same buffer, each an
encode or a decode through any operator of the header that can be instantiated
(fundamental and class values, text, every container, adapter, array, pair and
map, nested to any depth, and the records of the test file; the forward list
through its decoder), a directive (clear, the two write-cursor seeks, trace on,
trace off) or a read-cursor move, the resulting stream (content, both cursors,
state bits), the decoded values and the adapters the encodes leave behind are
the same whether the trace flag was switched on or off before. -/
theorem trace_flag_blind (calls : List Call) (st : NTSerialize) :
    st.directive ntsdirective.debug = { st with _is_debug := true } ∧
    st.directive ntsdirective.nodebug = { st with _is_debug := false } ∧
    (runCalls calls (st.directive ntsdirective.debug)).1._buffer
      = (runCalls calls (st.directive ntsdirective.nodebug)).1._buffer ∧
    (runCalls calls (st.directive ntsdirective.debug)).2
      = (runCalls calls (st.directive ntsdirective.nodebug)).2 :=
  ⟨rfl, rfl, runCalls_blind calls _ _ rfl⟩

theorem frame_class (d : List Nat) (st : NTSerialize) :
    ReadFrame st (NTSerialize.read_class d st).2 := by
  have h := Stream.read_frame st._buffer d d.length
  simpa [ReadFrame, NTSerialize.read_class] using h

theorem frame_vector_bool_loop (val_ : Nat → Bool) (ds : List Bool) (i : Nat)
    (st : NTSerialize) : ReadFrame st (NTSerialize.read_vector_bool_loop val_ ds i st).2 := by
  induction ds generalizing i st with
  | nil => exact ReadFrame.refl st
  | cons d ds ih => exact (frame_fundamental 1 _ st).trans (ih _ _)

theorem frame_vector_bool (val_ : Nat → Bool) (d : List Bool) (st : NTSerialize) :
    ReadFrame st (NTSerialize.read_vector_bool val_ d st).2 := by
  have e1 := frame_read_size st
  have e2 := (frame_vector_bool_loop val_
    (NTSerialize.resize d (NTSerialize.read_size st).1 false) 0
    (NTSerialize.read_size st).2.trace).from_buffer (c := (NTSerialize.read_size st).2) (by simp)
  exact e1.trans e2

theorem frame_array {α : Type} {dec : α → NTSerialize → α × NTSerialize}
    (h : ∀ d st, ReadFrame st (dec d st).2) (d : List α) (st : NTSerialize) :
    ReadFrame st (NTSerialize.read_array dec d st).2 :=
  (frame_each h d st.trace).from_buffer (c := st) (by simp)

theorem frame_TestStruct1 (d : TestStruct1) (st : NTSerialize) :
    ReadFrame st (NTSerialize.read_TestStruct1 d st).2 :=
  frame_class d.image st

theorem frame_TestStruct2 (d : TestStruct2) (st : NTSerialize) :
    ReadFrame st (NTSerialize.read_TestStruct2 d st).2 :=
  (frame_fundamental 4 d.x1 st).trans (frame_fundamental 4 d.x2 _)

theorem IsDecoder.read_frame_all {α : Type} {dec : α → NTSerialize → α × NTSerialize}
    (h : IsDecoder α dec) : ∀ d st, ReadFrame st (dec d st).2 := by
  induction h with
  | fundamental W => exact frame_fundamental W
  | class_ => exact frame_class
  | string => exact frame_string
  | vector _ T ih => exact frame_vector ih T
  | vector_bool val_ => exact frame_vector_bool val_
  | deque _ T ih => exact fun d st => frame_vector ih T d st
  | forward_list _ T ih => exact fun d st => frame_vector ih T d st
  | list _ T ih => exact fun d st => frame_vector ih T d st
  | queue _ val_ ih => exact fun d st => frame_inserting ih val_ _ d st
  | priority_queue _ val_ ih => exact fun d st => frame_inserting ih val_ _ d st
  | stack _ T val_ ih => exact frame_stack ih T val_
  | array _ ih => exact frame_array ih
  | builtin_array _ ih => exact fun d st => frame_array ih d st
  | set _ val_ ih => exact fun d st => frame_inserting ih val_ _ d st
  | multiset _ val_ ih => exact fun d st => frame_inserting ih val_ _ d st
  | unordered_set slot _ val_ ih => exact fun d st => frame_inserting ih val_ _ d st
  | unordered_multiset slot _ val_ ih => exact fun d st => frame_inserting ih val_ _ d st
  | pair _ _ ih1 ih2 => exact frame_pair ih1 ih2
  | map _ _ val_ ih1 ih2 =>
    exact fun d st => frame_inserting (frame_pair ih1 ih2) val_ _ d st
  | multimap _ _ val_ ih1 ih2 =>
    exact fun d st => frame_inserting (frame_pair ih1 ih2) val_ _ d st
  | unordered_map slot _ _ val_ ih1 ih2 =>
    exact fun d st => frame_inserting (frame_pair ih1 ih2) val_ _ d st
  | unordered_multimap slot _ _ val_ ih1 ih2 =>
    exact fun d st => frame_inserting (frame_pair ih1 ih2) val_ _ d st
  | testStruct1 => exact frame_TestStruct1
  | testStruct2 => exact frame_TestStruct2

/-- C23: the read and write cursors are independent. For every buffer state
and every operator of the header that can be instantiated (fundamental and
class values, text, dynamic array, bit array, deque, list, queue, priority
queue, stack, both fixed-size arrays, set, multiset, map, multimap, their four
unordered counterparts and pairs, nested to any depth, and the records of the
test file; for the forward list the decoder), an encode leaves the read cursor
unchanged, an encode of an adapter leaves the read cursor unchanged, and a
decode leaves the content bytes and the write cursor unchanged and moves the
read cursor forward only. -/
theorem cursors_independent {α β γ : Type} (enc : α → NTSerialize → NTSerialize)
    (aenc : List β → NTSerialize → NTSerialize × List β)
    (dec : γ → NTSerialize → γ × NTSerialize) (v : α) (data : List β) (d : γ)
    (st : NTSerialize) (he : IsEncoder α enc) (ha : IsAdapterEncoder β aenc)
    (hd : IsDecoder γ dec) :
    (enc v st)._buffer.gpos = st._buffer.gpos ∧
    (aenc data st).1._buffer.gpos = st._buffer.gpos ∧
    ReadFrame st (dec d st).2 := by
  obtain ⟨w, hw⟩ := he.wire_exists
  obtain ⟨wa, hwa⟩ := ha.wire_exists_adapter
  refine ⟨hw.gpos v st, ?_, hd.read_frame_all d st⟩
  rw [(hwa data st).1]
  simp

theorem cursors_independent_witness :
    (IsEncoder (List (List Nat × Nat))
        (NTSerialize.write_unordered_map NTSerialize.write_string
          (NTSerialize.write_fundamental 4)) ∧
      IsAdapterEncoder Nat (NTSerialize.write_priority_queue (NTSerialize.write_fundamental 4)) ∧
      IsDecoder (List (List Bool))
        (NTSerialize.read_forward_list (NTSerialize.read_vector_bool (fun _ => false)) [])) ∧
    (NTSerialize.write_unordered_map NTSerialize.write_string (NTSerialize.write_fundamental 4)
        [([65], 1)] (NTSerialize.write_fundamental 1 7 NTSerialize.fresh))._buffer.gpos = 0 ∧
    (NTSerialize.write_priority_queue (NTSerialize.write_fundamental 4) [30, 20, 10]
        (NTSerialize.write_fundamental 1 7 NTSerialize.fresh)).1._buffer.gpos = 0 ∧
    ReadFrame (NTSerialize.write_fundamental 1 7 NTSerialize.fresh)
      (NTSerialize.read_forward_list (NTSerialize.read_vector_bool (fun _ => false)) [] []
        (NTSerialize.write_fundamental 1 7 NTSerialize.fresh)).2 :=
  ⟨⟨IsEncoder.unordered_map IsEncoder.string (IsEncoder.fundamental 4),
      IsAdapterEncoder.priority_queue (IsEncoder.fundamental 4),
      IsDecoder.forward_list (IsDecoder.vector_bool (fun _ => false)) []⟩,
    cursors_independent _ _ _ [([65], 1)] [30, 20, 10] []
      (NTSerialize.write_fundamental 1 7 NTSerialize.fresh)
      (IsEncoder.unordered_map IsEncoder.string (IsEncoder.fundamental 4))
      (IsAdapterEncoder.priority_queue (IsEncoder.fundamental 4))
      (IsDecoder.forward_list (IsDecoder.vector_bool (fun _ => false)) [])⟩

end ntllct
